import Mathlib

/-!
COMMAND_CLASS_METER (`src/command_classes/Meter.cpp`)

A shallow embedding of the Z-Wave meter command class (report decoder, capability
report handler, request builder) and theorems about it.

Conventions of the embedding.

* `uint8_t`, `uint16_t` and `uint32_t` values are natural numbers; every place
  where the C++ truncates is written with an explicit `% 2 ^ w`.
* `_data` is a list of bytes; `_data[i]` is `readByte _data i`, which is a
  `Fault.outOfRange` when `i` is not an index of the list.  A fault is not a
  rejection: a rejection is the C++ `return false`.
* `_length` is an argument of its own, as in the C++; nothing ties it to the
  number of bytes of `_data` except what the code checks.
* `GetVersion ()` and `GetMaxVersion ()` are the fields of `Ctx`.
* A `double` is the rational number it denotes.  Every floating-point operation
  of the C++ (`/`, `*`, `-`, the literal `0.01`, `pow`) is the exact operation
  followed by `binary64`, the rounding to the nearest IEEE 754 binary64 value,
  ties to even: each operation is evaluated in `double`, not in a wider
  format.  Comparisons and `abs` are exact.  Infinities and NaN are not
  embedded: no value computed from a report comes near the largest `double`.
* The value of an `int` shift by 32 bits or more, which C++ leaves undefined, is
  what the `wideShift` field of `Ctx` says, and nothing is assumed about it: the
  shift yields some value on every platform and the function goes on, whereas a
  read outside the payload is a fault.
-/

namespace Meter

/-! ## Constants -/

/-- The command bytes of `enum MeterCmd`. -/
def MeterCmd_Get : Nat := 0x01
def MeterCmd_Report : Nat := 0x02
def MeterCmd_SupportedGet : Nat := 0x03
def MeterCmd_SupportedReport : Nat := 0x04
def MeterCmd_Reset : Nat := 0x05

/-- The ordinals of `enum MeterType`. -/
def MeterType_Electric : Nat := 1
def MeterType_Gas : Nat := 2
def MeterType_Water : Nat := 3
def MeterType_Heating : Nat := 4
def MeterType_Cooling : Nat := 5

/-- Modelled from the spec: `c_meterTypeMask` is declared in `Meter.h`, which is
not part of the sources; the quantity-type ordinal is bits 0-4 of byte 1. -/
def c_meterTypeMask : Nat := 0x1f

/-- Modelled from the spec: `c_rateTypeMask` is declared in `Meter.h`; the
rate-type raw field is bits 5-6 of byte 1. -/
def c_rateTypeMask : Nat := 0x60

/-- Modelled from the spec: `c_rateTypeShift` is declared in `Meter.h`; the
rate type decodes to a value in `[0,4)`, so bits 5-6 are shifted down by 5. -/
def c_rateTypeShift : Nat := 5

/-- Modelled from the spec: `c_sizeMask` is declared in `Meter.h`; the element
size is bits 0-2 of byte 2. -/
def c_sizeMask : Nat := 0x07

/-- Modelled from the spec: `c_scaleMask` is declared in `Meter.h`; the low
scale bits are bits 3-4 of byte 2. -/
def c_scaleMask : Nat := 0x18

/-- Modelled from the spec: `c_scaleShift` is declared in `Meter.h`; the low
scale bits decode to 0-3, so bits 3-4 are shifted down by 3. -/
def c_scaleShift : Nat := 3

/-- Modelled from the spec: `c_precisionMask` is declared in `Meter.h`; the
precision is bits 5-7 of byte 2. -/
def c_precisionMask : Nat := 0xe0

/-- Modelled from the spec: `c_precisionShift` is declared in `Meter.h`; the
precision decodes to 0-7, so bits 5-7 are shifted down by 5. -/
def c_precisionShift : Nat := 5

/-! ## Faults and byte access -/

/-- The ways a call can end without returning.  (A shift by 32 bits or more is
not one of them: see `Ctx`.) -/
inductive Fault where
  | outOfRange (index : Nat)
  | nullDeref
  | badCast
  | absentKey (key : Nat)
  deriving DecidableEq, Repr

deriving instance DecidableEq for Except

/-- The C++ `_data[i]`: the byte at index `i`, a fault when there is none. -/
def readByte (data : List Nat) (i : Nat) : Except Fault Nat :=
  match data[i]? with
  | some b => .ok b
  | none => .error (.outOfRange i)

/-- What the class is told by its surroundings: `GetVersion ()`,
`GetMaxVersion ()`, whether `GetNodeUnsafe ()` finds the node, and the
`COMPAT_FLAG_GETSUPPORTED` flag.  `wideShift x s` is the value the platform
gives to the `int` shift `x << s` when `s` is 32 or more, which C++ leaves
undefined; nothing is assumed about it, and no result stated on a context that
is written out depends on the value it has there. -/
structure Ctx where
  version : Nat
  maxVersion : Nat
  nodePresent : Bool
  getSupported : Bool
  wideShift : Nat → Nat → Nat := fun _ _ => 0

/-! ## Field decoders -/

/-- `Meter::GetMeterType`: the returned flag and the `_meterType` out-parameter. -/
def GetMeterType (version : Nat) (data : List Nat) : Except Fault (Bool × Nat) := do
  let b1 ← readByte data 1
  let meterType := b1 &&& c_meterTypeMask
  if meterType ≥ MeterType_Electric then
    if version = 1 ∨ version = 2 ∨ version = 3 then
      if meterType ≤ MeterType_Water then return (true, meterType)
      else return (false, meterType)
    else
      if meterType ≤ MeterType_Cooling then return (true, meterType)
      else return (false, meterType)
  else
    return (false, meterType)

/-- `Meter::GetRateType`: the returned flag and the `_rateType` out-parameter. -/
def GetRateType (version : Nat) (data : List Nat) : Except Fault (Bool × Nat) :=
  if version = 1 then
    .ok (true, 0x00)
  else if version = 2 ∨ version = 3 then do
    let b1 ← readByte data 1
    let rateType := ((b1 &&& c_rateTypeMask) >>> c_rateTypeShift) % 2 ^ 8
    if rateType < 0x04 then return (true, rateType) else return (false, rateType)
  else do
    let b1 ← readByte data 1
    let rateType := ((b1 &&& c_rateTypeMask) >>> c_rateTypeShift) % 2 ^ 8
    return (true, rateType)

/-- `Meter::GetValueElementSize`: the returned flag and `_elementSize`. -/
def GetValueElementSize (data : List Nat) : Except Fault (Bool × Nat) := do
  let b2 ← readByte data 2
  let elementSize := b2 &&& c_sizeMask
  if elementSize = 1 ∨ elementSize = 2 ∨ elementSize = 4 then
    return (true, elementSize)
  else
    return (false, elementSize)

/-- The three out-parameters of `Meter::GetScale`. -/
structure Scales where
  scale : Nat
  scale1 : Nat
  scale2 : Nat
  deriving DecidableEq, Repr

/-- `Meter::GetScale`.  The function always returns `true`, so only the
out-parameters are kept.  `_scale` and `_scale1` are uninitialised when the
version is 0; the embedding starts them at 0.  The index `_length - 2` is
computed in `uint32_t`. -/
def GetScale (version : Nat) (data : List Nat) (length : Nat) : Except Fault Scales := do
  let s0 : Scales := { scale := 0, scale1 := 0, scale2 := 0 }
  let s1 ← if version ≥ 1 then do
      let b2 ← readByte data 2
      let scale1 := ((b2 &&& c_scaleMask) >>> c_scaleShift) % 2 ^ 8
      pure { s0 with scale1 := scale1, scale := scale1 }
    else pure s0
  let s2 ← if version ≥ 3 then do
      let b1 ← readByte data 1
      let scale1 := (s1.scale1 ||| ((b1 &&& 0x80) >>> 5)) % 2 ^ 8
      pure { s1 with scale1 := scale1, scale := scale1 }
    else pure s1
  if version ≥ 4 then
    if s2.scale1 = 7 then do
      let b ← readByte data ((length + 2 ^ 32 - 2) % 2 ^ 32)
      let scale2 := (b + 8) % 2 ^ 8
      pure { s2 with scale2 := scale2, scale := scale2 }
    else pure s2
  else pure s2

/-- `Meter::GetPrecision`: always returns `true`; the `_precision` out-parameter. -/
def GetPrecision (data : List Nat) : Except Fault Nat := do
  let b2 ← readByte data 2
  return ((b2 &&& c_precisionMask) >>> c_precisionShift) % 2 ^ 8

/-- The `expectedLength` computed by `Meter::ValidateLengthOfMessage`, in
`uint32_t`. -/
def expectedLength (version elementSize scale deltaTime : Nat) : Nat :=
  let e0 : Nat := 0
  let e1 := if version ≥ 1 then (e0 + (4 + elementSize)) % 2 ^ 32 else e0
  let e2 := if version ≥ 2 then
      let e := (e1 + 2) % 2 ^ 32
      if deltaTime > 0 then (e + elementSize) % 2 ^ 32 else e
    else e1
  let e3 := if version ≥ 5 then
      if scale = 0x07 then (e2 + 1) % 2 ^ 32 else e2
    else e2
  e3

/-- `Meter::ValidateLengthOfMessage`.  The `_data` argument is not read. -/
def ValidateLengthOfMessage (version elementSize scale deltaTime length : Nat) : Bool :=
  if expectedLength version elementSize scale deltaTime = length then true else false

/-! ## The value codec -/

/-- The value of a 32-bit pattern read as `int32_t` (two's complement). -/
def toInt32 (u : Nat) : Int :=
  if u % 2 ^ 32 < 2 ^ 31 then (u % 2 ^ 32 : Nat) else ((u % 2 ^ 32 : Nat) : Int) - 2 ^ 32

/-- The accumulation loop of `Meter::GetReportValue`,
`for (int i = 0; i < _elementSize; i++) value = (value << 8) + _data[i];`,
on the 32-bit pattern of the `int32_t value`. -/
def accumulateBytes (data : List Nat) (elementSize : Nat) : Except Fault Nat :=
  (List.range elementSize).foldlM
    (fun value i => do
      let b ← readByte data i
      pure (((value <<< 8) % 2 ^ 32 + b) % 2 ^ 32))
    0

/-- The integer part of `Meter::GetReportValue`: the accumulation loop, then the
sign extension guarded by `_data[0] & 0x80`, read as `int32_t`. -/
def reportInteger (data : List Nat) (elementSize : Nat) : Except Fault Int := do
  let value ← accumulateBytes data elementSize
  let b0 ← readByte data 0
  let value :=
    if b0 &&& 0x80 ≠ 0 then
      if elementSize = 1 then value ||| 0xffffff00
      else if elementSize = 2 then value ||| 0xffff0000
      else value
    else value
  return toInt32 value

/-- Rounding of a rational to the nearest integer, ties to even: the rounding
`printf` applies to the exact value of its argument. -/
def roundHalfEven (x : ℚ) : Int :=
  let f := ⌊x⌋
  let d := x - f
  if d < 1 / 2 then f
  else if 1 / 2 < d then f + 1
  else if f % 2 = 0 then f else f + 1

/-- The position of the leading binary digit of `n`, `⌊log₂ n⌋`, for `n ≤ fuel`
(0 for `n = 0`). -/
def log2Fuel : Nat → Nat → Nat
  | 0, _ => 0
  | fuel + 1, n => if n < 2 then 0 else log2Fuel fuel (n / 2) + 1

/-- The binary exponent of a nonzero rational: `2 ^ binade x ≤ |x| < 2 ^ (binade
x + 1)`. -/
def binade (x : ℚ) : Int :=
  let k : Int := (log2Fuel x.num.natAbs x.num.natAbs : Int) - (log2Fuel x.den x.den : Int)
  if |x| < (2 : ℚ) ^ k then k - 1 else k

/-- Rounding to the nearest IEEE 754 binary64 value (`double`), ties to even: a
significand of 53 bits, the last place at `2 ^ (binade x - 52)` and, for
subnormal values, at `2 ^ -1074`.  Overflow to infinity is not embedded. -/
def binary64 (x : ℚ) : ℚ :=
  if x = 0 then 0
  else
    let e : Int := max (binade x - 52) (-1074)
    (roundHalfEven (x / (2 : ℚ) ^ e) : ℚ) * (2 : ℚ) ^ e

/-- The decimal digits of `n`, padded with zeros on the left to `width`. -/
def padDigits (width n : Nat) : String :=
  let ds := Nat.toDigits 10 n
  String.mk (List.replicate (width - ds.length) '0' ++ ds)

/-- The C library `snprintf (buf, 32, "%.*f", precision, x)` on an exact value:
sign, integer part, and `precision` digits after a decimal point that is left
out when `precision` is 0. -/
def formatFixed (precision : Nat) (x : ℚ) : String :=
  let r := roundHalfEven (x * 10 ^ precision)
  let m := r.natAbs
  let body := String.mk (Nat.toDigits 10 (m / 10 ^ precision))
  let frac := if precision = 0 then "" else "." ++ padDigits precision (m % 10 ^ precision)
  (if x < 0 then "-" else "") ++ body ++ frac

/-- `Meter::GetReportValue`: always returns `true`; the `_value` and `_valueStr`
out-parameters.  `_data` is the pointer the caller passes (`&_data[3]` is
`data.drop 3`).  `divider` is `pow (10.00, precision)` as a `double` (the
power itself up to `10 ^ 22`);
`static_cast<double> (value)` is exact, an `int32_t` having at most 31
significant bits; `_value /= divider` rounds the quotient; `snprintf` renders
the `double` that `_value` holds. -/
def GetReportValue (data : List Nat) (elementSize precision : Nat) :
    Except Fault (ℚ × String) := do
  let value ← reportInteger data elementSize
  let divider : ℚ := binary64 (10 ^ precision)
  let v : ℚ := binary64 ((value : ℚ) / divider)
  return (v, formatFixed precision v)

/-- `Meter::GetDeltaTime`: always returns `true`; the `_deltaTime`
out-parameter, a `uint16_t`. -/
def GetDeltaTime (version : Nat) (data : List Nat) (elementSize : Nat) : Except Fault Nat :=
  if version = 1 then
    .ok 0
  else do
    let hi ← readByte data (3 + elementSize)
    let deltaTime := (hi <<< 8) % 2 ^ 16
    let lo ← readByte data (4 + elementSize)
    return (deltaTime + lo) % 2 ^ 16

/-! ## The registry -/

/-- `struct s_MeterTypes`. -/
structure s_MeterTypes where
  Label : String
  Unit : String
  deriving DecidableEq, Repr

/-- Modelled from the spec: the enumerators of `ValueID_Index_Meter` are
declared outside the sources.  The FlatIndex is `(type - 1) * 16 + scale`, and
the 80 enumerators that key `MeterTypes` are listed per quantity type, sixteen
each, so they are 0..79 in the order of the table; `Electric_kWh` is the first. -/
def ValueID_Index_Meter.Electric_kWh : Nat := 0

/-- Modelled from the spec: the eighth enumerator of `ValueID_Index_Meter`
(Electric, scale 7); see `ValueID_Index_Meter.Electric_kWh`. -/
def ValueID_Index_Meter.Electric_Unknown_1 : Nat := 7

/-- Modelled from the spec: the index of the boolean "exporting" slot, declared
outside the sources; a slot of its own, after the indexes of the registry. -/
def ValueID_Index_Meter.Exporting : Nat := 256

/-- Modelled from the spec: the index of the "reset" trigger slot, declared
outside the sources; a slot of its own, after the indexes of the registry. -/
def ValueID_Index_Meter.Reset : Nat := 257

/-- One initialiser `{key, {Label, Unit}}` of the table. -/
def row (key : Nat) (label unit : String) : Nat × s_MeterTypes :=
  (key, { Label := label, Unit := unit })

/-- The table `std::map<uint32_t, s_MeterTypes> MeterTypes`, in source order.
The keys are the enumerators of `ValueID_Index_Meter`, numbered as described at
`ValueID_Index_Meter.Electric_kWh`. -/
def MeterTypes : List (Nat × s_MeterTypes) := [
    row 0 "Electric - kWh" "kWh",
    row 1 "Electric - kVah" "kVah",
    row 2 "Electric - W" "W",
    row 3 "Electric - Pulses" "Pulses",
    row 4 "Electric - V" "V",
    row 5 "Electric - A" "A",
    row 6 "Electric - PF" "PF",
    row 7 "Electric (Unknown)" "",
    row 8 "Electric - kVar" "kVar",
    row 9 "Electric - kVarh" "kVarh",
    row 10 "Electric (Unknown)" "",
    row 11 "Electric (Unknown)" "",
    row 12 "Electric (Unknown)" "",
    row 13 "Electric (Unknown)" "",
    row 14 "Electric (Unknown)" "",
    row 15 "Electric (Unknown)" "",
    row 16 "Gas - m3" "m3",
    row 17 "Gas - ft3" "ft3",
    row 18 "Gas (Unknown)" "",
    row 19 "Gas - Pulses" "Pulses",
    row 20 "Gas (Unknown)" "",
    row 21 "Gas (Unknown)" "",
    row 22 "Gas (Unknown)" "",
    row 23 "Gas (Unknown)" "",
    row 24 "Gas (Unknown)" "",
    row 25 "Gas (Unknown)" "",
    row 26 "Gas (Unknown)" "",
    row 27 "Gas (Unknown)" "",
    row 28 "Gas (Unknown)" "",
    row 29 "Gas (Unknown)" "",
    row 30 "Gas (Unknown)" "",
    row 31 "Gas (Unknown)" "",
    row 32 "Water - m3" "m3",
    row 33 "Water - ft3" "ft3",
    row 34 "Water - gal" "gal",
    row 35 "Water - Pulses" "Pulses",
    row 36 "Water (Unknown)" "",
    row 37 "Water (Unknown)" "",
    row 38 "Water (Unknown)" "",
    row 39 "Water (Unknown)" "",
    row 40 "Water (Unknown)" "",
    row 41 "Water (Unknown)" "",
    row 42 "Water (Unknown)" "",
    row 43 "Water (Unknown)" "",
    row 44 "Water (Unknown)" "",
    row 45 "Water (Unknown)" "",
    row 46 "Water (Unknown)" "",
    row 47 "Water (Unknown)" "",
    row 48 "Heating - kWh" "kWh",
    row 49 "Heating (Unknown)" "",
    row 50 "Heating (Unknown)" "",
    row 51 "Heating (Unknown)" "",
    row 52 "Heating (Unknown)" "",
    row 53 "Heating (Unknown)" "",
    row 54 "Heating (Unknown)" "",
    row 55 "Heating (Unknown)" "",
    row 56 "Heating (Unknown)" "",
    row 57 "Heating (Unknown)" "",
    row 58 "Heating (Unknown)" "",
    row 59 "Heating (Unknown)" "",
    row 60 "Heating (Unknown)" "",
    row 61 "Heating (Unknown)" "",
    row 62 "Heating (Unknown)" "",
    row 63 "Heating (Unknown)" "",
    row 64 "Cooling - kWh" "kWh",
    row 65 "Cooling (Unknown)" "",
    row 66 "Cooling (Unknown)" "",
    row 67 "Cooling (Unknown)" "",
    row 68 "Cooling (Unknown)" "",
    row 69 "Cooling (Unknown)" "",
    row 70 "Cooling (Unknown)" "",
    row 71 "Cooling (Unknown)" "",
    row 72 "Cooling (Unknown)" "",
    row 73 "Cooling (Unknown)" "",
    row 74 "Cooling (Unknown)" "",
    row 75 "Cooling (Unknown)" "",
    row 76 "Cooling (Unknown)" "",
    row 77 "Cooling (Unknown)" "",
    row 78 "Cooling (Unknown)" "",
    row 79 "Cooling (Unknown)" ""
  ]

/-- `MeterTypes.count (index)`. -/
def MeterTypes.count (index : Nat) : Nat :=
  if (List.lookup index MeterTypes).isSome then 1 else 0

/-- `MeterTypes.size ()`. -/
def MeterTypes.size : Nat := List.length MeterTypes

/-- `Meter::GetMeterTypeDescription`: `none` is `return false`; otherwise the
`index` and `meter` out-parameters.  `index` is a `uint16_t` assigned from an
`int` expression. -/
def GetMeterTypeDescription (meterType scale : Nat) : Option (Nat × s_MeterTypes) :=
  let index : Nat := (((((meterType : Int) - 1) * 16) + scale) % 2 ^ 16).toNat
  if MeterTypes.count index = 0 then none
  else
    match List.lookup index MeterTypes with
    | some meter => some (index, meter)
    | none => none

/-! ## The plausibility filter -/

/-- `Meter::ValidateValue`.  `value` and `valuePrev` are the `double`s the
caller passes.  The literal `0.01` is the `double` nearest to 1/100;
`static_cast<double> (deltaTime)` is exact; the product and the difference are
rounded; `-1000000.00` is exact. -/
def ValidateValue (meterIndex : Nat) (value valuePrev : ℚ) (deltaTime : Nat) : Bool :=
  if meterIndex = ValueID_Index_Meter.Electric_kWh then
    if value < -1000000 then false
    else if valuePrev < -1000000 then false
    else
      let maxKwhChange : ℚ := binary64 ((deltaTime : ℚ) * binary64 (1 / 100))
      let kwhChange : ℚ := binary64 (value - valuePrev)
      if |kwhChange| > maxKwhChange then false
      else true
  else true

/-! ## The value store -/

/-- Modelled from the spec: the value classes (`ValueDecimal`, `ValueBool`,
`ValueButton`) are declared outside the sources.  A decimal slot holds its
label, unit, rendered value and precision, a boolean slot its label and value,
a trigger slot its label. -/
inductive Slot where
  | decimal (label units value : String) (precision : Nat)
  | bool (label : String) (value : Bool)
  | button (label : String)
  deriving DecidableEq, Repr

/-- Modelled from the spec: the value store of the node is outside the sources.
It is a finite map from (instance, index) to slots, kept as an association list
in order of creation. -/
abbrev Store := List ((Nat × Nat) × Slot)

/-- Modelled from the spec: `GetValue (_instance, index)` is "get slot", the
slot at the key or absent. -/
def GetValue (store : Store) (inst index : Nat) : Option Slot :=
  List.lookup (inst, index) store

/-- Modelled from the spec: "create slot"; the `CreateValue...` members of
`Node` add a slot at a key that has none and leave an existing slot alone. -/
def CreateValue (store : Store) (inst index : Nat) (slot : Slot) : Store :=
  if (GetValue store inst index).isSome then store
  else store ++ [((inst, index), slot)]

/-- Replaces the slot at a key; used by the refresh operations. -/
def setSlot (store : Store) (inst index : Nat) (slot : Slot) : Store :=
  store.map (fun e => if e.1 = (inst, index) then (e.1, slot) else e)

/-- `node->CreateValueDecimal (genre, cc, _instance, index, label, units, true,
false, "0.0", 0)`: a decimal slot with value "0.0" and precision 0. -/
def CreateValueDecimal (store : Store) (inst index : Nat) (label units : String) : Store :=
  CreateValue store inst index (.decimal label units "0.0" 0)

/-- `node->CreateValueBool (genre, cc, _instance, index, label, "", true, false,
false, 0)`: a boolean slot with value `false`. -/
def CreateValueBool (store : Store) (inst index : Nat) (label : String) : Store :=
  CreateValue store inst index (.bool label false)

/-- `node->CreateValueButton (genre, cc, _instance, index, label, 0)`. -/
def CreateValueButton (store : Store) (inst index : Nat) (label : String) : Store :=
  CreateValue store inst index (.button label)

/-! ## The report handler -/

/-- The locals of `Meter::HandleReport` once the decoding stages (lines 359-411)
have all succeeded. -/
structure Reading where
  meterType : Nat
  rateType : Nat
  elementSize : Nat
  scales : Scales
  precision : Nat
  deltaTime : Nat
  valueDbl : ℚ
  valueStr : String
  valuePrevDbl : ℚ
  valuePrevStr : String
  index : Nat
  meter : s_MeterTypes
  deriving DecidableEq

/-- The decoding stages of `Meter::HandleReport`, from the version check to
`ValidateValue`, in source order.  `none` is a `return false`. -/
def DecodeReport (ctx : Ctx) (data : List Nat) (length : Nat) :
    Except Fault (Option Reading) := do
  if ctx.version < 1 ∨ ctx.version > ctx.maxVersion then return none
  let (okType, meterType) ← GetMeterType ctx.version data
  if okType = false then return none
  let (okRate, rateType) ← GetRateType ctx.version data
  if okRate = false then return none
  let (okSize, elementSize) ← GetValueElementSize data
  if okSize = false then return none
  let scales ← GetScale ctx.version data length
  let precision ← GetPrecision data
  let deltaTime ← GetDeltaTime ctx.version data elementSize
  if ValidateLengthOfMessage ctx.version elementSize scales.scale1 deltaTime length = false then
    return none
  let (valueDbl, valueStr) ← GetReportValue (data.drop 3) elementSize precision
  let (valuePrevDbl, valuePrevStr) ←
    if deltaTime > 0 then GetReportValue (data.drop (3 + 2 + elementSize)) elementSize precision
    else pure (valueDbl, valueStr)
  match GetMeterTypeDescription meterType scales.scale with
  | none => return none
  | some (index, meter) =>
    if ValidateValue index valueDbl valuePrevDbl deltaTime = false then return none
    return some
      { meterType := meterType, rateType := rateType, elementSize := elementSize,
        scales := scales, precision := precision, deltaTime := deltaTime,
        valueDbl := valueDbl, valueStr := valueStr,
        valuePrevDbl := valuePrevDbl, valuePrevStr := valuePrevStr,
        index := index, meter := meter }

/-- The update of the exporting slot at the end of `Meter::HandleReport`
(`if (GetVersion () > 1) ...`). -/
def refreshExporting (ctx : Ctx) (store : Store) (inst rateType : Nat) : Except Fault Store :=
  if ctx.version > 1 then
    match GetValue store inst ValueID_Index_Meter.Exporting with
    | none => .ok store
    | some (.bool label _) =>
      let exporting : Bool := if rateType = 0x40 then true else false
      .ok (setSlot store inst ValueID_Index_Meter.Exporting (.bool label exporting))
    | some _ => .error .badCast
  else .ok store

/-- `value->OnValueRefreshed (valueStr)` followed by the precision update, on
the decimal slot at `index`. -/
def refreshDecimal (store : Store) (inst index : Nat) (valueStr : String) (precision : Nat) :
    Except Fault Store :=
  match GetValue store inst index with
  | none => .error .nullDeref
  | some (.decimal label units _ p) =>
    .ok (setSlot store inst index
      (.decimal label units valueStr (if p ≠ precision then precision else p)))
  | some _ => .error .badCast

/-- `Meter::HandleReport`: the returned flag and the value store afterwards. -/
def HandleReport (ctx : Ctx) (store : Store) (data : List Nat) (length inst : Nat) :
    Except Fault (Bool × Store) := do
  match ← DecodeReport ctx data length with
  | none => return (false, store)
  | some r =>
    let store1 ←
      match GetValue store inst r.index with
      | some _ => pure store
      | none =>
        if ctx.version = 1 then
          if ctx.nodePresent then
            pure (CreateValueDecimal store inst r.index r.meter.Label r.meter.Unit)
          else pure store
        else return (false, store)
    let store2 ← refreshDecimal store1 inst r.index r.valueStr r.precision
    let store3 ← refreshExporting ctx store2 inst r.rateType
    return (true, store3)

/-! ## The capability report handler -/

/-- A call `HandleSupportedReport` makes on the node. -/
inductive NodeCall where
  | createDecimal (index : Nat) (label units : String)
  | createBool (index : Nat) (label : String)
  | createButton (index : Nat) (label : String)
  deriving DecidableEq, Repr

/-- The index of a `CreateValueDecimal` call. -/
def NodeCall.decimalIndex : NodeCall → Option Nat
  | .createDecimal index _ _ => some index
  | _ => none

/-- The effect of a call on the value store. -/
def applyCall (inst : Nat) (store : Store) : NodeCall → Store
  | .createDecimal index label units => CreateValueDecimal store inst index label units
  | .createBool index label => CreateValueBool store inst index label
  | .createButton index label => CreateValueButton store inst index label

/-- The local `scalesize` of `Meter::HandleSupportedReport`; it is never
assigned after its initialisation. -/
def scalesize : Nat := 1

/-- One pass of the loop over the extension bytes in
`Meter::HandleSupportedReport`: `uint8 scale2 = _data[3+1]; scale |= (scale2 <<
8*i);`.  Every pass reads `_data[3+1]`; `scale2 << 8*i` is an `int` shift,
undefined from a shift count of 32 on, where its value is `wideShift scale2
(8*i)`; the `int` is converted to `uint32` for the OR. -/
def extensionStep (wideShift : Nat → Nat → Nat) (data : List Nat) (scale i : Nat) :
    Except Fault Nat := do
  let scale2 ← readByte data (3 + 1)
  if 8 * i ≥ 32 then pure (scale ||| (wideShift scale2 (8 * i)) % 2 ^ 32)
  else pure (scale ||| (scale2 <<< (8 * i)) % 2 ^ 32)

/-- The decoding of the scale bitmap in `Meter::HandleSupportedReport` (lines
296-322): the `uint32 scale`. -/
def SupportedScale (version : Nat) (data : List Nat) (wideShift : Nat → Nat → Nat) :
    Except Fault Nat := do
  let scale0 : Nat := 0
  let scale1 ← if version = 2 then do
      let b2 ← readByte data 2
      pure (b2 &&& 0x0F)
    else pure scale0
  let scale2 ← if version = 3 then do
      let b2 ← readByte data 2
      pure (b2 &&& 0xFF)
    else pure scale1
  if version ≥ 4 then do
    let b2 ← readByte data 2
    let scale := b2 &&& 0x7F
    if b2 &&& 0x80 ≠ 0 then do
      let size := (← readByte data 3) % 2 ^ 8
      (List.range' 1 size).foldlM (extensionStep wideShift data) scale
    else pure scale
  else pure scale2

/-- One pass of the loop over the bit positions in
`Meter::HandleSupportedReport`, for a bit that is set: `none` is `continue`;
`MeterTypes.at (type)` on an absent key is a fault. -/
def supportedSlot (meterType i : Nat) : Except Fault (Option NodeCall) :=
  let type : Nat := (((((meterType : Int) - 1) * 16) + i) % 2 ^ 32).toNat
  if type > MeterTypes.size then .ok none
  else
    match List.lookup type MeterTypes with
    | some m => .ok (some (.createDecimal type m.Label m.Unit))
    | none => .error (.absentKey type)

/-- The loop `for (uint8 i = 0; i <= (scalesize*8)+1; ++i)` of
`Meter::HandleSupportedReport`: the `CreateValueDecimal` calls, in order. -/
def supportedSlots (meterType scale : Nat) : Except Fault (List NodeCall) :=
  (List.range ((scalesize * 8) + 1 + 1)).foldlM
    (fun calls i =>
      if scale &&& (1 <<< i) ≠ 0 then do
        match ← supportedSlot meterType i with
        | none => pure calls
        | some c => pure (calls ++ [c])
      else pure calls)
    []

/-- The calls `Meter::HandleSupportedReport` makes on the node, in order;
`none` is a `return false` (no call is made before it). -/
def SupportedReportCalls (ctx : Ctx) (data : List Nat) :
    Except Fault (Option (List NodeCall)) := do
  let b1 ← readByte data 1
  let canReset : Bool := (b1 &&& 0x80) ≠ 0
  let meterType := b1 &&& 0x1f
  if meterType > MeterType_Cooling then return none
  let scale ← SupportedScale ctx.version data ctx.wideShift
  if ctx.nodePresent then
    let decimals ← supportedSlots meterType scale
    let exporting := [NodeCall.createBool ValueID_Index_Meter.Exporting "Exporting"]
    let reset :=
      if canReset then [NodeCall.createButton ValueID_Index_Meter.Reset "Reset"] else []
    return some (decimals ++ exporting ++ reset)
  else return none

/-- `Meter::HandleSupportedReport`: the returned flag and the value store
afterwards. -/
def HandleSupportedReport (ctx : Ctx) (store : Store) (data : List Nat) (length inst : Nat) :
    Except Fault (Bool × Store) := do
  let _ := length
  match ← SupportedReportCalls ctx data with
  | none => return (false, store)
  | some calls => return (true, calls.foldl (applyCall inst) store)

/-- `Meter::HandleMsg`. -/
def HandleMsg (ctx : Ctx) (store : Store) (data : List Nat) (length inst : Nat) :
    Except Fault (Bool × Store) := do
  let cmd ← readByte data 0
  if MeterCmd_SupportedReport = cmd then HandleSupportedReport ctx store data length inst
  else if MeterCmd_Report = cmd then HandleReport ctx store data length inst
  else return (false, store)

/-! ## The request builder -/

/-- What `Meter::RequestValue` takes from its surroundings to build a message:
`GetNodeId ()`, `GetCommandClassId ()` and `GetDriver ()->GetTransmitOptions ()`. -/
structure MsgEnv where
  nodeId : Nat
  commandClassId : Nat
  transmitOptions : Nat
  deriving DecidableEq, Repr

/-- The bytes appended to one `MeterCmd_Get` message by the body of the loop of
`Meter::RequestValue`, in order (`msg->Append` takes a `uint8`). -/
def getReportMsg (version : Nat) (env : MsgEnv) (i : Nat) : List Nat :=
  let m0 : List Nat := [env.nodeId]
  let m1 :=
    if version = 1 then m0 ++ [2]
    else if version ≤ 3 then m0 ++ [3]
    else if version ≥ 4 then
      let scale := (i % 16) % 2 ^ 8
      if scale > ValueID_Index_Meter.Electric_Unknown_1 then m0 ++ [4] else m0 ++ [3]
    else m0
  let m2 := m1 ++ [env.commandClassId] ++ [MeterCmd_Get]
  let m3 :=
    if version = 2 then m2 ++ [(((i % 16) &&& 0x03) <<< 3) % 2 ^ 8]
    else if version = 3 then m2 ++ [(((i % 16) &&& 0x07) <<< 3) % 2 ^ 8]
    else if version ≥ 4 then
      let scale := (i % 16) % 2 ^ 8
      if scale > ValueID_Index_Meter.Electric_Unknown_1 then
        m2 ++ [0x38] ++ [(scale - 8) % 2 ^ 8]
      else m2 ++ [(((i % 16) &&& 0x07) <<< 3) % 2 ^ 8]
    else m2
  m3 ++ [env.transmitOptions]

/-- One pass of the loop of `Meter::RequestValue`, on the flag `res` and the
messages sent so far. -/
def requestValueStep (version : Nat) (env : MsgEnv) (store : Store) (inst : Nat)
    (acc : Bool × List (List Nat)) (i : Nat) : Bool × List (List Nat) :=
  match GetValue store inst i with
  | some _ => (acc.1 || true, acc.2 ++ [getReportMsg version env i])
  | none => acc

/-- `Meter::RequestValue`: the returned flag and the messages handed to
`SendMsg`, in order. -/
def RequestValue (ctx : Ctx) (env : MsgEnv) (store : Store) (inst : Nat) :
    Bool × List (List Nat) :=
  if ctx.getSupported = false then (false, [])
  else
    (List.range MeterTypes.size).foldl (requestValueStep ctx.version env store inst) (false, [])

/-! ## Reference readings of a byte field -/

/-- The unsigned big-endian value of a byte field (from the wording of the
specification, to compare `reportInteger` with). -/
def bigEndian (field : List Nat) : Nat :=
  field.foldl (fun acc b => acc * 256 + b) 0

/-- The two's-complement signed big-endian value of a byte field of
`field.length` bytes (from the wording of the specification, to compare
`reportInteger` with). -/
def signedBigEndian (field : List Nat) : Int :=
  if bigEndian field < 2 ^ (8 * field.length - 1) then (bigEndian field : Int)
  else (bigEndian field : Int) - 2 ^ (8 * field.length)

/-- The number a list of decimal digit characters denotes, most significant
digit first (from the wording of the specification, to read a rendered value
back). -/
def digitsValue (cs : List Char) : Nat :=
  cs.foldl (fun acc c => 10 * acc + (c.toNat - '0'.toNat)) 0

/-! ## Auxiliary facts about bytes and bit fields -/

theorem land_byte (b m : Nat) (hm : m < 256) : b &&& m = (b % 256) &&& m := by
  apply Nat.eq_of_testBit_eq
  intro i
  have h256 : (256 : Nat) = 2 ^ 8 := rfl
  rw [Nat.testBit_and, Nat.testBit_and, h256, Nat.testBit_mod_two_pow]
  by_cases hi : i < 8
  · simp [hi]
  · have hmi : m.testBit i = false := by
      apply Nat.testBit_lt_two_pow
      calc m < 2 ^ 8 := hm
        _ ≤ 2 ^ i := Nat.pow_le_pow_right (by decide) (by omega)
    simp [hmi]

set_option maxRecDepth 100000 in
theorem scale_bits_of_byte : ∀ b < 256, (b &&& 0x18) >>> 3 = b / 8 % 4 := by decide

set_option maxRecDepth 100000 in
theorem high_scale_bit_of_byte : ∀ b < 256, (b &&& 0x80) >>> 5 = (b / 128 % 2) * 4 := by decide

theorem scale_bits (b : Nat) : (b &&& c_scaleMask) >>> c_scaleShift = b / 8 % 4 := by
  have h := scale_bits_of_byte (b % 256) (Nat.mod_lt _ (by decide))
  rw [c_scaleMask, c_scaleShift, land_byte b 0x18 (by decide), h]
  omega

theorem high_scale_bit (b : Nat) : (b &&& 0x80) >>> 5 = (b / 128 % 2) * 4 := by
  have h := high_scale_bit_of_byte (b % 256) (Nat.mod_lt _ (by decide))
  rw [land_byte b 0x80 (by decide), h]
  omega

theorem composed_scale_lt : ∀ lo < 4, ∀ hi < 2, lo ||| hi * 4 < 8 := by decide

theorem readByte_of_getElem? {data : List Nat} {i b : Nat} (h : data[i]? = some b) :
    readByte data i = .ok b := by
  simp [readByte, h]

/-! ## Length of a report -/

/-- C1: for every version 1..5 and element size 1, 2 or 4, whatever the composed
primary scale, the delta-time and the length are, `ValidateLengthOfMessage`
returns true exactly when the length is `4 + elementSize`, plus (from version 2)
2 and, when the delta-time is nonzero, `elementSize` more, plus (from version 5)
1 when the scale is 7. -/
theorem ValidateLengthOfMessage_iff_formula
    (version elementSize scale1 deltaTime length : Nat)
    (hv : 1 ≤ version ∧ version ≤ 5)
    (hs : elementSize = 1 ∨ elementSize = 2 ∨ elementSize = 4) :
    ValidateLengthOfMessage version elementSize scale1 deltaTime length = true ↔
      length = (4 + elementSize)
        + (if version ≥ 2 then 2 + (if deltaTime > 0 then elementSize else 0) else 0)
        + (if version ≥ 5 ∧ scale1 = 7 then 1 else 0) := by
  obtain ⟨hv1, hv5⟩ := hv
  have hes : elementSize ≤ 4 := by omega
  unfold ValidateLengthOfMessage expectedLength
  simp only [ge_iff_le, gt_iff_lt, hv1, if_true, Nat.zero_add]
  by_cases h2 : 2 ≤ version <;> by_cases h5 : 5 ≤ version <;>
    by_cases hd : 0 < deltaTime <;> by_cases h7 : scale1 = 7 <;>
    simp [h2, h5, hd, h7] <;> omega

/-- C1, at version 5, element size 2, scale 7, delta-time 10: length 11 is
accepted. -/
theorem ValidateLengthOfMessage_iff_formula_witness :
    (1 ≤ 5 ∧ 5 ≤ 5) ∧ ((2 : Nat) = 1 ∨ (2 : Nat) = 2 ∨ (2 : Nat) = 4) ∧
    (ValidateLengthOfMessage 5 2 7 10 11 = true ↔
      11 = (4 + 2) + (if 5 ≥ 2 then 2 + (if 10 > 0 then 2 else 0) else 0)
        + (if 5 ≥ 5 ∧ 7 = 7 then 1 else 0)) :=
  ⟨by decide, by decide,
    ValidateLengthOfMessage_iff_formula 5 2 7 10 11 (by decide) (by decide)⟩

/-! ## Quantity type -/

/-- C4: for every version 1..5 and every byte 1, `GetMeterType` decodes the
ordinal `byte1 & 0x1F` and succeeds exactly when the ordinal is 1..3 in
versions 1, 2 and 3, and 1..5 from version 4 on; so ordinal 0 and ordinals 6..31
are rejected in every version, and 4 and 5 in versions 1-3. -/
theorem GetMeterType_accepts_documented_range
    (version : Nat) (data : List Nat) (b1 : Nat)
    (hv : 1 ≤ version ∧ version ≤ 5) (hb : data[1]? = some b1) :
    ∃ ok : Bool, GetMeterType version data = .ok (ok, b1 &&& 0x1F) ∧
      (ok = true ↔
        if version ≤ 3 then 1 ≤ b1 &&& 0x1F ∧ b1 &&& 0x1F ≤ 3
        else 1 ≤ b1 &&& 0x1F ∧ b1 &&& 0x1F ≤ 5) := by
  obtain ⟨hv1, hv5⟩ := hv
  have hr := readByte_of_getElem? hb
  simp only [GetMeterType, hr, bind, Except.bind, pure, Except.pure, c_meterTypeMask,
    MeterType_Electric, MeterType_Water, MeterType_Cooling, ge_iff_le]
  generalize b1 &&& 0x1F = t
  by_cases ht1 : 1 ≤ t
  · by_cases hv3 : version ≤ 3
    · have hvv : version = 1 ∨ version = 2 ∨ version = 3 := by omega
      by_cases ht3 : t ≤ 3
      · exact ⟨true, by simp [ht1, hvv, ht3, hv3]⟩
      · exact ⟨false, by simp [ht1, hvv, ht3, hv3]⟩
    · have hvv : ¬ (version = 1 ∨ version = 2 ∨ version = 3) := by omega
      by_cases ht5 : t ≤ 5
      · exact ⟨true, by simp [ht1, hvv, ht5, hv3]⟩
      · exact ⟨false, by simp [ht1, hvv, ht5, hv3]⟩
  · refine ⟨false, by simp [ht1], ?_⟩
    by_cases hv3 : version ≤ 3 <;> simp [hv3, ht1]

/-- C4, at version 3 and byte 1 = 0x84 (Heating): rejected. -/
theorem GetMeterType_accepts_documented_range_witness :
    (1 ≤ 3 ∧ 3 ≤ 5) ∧ [0x02, 0x84, 0x21][1]? = some 0x84 ∧
    ∃ ok : Bool, GetMeterType 3 [0x02, 0x84, 0x21] = .ok (ok, 0x84 &&& 0x1F) ∧
      (ok = true ↔
        if 3 ≤ 3 then 1 ≤ 0x84 &&& 0x1F ∧ 0x84 &&& 0x1F ≤ 3
        else 1 ≤ 0x84 &&& 0x1F ∧ 0x84 &&& 0x1F ≤ 5) :=
  ⟨by decide, by decide,
    GetMeterType_accepts_documented_range 3 [0x02, 0x84, 0x21] 0x84 (by decide) (by decide)⟩

/-! ## Scale -/

/-- C5: with bytes 1 and 2 of the payload present, the composed scale of
`GetScale` is, in versions 1 and 2, bits 3-4 of byte 2 (0..3, byte-1 bit 7
ignored); in version 3, and from version 4 on when the value is not 7, bits 3-4
of byte 2 OR'd with bit 7 of byte 1 at bit position 2 (0..7).  In these cases
the resolved scale is the composed scale and no scale-2 value is read. -/
theorem GetScale_composed_scale
    (version : Nat) (data : List Nat) (length b1 b2 : Nat)
    (h1 : data[1]? = some b1) (h2 : data[2]? = some b2) :
    ((version = 1 ∨ version = 2) →
      GetScale version data length
        = .ok { scale := b2 / 8 % 4, scale1 := b2 / 8 % 4, scale2 := 0 }
      ∧ b2 / 8 % 4 ≤ 3) ∧
    ((version = 3 ∨ (4 ≤ version ∧ (b2 / 8 % 4 ||| (b1 / 128 % 2) * 4) ≠ 7)) →
      GetScale version data length
        = .ok { scale := b2 / 8 % 4 ||| (b1 / 128 % 2) * 4,
                scale1 := b2 / 8 % 4 ||| (b1 / 128 % 2) * 4, scale2 := 0 }
      ∧ (b2 / 8 % 4 ||| (b1 / 128 % 2) * 4) ≤ 7) := by
  have hr1 := readByte_of_getElem? h1
  have hr2 := readByte_of_getElem? h2
  have hlo : b2 / 8 % 4 < 4 := Nat.mod_lt _ (by decide)
  have hhi : b1 / 128 % 2 < 2 := Nat.mod_lt _ (by decide)
  have hc := composed_scale_lt _ hlo _ hhi
  have hlo8 : b2 / 8 % 4 % 256 = b2 / 8 % 4 := Nat.mod_eq_of_lt (by omega)
  have hc8 : (b2 / 8 % 4 ||| (b1 / 128 % 2) * 4) % 256 = b2 / 8 % 4 ||| (b1 / 128 % 2) * 4 :=
    Nat.mod_eq_of_lt (by omega)
  refine ⟨fun hv => ⟨?_, by omega⟩, fun hv => ⟨?_, by omega⟩⟩
  · have hv1 : 1 ≤ version := by omega
    have hv3 : ¬ 3 ≤ version := by omega
    have hv4 : ¬ 4 ≤ version := by omega
    simp [GetScale, hr1, hr2, bind, Except.bind, pure, Except.pure, scale_bits, hv1, hv3, hv4,
      hlo8]
  · have hv1 : 1 ≤ version := by omega
    have hv3 : 3 ≤ version := by omega
    rcases hv with hv | ⟨hv4, hne⟩
    · have hv4 : ¬ 4 ≤ version := by omega
      simp [GetScale, hr1, hr2, bind, Except.bind, pure, Except.pure, scale_bits,
        high_scale_bit, hv1, hv3, hv4, hlo8, hc8]
    · simp [GetScale, hr1, hr2, bind, Except.bind, pure, Except.pure, scale_bits,
        high_scale_bit, hv1, hv3, hv4, hlo8, hc8, hne]

/-- C5, at version 4, byte 1 = 0x81 and byte 2 = 0x52: composed scale 6. -/
theorem GetScale_composed_scale_witness :
    [0x02, 0x81, 0x52, 0x00, 0x64][1]? = some 0x81 ∧
    [0x02, 0x81, 0x52, 0x00, 0x64][2]? = some 0x52 ∧
    GetScale 4 [0x02, 0x81, 0x52, 0x00, 0x64] 8 = .ok { scale := 6, scale1 := 6, scale2 := 0 } :=
  ⟨by decide, by decide,
    ((GetScale_composed_scale 4 [0x02, 0x81, 0x52, 0x00, 0x64] 8 0x81 0x52
      (by decide) (by decide)).2 (Or.inr (by decide))).1⟩

/-! ## What an accepted report went through -/

/-- Every decoding stage of an accepted report, read back from the result. -/
theorem DecodeReport_some {ctx : Ctx} {data : List Nat} {length : Nat} {r : Reading}
    (h : DecodeReport ctx data length = .ok (some r)) :
    (1 ≤ ctx.version ∧ ctx.version ≤ ctx.maxVersion) ∧
    GetMeterType ctx.version data = .ok (true, r.meterType) ∧
    GetRateType ctx.version data = .ok (true, r.rateType) ∧
    GetValueElementSize data = .ok (true, r.elementSize) ∧
    GetScale ctx.version data length = .ok r.scales ∧
    GetPrecision data = .ok r.precision ∧
    GetDeltaTime ctx.version data r.elementSize = .ok r.deltaTime ∧
    ValidateLengthOfMessage ctx.version r.elementSize r.scales.scale1 r.deltaTime length = true ∧
    GetReportValue (data.drop 3) r.elementSize r.precision = .ok (r.valueDbl, r.valueStr) ∧
    (if r.deltaTime > 0 then
        GetReportValue (data.drop (3 + 2 + r.elementSize)) r.elementSize r.precision
          = .ok (r.valuePrevDbl, r.valuePrevStr)
      else (r.valuePrevDbl, r.valuePrevStr) = (r.valueDbl, r.valueStr)) ∧
    GetMeterTypeDescription r.meterType r.scales.scale = some (r.index, r.meter) ∧
    ValidateValue r.index r.valueDbl r.valuePrevDbl r.deltaTime = true := by
  unfold DecodeReport at h
  simp only [bind, Except.bind, pure, Except.pure] at h
  by_cases hver : ctx.version < 1 ∨ ctx.version > ctx.maxVersion
  · rw [if_pos hver] at h
    simp at h
  rw [if_neg hver] at h
  cases hmt : GetMeterType ctx.version data with
  | error e => simp [hmt] at h
  | ok v1 =>
  obtain ⟨ok1, mt⟩ := v1
  cases ok1 with
  | false => simp [hmt] at h
  | true =>
  cases hrt : GetRateType ctx.version data with
  | error e => simp [hmt, hrt] at h
  | ok v2 =>
  obtain ⟨ok2, rt⟩ := v2
  cases ok2 with
  | false => simp [hmt, hrt] at h
  | true =>
  cases hes : GetValueElementSize data with
  | error e => simp [hmt, hrt, hes] at h
  | ok v3 =>
  obtain ⟨ok3, es⟩ := v3
  cases ok3 with
  | false => simp [hmt, hrt, hes] at h
  | true =>
  cases hsc : GetScale ctx.version data length with
  | error e => simp [hmt, hrt, hes, hsc] at h
  | ok sc =>
  cases hpr : GetPrecision data with
  | error e => simp [hmt, hrt, hes, hsc, hpr] at h
  | ok pr =>
  cases hdt : GetDeltaTime ctx.version data es with
  | error e => simp [hmt, hrt, hes, hsc, hpr, hdt] at h
  | ok dt =>
  cases hlen : ValidateLengthOfMessage ctx.version es sc.scale1 dt length with
  | false => simp [hmt, hrt, hes, hsc, hpr, hdt, hlen] at h
  | true =>
  cases hval : GetReportValue (List.drop 3 data) es pr with
  | error e => simp [hmt, hrt, hes, hsc, hpr, hdt, hlen, hval] at h
  | ok v =>
  simp only [hmt, hrt, hes, hsc, hpr, hdt, hlen, hval, Bool.true_eq_false, if_false] at h
  have hv12 : 1 ≤ ctx.version ∧ ctx.version ≤ ctx.maxVersion := by omega
  by_cases hpos : dt > 0
  · rw [if_pos hpos] at h
    cases hprev : GetReportValue (List.drop (3 + 2 + es) data) es pr with
    | error e => simp [hprev] at h
    | ok vp =>
    cases hdesc : GetMeterTypeDescription mt sc.scale with
    | none => simp [hprev, hdesc] at h
    | some d =>
    obtain ⟨index, meter⟩ := d
    cases hvv : ValidateValue index v.1 vp.1 dt with
    | false => simp [hprev, hdesc, hvv] at h
    | true =>
    simp only [hprev, hdesc, hvv, Bool.true_eq_false, if_false, Except.ok.injEq,
      Option.some.injEq] at h
    subst h
    simp [hv12, hpos, hdesc, hvv, hprev, hdt, hlen, hval]
  · rw [if_neg hpos] at h
    cases hdesc : GetMeterTypeDescription mt sc.scale with
    | none => simp [hdesc] at h
    | some d =>
    obtain ⟨index, meter⟩ := d
    cases hvv : ValidateValue index v.1 v.1 dt with
    | false => simp [hdesc, hvv] at h
    | true =>
    simp only [hdesc, hvv, Bool.true_eq_false, if_false, Except.ok.injEq,
      Option.some.injEq] at h
    subst h
    simp [hv12, hpos, hdesc, hvv, hdt, hlen, hval]

/-- The index `GetMeterTypeDescription` returns is the FlatIndex of its
arguments, as a `uint16_t`. -/
theorem GetMeterTypeDescription_index {meterType scale index : Nat} {meter : s_MeterTypes}
    (h : GetMeterTypeDescription meterType scale = some (index, meter)) (ht : 1 ≤ meterType) :
    index = ((meterType - 1) * 16 + scale) % 65536 ∧
      List.lookup index MeterTypes = some meter := by
  unfold GetMeterTypeDescription at h
  simp only at h
  split at h
  · exact absurd h (by simp)
  · split at h
    · rename_i m hm
      simp only [Option.some.injEq, Prod.mk.injEq] at h
      obtain ⟨hi, hmm⟩ := h
      subst hmm
      constructor
      · rw [← hi]
        have hcast : ((meterType : Int) - 1) * 16 + (scale : Int)
            = (((meterType - 1) * 16 + scale : Nat) : Int) := by
          push_cast [Nat.cast_sub ht]
          ring
        rw [hcast]
        have h16 : ((2 : Int) ^ 16) = ((65536 : Nat) : Int) := by norm_num
        rw [h16, ← Int.natCast_mod, Int.toNat_natCast]
      · rw [← hi]; exact hm
    · exact absurd h (by simp)

/-- C2 (as stated) fails: with version 4 and an 8-byte payload whose composed
primary scale is 7 and whose last byte (index 7) is 3, `GetScale` resolves the
scale to 8, from the byte at index 6, not to 3 + 8; and with the byte 0xFF at
index 6 the sum is reduced to 8 bits and the resolved scale is 7. -/
theorem GetScale_last_byte_counterexample :
    [0x02, 0x81, 0x5A, 0x00, 0x64, 0x00, 0x00, 0x03][8 - 1]? = some 3 ∧
    GetScale 4 [0x02, 0x81, 0x5A, 0x00, 0x64, 0x00, 0x00, 0x03] 8
      = .ok { scale := 8, scale1 := 7, scale2 := 8 } ∧
    GetScale 4 [0x02, 0x81, 0x5A, 0x00, 0x64, 0x00, 0x00, 0x03] 8
      ≠ .ok { scale := 3 + 8, scale1 := 7, scale2 := 3 + 8 } ∧
    GetScale 4 [0x02, 0x81, 0x5A, 0x00, 0x64, 0x00, 0xFF, 0xFF] 8
      = .ok { scale := 7, scale1 := 7, scale2 := 7 } := by
  decide

/-- C2 (amended): for every version from 4 on and every payload whose composed
primary scale is 7, with `2 ≤ _length < 2 ^ 32`, `GetScale` resolves the scale
to the byte at index `_length - 2` of `_data` plus 8, reduced modulo 256; and a
report that `HandleReport` decodes is looked up in the registry under that
scale: its index is `(meterType - 1) * 16 + scale`. -/
theorem GetScale_scale2_extension
    (version : Nat) (data : List Nat) (length b1 b2 b : Nat)
    (hv : 4 ≤ version) (hlen : 2 ≤ length ∧ length < 2 ^ 32)
    (h1 : data[1]? = some b1) (h2 : data[2]? = some b2)
    (h7 : (b2 / 8 % 4 ||| (b1 / 128 % 2) * 4) = 7)
    (hb : data[length - 2]? = some b) :
    GetScale version data length
      = .ok { scale := (b + 8) % 256, scale1 := 7, scale2 := (b + 8) % 256 } ∧
    ∀ (ctx : Ctx) (r : Reading), ctx.version = version →
      DecodeReport ctx data length = .ok (some r) →
        r.scales.scale = (b + 8) % 256 ∧
        GetMeterTypeDescription r.meterType ((b + 8) % 256) = some (r.index, r.meter) ∧
        r.index = (r.meterType - 1) * 16 + (b + 8) % 256 := by
  have hr1 := readByte_of_getElem? h1
  have hr2 := readByte_of_getElem? h2
  have hidx : (length + 4294967294) % 4294967296 = length - 2 := by
    have := hlen.2
    norm_num at this
    omega
  have hrb : readByte data ((length + 4294967294) % 4294967296) = .ok b := by
    rw [hidx]; exact readByte_of_getElem? hb
  have hlo8 : b2 / 8 % 4 % 256 = b2 / 8 % 4 := by omega
  have hv1 : 1 ≤ version := by omega
  have hv3 : 3 ≤ version := by omega
  have hscale : GetScale version data length
      = .ok { scale := (b + 8) % 256, scale1 := 7, scale2 := (b + 8) % 256 } := by
    simp [GetScale, hr1, hr2, bind, Except.bind, pure, Except.pure, scale_bits,
      high_scale_bit, hv1, hv3, hv, hlo8, h7, hrb]
  refine ⟨hscale, ?_⟩
  intro ctx r hcv hdec
  obtain ⟨-, hmt, -, -, hsc, -, -, -, -, -, hdesc, -⟩ := DecodeReport_some hdec
  rw [hcv, hscale] at hsc
  have hsc' : r.scales = { scale := (b + 8) % 256, scale1 := 7, scale2 := (b + 8) % 256 } := by
    simpa using hsc.symm
  have hs : r.scales.scale = (b + 8) % 256 := by rw [hsc']
  rw [hs] at hdesc
  have ht : 1 ≤ r.meterType ∧ r.meterType ≤ 5 := by
    simp only [GetMeterType, bind, Except.bind, pure, Except.pure, c_meterTypeMask,
      MeterType_Electric, MeterType_Water, MeterType_Cooling, ge_iff_le] at hmt
    cases hrd : readByte data 1 with
    | error e => simp [hrd] at hmt
    | ok x =>
      simp only [hrd] at hmt
      split at hmt
      · split at hmt
        · split at hmt
          · simp at hmt; omega
          · simp at hmt
        · split at hmt
          · simp at hmt; omega
          · simp at hmt
      · simp at hmt
  refine ⟨hs, hdesc, ?_⟩
  have := (GetMeterTypeDescription_index hdesc ht.1).1
  omega

/-- C2 (amended), on a version-5 report of length 9 whose scale-2 byte is 3. -/
theorem GetScale_scale2_extension_witness :
    (4 ≤ 5) ∧ (2 ≤ 9 ∧ 9 < 2 ^ 32) ∧
    GetScale 5 [0x02, 0x81, 0x5A, 0x00, 0x64, 0x00, 0x00, 0x03] 9
      = .ok { scale := 11, scale1 := 7, scale2 := 11 } :=
  ⟨by decide, by decide,
    (GetScale_scale2_extension 5 [0x02, 0x81, 0x5A, 0x00, 0x64, 0x00, 0x00, 0x03] 9 0x81 0x5A 3
      (by decide) (by decide) (by decide) (by decide) (by decide) (by decide)).1⟩

/-! ## The version-4 scenario -/

/-- C3: the version-4 scenario payload (byte 1 = 0x81, byte 2 = 0x5A, value
bytes 0x00 0x64, delta-time 0, then a scale-2 extension byte 3) decodes to
quantity type 1, element size 2, precision 2, value 1.00 rendered "1.00" and,
with `_length` = 9, resolved scale 11; but the length check expects 8, so
`HandleReport` rejects the report and leaves the store as it was.  With
`_length` = 8 the length check passes and the scale-2 byte that is read is the
low delta-time byte: the resolved scale is 8 and the reading goes to index 8.
In version 5 the same payload with `_length` = 9 is accepted at index 11. -/
theorem HandleReport_version4_scale2_scenario :
    GetMeterType 4 [0x02, 0x81, 0x5A, 0x00, 0x64, 0x00, 0x00, 0x03] = .ok (true, 1) ∧
    GetValueElementSize [0x02, 0x81, 0x5A, 0x00, 0x64, 0x00, 0x00, 0x03] = .ok (true, 2) ∧
    GetPrecision [0x02, 0x81, 0x5A, 0x00, 0x64, 0x00, 0x00, 0x03] = .ok 2 ∧
    GetDeltaTime 4 [0x02, 0x81, 0x5A, 0x00, 0x64, 0x00, 0x00, 0x03] 2 = .ok 0 ∧
    GetReportValue (List.drop 3 [0x02, 0x81, 0x5A, 0x00, 0x64, 0x00, 0x00, 0x03]) 2 2
      = .ok (1, "1.00") ∧
    GetScale 4 [0x02, 0x81, 0x5A, 0x00, 0x64, 0x00, 0x00, 0x03] 9
      = .ok { scale := 11, scale1 := 7, scale2 := 11 } ∧
    GetMeterTypeDescription 1 11 = some (11, { Label := "Electric (Unknown)", Unit := "" }) ∧
    ValidateLengthOfMessage 4 2 7 0 9 = false ∧
    HandleReport { version := 4, maxVersion := 5, nodePresent := true, getSupported := true }
        [((1, 8), .decimal "Electric - kVar" "kVar" "0.0" 0),
         ((1, 11), .decimal "Electric (Unknown)" "" "0.0" 0)]
        [0x02, 0x81, 0x5A, 0x00, 0x64, 0x00, 0x00, 0x03] 9 1
      = .ok (false,
        [((1, 8), .decimal "Electric - kVar" "kVar" "0.0" 0),
         ((1, 11), .decimal "Electric (Unknown)" "" "0.0" 0)]) ∧
    HandleReport { version := 4, maxVersion := 5, nodePresent := true, getSupported := true }
        [((1, 8), .decimal "Electric - kVar" "kVar" "0.0" 0),
         ((1, 11), .decimal "Electric (Unknown)" "" "0.0" 0)]
        [0x02, 0x81, 0x5A, 0x00, 0x64, 0x00, 0x00, 0x03] 8 1
      = .ok (true,
        [((1, 8), .decimal "Electric - kVar" "kVar" "1.00" 2),
         ((1, 11), .decimal "Electric (Unknown)" "" "0.0" 0)]) ∧
    HandleReport { version := 5, maxVersion := 5, nodePresent := true, getSupported := true }
        [((1, 8), .decimal "Electric - kVar" "kVar" "0.0" 0),
         ((1, 11), .decimal "Electric (Unknown)" "" "0.0" 0)]
        [0x02, 0x81, 0x5A, 0x00, 0x64, 0x00, 0x00, 0x03] 9 1
      = .ok (true,
        [((1, 8), .decimal "Electric - kVar" "kVar" "0.0" 0),
         ((1, 11), .decimal "Electric (Unknown)" "" "1.00" 2)]) := by
  refine ⟨by decide, by decide, by decide, by decide, by decide!, by decide, by decide,
    by decide, by decide!, by decide!, by decide!⟩

/-! ## The exporting flag -/

/-- The rate type `GetRateType` decodes is below 4 in every version. -/
theorem GetRateType_lt_four {version : Nat} {data : List Nat} {ok : Bool} {rateType : Nat}
    (h : GetRateType version data = .ok (ok, rateType)) : rateType < 4 := by
  have hb : ∀ b : Nat, ((b &&& c_rateTypeMask) >>> c_rateTypeShift) % 2 ^ 8 < 4 := by
    intro b
    have h1 : b &&& c_rateTypeMask ≤ 0x60 := Nat.and_le_right
    rw [c_rateTypeShift, Nat.shiftRight_eq_div_pow]
    omega
  unfold GetRateType at h
  split at h
  · simp only [Except.ok.injEq, Prod.mk.injEq] at h
    omega
  · cases hr : readByte data 1 with
    | error e => simp [hr, bind, Except.bind] at h
    | ok b =>
      have := hb b
      simp only [hr, bind, Except.bind, pure, Except.pure] at h
      split at h <;>
        (simp only [Except.ok.injEq, Prod.mk.injEq] at h; obtain ⟨-, h⟩ := h; omega)

/-- C9: a version-2 report whose byte 1 is 0x41 carries the export pattern in
its rate-type field (`0x41 & 0x60 = 0x40`), is accepted, and refreshes the
exporting slot to false: the decoded rate type is the field shifted down (2
here, below 4 for every byte 1 in every version), and it is compared with
0x40; a seventh byte in `_data` changes nothing.  In version 1 the exporting
slot is not touched. -/
theorem HandleReport_exporting_never_true :
    (0x41 &&& 0x60 = 0x40) ∧
    GetRateType 2 [0x02, 0x41, 0x21, 0x05, 0x00, 0x00] = .ok (true, 2) ∧
    HandleReport { version := 2, maxVersion := 5, nodePresent := true, getSupported := true }
        [((1, 0), .decimal "Electric - kWh" "kWh" "0.0" 0),
         ((1, ValueID_Index_Meter.Exporting), .bool "Exporting" true)]
        [0x02, 0x41, 0x21, 0x05, 0x00, 0x00] 7 1
      = .ok (true,
        [((1, 0), .decimal "Electric - kWh" "kWh" "0.5" 1),
         ((1, ValueID_Index_Meter.Exporting), .bool "Exporting" false)]) ∧
    HandleReport { version := 2, maxVersion := 5, nodePresent := true, getSupported := true }
        [((1, 0), .decimal "Electric - kWh" "kWh" "0.0" 0),
         ((1, ValueID_Index_Meter.Exporting), .bool "Exporting" true)]
        [0x02, 0x41, 0x21, 0x05, 0x00, 0x00, 0x00] 7 1
      = .ok (true,
        [((1, 0), .decimal "Electric - kWh" "kWh" "0.5" 1),
         ((1, ValueID_Index_Meter.Exporting), .bool "Exporting" false)]) ∧
    (∀ (version : Nat) (data : List Nat) (ok : Bool) (rateType : Nat),
      GetRateType version data = .ok (ok, rateType) → rateType ≠ 0x40) ∧
    (∀ (ctx : Ctx) (store : Store) (inst rateType : Nat), ctx.version = 1 →
      refreshExporting ctx store inst rateType = .ok store) := by
  refine ⟨by decide, by decide, by decide!, by decide!, ?_, ?_⟩
  · intro version data ok rateType h
    have := GetRateType_lt_four h
    omega
  · intro ctx store inst rateType hv
    simp [refreshExporting, hv]

/-! ## Reads outside the payload -/

/-- C10: a version-2 payload of four bytes (command, byte 1, byte 2, one value
byte), cut before its delta-time field, makes `HandleReport` read index 4,
which is outside the payload, before the length is checked: the call is a fault
and not a rejection, whether `_length` is 4 or 5.  So do a payload of the
command byte alone (index 1), and a version-4 report with composed scale 7 and
`_length` 1 (index `2 ^ 32 - 1`). -/
theorem HandleReport_truncated_reads_out_of_range :
    HandleReport { version := 2, maxVersion := 5, nodePresent := true, getSupported := true }
        [] [0x02, 0x21, 0x21, 0x05] 4 1 = .error (.outOfRange 4) ∧
    HandleReport { version := 2, maxVersion := 5, nodePresent := true, getSupported := true }
        [] [0x02, 0x21, 0x21, 0x05] 5 1 = .error (.outOfRange 4) ∧
    HandleReport { version := 2, maxVersion := 5, nodePresent := true, getSupported := true }
        [] [0x02] 1 1 = .error (.outOfRange 1) ∧
    HandleReport { version := 4, maxVersion := 5, nodePresent := true, getSupported := true }
        [] [0x02, 0x81, 0x5A] 1 1 = .error (.outOfRange (2 ^ 32 - 1)) := by
  refine ⟨by decide!, by decide!, by decide!, by decide!⟩

/-! ## Rounding to binary64 -/

/-- With enough fuel, `log2Fuel` is the position of the leading binary digit. -/
theorem log2Fuel_spec : ∀ (fuel n : Nat), n ≤ fuel → 0 < n →
    2 ^ log2Fuel fuel n ≤ n ∧ n < 2 ^ (log2Fuel fuel n + 1) := by
  intro fuel
  induction fuel with
  | zero => intro n h h0; omega
  | succ fuel ih =>
    intro n h h0
    unfold log2Fuel
    by_cases h2 : n < 2
    · simp only [h2, if_true]
      omega
    · simp only [h2, if_false]
      obtain ⟨a, b⟩ := ih (n / 2) (by omega) (by omega)
      generalize log2Fuel fuel (n / 2) = k at a b
      rw [pow_succ, pow_succ]
      rw [pow_succ] at b
      constructor <;> omega

/-- The value of a nonzero rational lies in the binade `binade` names. -/
theorem binade_spec (x : ℚ) (hx : x ≠ 0) :
    (2 : ℚ) ^ binade x ≤ |x| ∧ |x| < (2 : ℚ) ^ (binade x + 1) := by
  have hp : 0 < x.num.natAbs := Int.natAbs_pos.mpr (Rat.num_ne_zero.mpr hx)
  have hq : 0 < x.den := x.den_pos
  obtain ⟨pa, pb⟩ := log2Fuel_spec _ _ (le_refl x.num.natAbs) hp
  obtain ⟨qa, qb⟩ := log2Fuel_spec _ _ (le_refl x.den) hq
  have habs : |x| = (x.num.natAbs : ℚ) / (x.den : ℚ) := by
    rw [Rat.abs_def, Rat.divInt_eq_div]
    push_cast
    rw [Nat.cast_natAbs, Int.cast_abs]
  unfold binade
  generalize log2Fuel x.num.natAbs x.num.natAbs = a at pa pb ⊢
  generalize log2Fuel x.den x.den = b at qa qb ⊢
  generalize x.num.natAbs = p at hp pa pb habs
  generalize x.den = q at hq qa qb habs
  have hq0 : (0 : ℚ) < q := by exact_mod_cast hq
  have pa' : (2 : ℚ) ^ a ≤ p := by exact_mod_cast pa
  have pb' : (p : ℚ) < 2 ^ (a + 1) := by exact_mod_cast pb
  have qa' : (2 : ℚ) ^ b ≤ q := by exact_mod_cast qa
  have qb' : (q : ℚ) < 2 ^ (b + 1) := by exact_mod_cast qb
  have h2 : (2 : ℚ) ≠ 0 := by norm_num
  have e1 : (2 : ℚ) ^ ((a : ℤ) - (b : ℤ)) = 2 ^ a / 2 ^ b := by
    rw [zpow_sub₀ h2, zpow_natCast, zpow_natCast]
  have e2 : (2 : ℚ) ^ ((a : ℤ) - (b : ℤ) + 1) = 2 ^ (a + 1) / 2 ^ b := by
    rw [zpow_add_one₀ h2, e1, pow_succ]; ring
  have e3 : (2 : ℚ) ^ ((a : ℤ) - (b : ℤ) - 1) = 2 ^ a / 2 ^ (b + 1) := by
    rw [zpow_sub_one₀ h2, e1, pow_succ]; field_simp
  have hb0 : (0 : ℚ) < 2 ^ b := by positivity
  have hb1 : (0 : ℚ) < 2 ^ (b + 1) := by positivity
  have upper : |x| < 2 ^ (a + 1) / 2 ^ b := by
    rw [habs, div_lt_div_iff₀ hq0 hb0]
    calc (p : ℚ) * 2 ^ b ≤ p * q := by
          apply mul_le_mul_of_nonneg_left qa'; positivity
      _ < 2 ^ (a + 1) * q := by
          apply mul_lt_mul_of_pos_right pb' hq0
  have lower : (2 : ℚ) ^ a / 2 ^ (b + 1) < |x| := by
    rw [habs, div_lt_div_iff₀ hb1 hq0]
    calc (2 : ℚ) ^ a * q < 2 ^ a * 2 ^ (b + 1) := by
          apply mul_lt_mul_of_pos_left qb'; positivity
      _ ≤ p * 2 ^ (b + 1) := by
          apply mul_le_mul_of_nonneg_right pa'; positivity
  by_cases hc : |x| < (2 : ℚ) ^ ((a : ℤ) - (b : ℤ))
  · simp only [hc, if_true]
    rw [e3, sub_add_cancel]
    exact ⟨lower.le, hc⟩
  · simp only [hc, if_false]
    rw [e2]
    exact ⟨not_lt.mp hc, upper⟩

/-- Rounding to the nearest integer moves a value by at most 1/2. -/
theorem roundHalfEven_error (y : ℚ) : |(roundHalfEven y : ℚ) - y| ≤ 1 / 2 := by
  have h1 : (⌊y⌋ : ℚ) ≤ y := Int.floor_le y
  have h2 : y < (⌊y⌋ : ℚ) + 1 := Int.lt_floor_add_one y
  unfold roundHalfEven
  rw [abs_le]
  simp only
  split_ifs with ha hb hc <;> push_cast <;> constructor <;> linarith

theorem roundHalfEven_intCast (n : Int) : roundHalfEven (n : ℚ) = n := by
  unfold roundHalfEven
  simp

theorem roundHalfEven_le (y : ℚ) (n : Int) (h : y ≤ n) : roundHalfEven y ≤ n := by
  have h1 : (⌊y⌋ : ℚ) ≤ y := Int.floor_le y
  have hf : ⌊y⌋ ≤ n := by exact_mod_cast h1.trans h
  unfold roundHalfEven
  simp only
  have key : ¬ (y - (⌊y⌋ : ℚ) < 1 / 2) → ⌊y⌋ + 1 ≤ n := by
    intro hd
    have : (⌊y⌋ : ℚ) < n := by linarith
    have : ⌊y⌋ < n := by exact_mod_cast this
    omega
  split_ifs with ha hb hc
  · exact hf
  · exact key ha
  · exact hf
  · exact key ha

theorem le_roundHalfEven (y : ℚ) (n : Int) (h : (n : ℚ) ≤ y) : n ≤ roundHalfEven y := by
  have hf : n ≤ ⌊y⌋ := Int.le_floor.mpr h
  unfold roundHalfEven
  simp only
  split_ifs <;> omega


theorem binary64_zero : binary64 0 = 0 := by simp [binary64]

/-- The rounding error of a value in the normal range of binary64. -/
theorem binary64_error (x : ℚ) (h : (2 : ℚ) ^ (-1022 : ℤ) ≤ |x|) :
    |binary64 x - x| ≤ |x| / 2 ^ 53 := by
  have hpos : (0 : ℚ) < (2 : ℚ) ^ (-1022 : ℤ) := by positivity
  have hx : x ≠ 0 := by
    intro h0
    rw [h0, abs_zero] at h
    linarith
  obtain ⟨hlo, hhi⟩ := binade_spec x hx
  have hb : -1022 ≤ binade x := by
    have : (2 : ℚ) ^ (-1022 : ℤ) < (2 : ℚ) ^ (binade x + 1) := lt_of_le_of_lt h hhi
    have := (zpow_lt_zpow_iff_right₀ (by norm_num : (1 : ℚ) < 2)).mp this
    omega
  have he : max (binade x - 52) (-1074) = binade x - 52 := by omega
  unfold binary64
  simp only [hx, if_false, he]
  have h2 : (2 : ℚ) ≠ 0 := by norm_num
  have hepos : (0 : ℚ) < (2 : ℚ) ^ (binade x - 52) := by positivity
  have hr := roundHalfEven_error (x / (2 : ℚ) ^ (binade x - 52))
  have heq : (roundHalfEven (x / (2 : ℚ) ^ (binade x - 52)) : ℚ) * (2 : ℚ) ^ (binade x - 52) - x
      = ((roundHalfEven (x / (2 : ℚ) ^ (binade x - 52)) : ℚ) - x / (2 : ℚ) ^ (binade x - 52))
        * (2 : ℚ) ^ (binade x - 52) := by
    field_simp
  rw [heq, abs_mul, abs_of_pos hepos]
  have hsplit : (2 : ℚ) ^ (binade x - 52) = (2 : ℚ) ^ binade x / 2 ^ 52 := by
    rw [zpow_sub₀ h2]
    norm_num
  calc |(roundHalfEven (x / (2 : ℚ) ^ (binade x - 52)) : ℚ) - x / (2 : ℚ) ^ (binade x - 52)|
        * (2 : ℚ) ^ (binade x - 52)
      ≤ 1 / 2 * (2 : ℚ) ^ (binade x - 52) := mul_le_mul_of_nonneg_right hr hepos.le
    _ = (2 : ℚ) ^ binade x / 2 ^ 53 := by rw [hsplit]; ring
    _ ≤ |x| / 2 ^ 53 := by
        apply div_le_div_of_nonneg_right hlo; positivity

/-- The exponent of the last place is at most 0 below `2 ^ 53`. -/
theorem binary64_exponent (x : ℚ) (hx : x ≠ 0) (h : |x| < 2 ^ 53) :
    ∃ t : Nat, (2 : ℚ) ^ (max (binade x - 52) (-1074)) = 1 / 2 ^ t := by
  obtain ⟨hlo, -⟩ := binade_spec x hx
  have hb : binade x < 53 := by
    have : (2 : ℚ) ^ binade x < (2 : ℚ) ^ (53 : ℤ) := by
      refine lt_of_le_of_lt hlo ?_
      rw [zpow_ofNat]
      exact h
    exact (zpow_lt_zpow_iff_right₀ (by norm_num : (1 : ℚ) < 2)).mp this
  refine ⟨(-(max (binade x - 52) (-1074))).toNat, ?_⟩
  have ht : max (binade x - 52) (-1074) = -(((-(max (binade x - 52) (-1074))).toNat : Nat) : ℤ) := by
    omega
  rw [one_div, ← zpow_natCast, ← zpow_neg, ← ht]

/-- Rounding to binary64 does not cross an integer below `2 ^ 53`. -/
theorem binary64_abs_le (x : ℚ) (m : Nat) (hm : (m : ℚ) < 2 ^ 53) (h : |x| ≤ m) :
    |binary64 x| ≤ m := by
  by_cases hx : x = 0
  · rw [hx, binary64_zero, abs_zero]
    positivity
  obtain ⟨t, ht⟩ := binary64_exponent x hx (lt_of_le_of_lt h hm)
  unfold binary64
  simp only [hx, if_false, ht]
  have htpos : (0 : ℚ) < 2 ^ t := by positivity
  have hb := abs_le.mp h
  have hy : x / (1 / 2 ^ t) = x * 2 ^ t := by field_simp
  rw [hy]
  have hN : (((m * 2 ^ t : Nat) : ℤ) : ℚ) = (m : ℚ) * 2 ^ t := by push_cast; ring
  have h1 : roundHalfEven (x * 2 ^ t) ≤ ((m * 2 ^ t : Nat) : ℤ) := by
    apply roundHalfEven_le
    rw [hN]
    exact mul_le_mul_of_nonneg_right hb.2 htpos.le
  have h2 : -((m * 2 ^ t : Nat) : ℤ) ≤ roundHalfEven (x * 2 ^ t) := by
    apply le_roundHalfEven
    rw [Int.cast_neg, hN]
    have := mul_le_mul_of_nonneg_right hb.1 htpos.le
    linarith
  have h1' : (roundHalfEven (x * 2 ^ t) : ℚ) ≤ (m : ℚ) * 2 ^ t := by
    rw [← hN]; exact_mod_cast h1
  have h2' : -((m : ℚ) * 2 ^ t) ≤ (roundHalfEven (x * 2 ^ t) : ℚ) := by
    rw [← hN]; exact_mod_cast h2
  rw [abs_le]
  constructor
  · rw [mul_one_div, le_div_iff₀ htpos]; linarith
  · rw [mul_one_div, div_le_iff₀ htpos]; linarith

/-- An integer below `2 ^ 53` in absolute value is a binary64 value. -/
theorem binary64_intCast (n : Int) (h : |(n : ℚ)| < 2 ^ 53) : binary64 (n : ℚ) = n := by
  by_cases hx : (n : ℚ) = 0
  · rw [hx, binary64_zero]
  obtain ⟨t, ht⟩ := binary64_exponent (n : ℚ) hx h
  unfold binary64
  simp only [hx, if_false, ht]
  have htpos : (0 : ℚ) < 2 ^ t := by positivity
  have hy : (n : ℚ) / (1 / 2 ^ t) = ((n * 2 ^ t : ℤ) : ℚ) := by push_cast; field_simp
  rw [hy, roundHalfEven_intCast]
  push_cast
  field_simp

/-- The powers of ten up to `10 ^ 7` are binary64 values. -/
theorem binary64_pow_ten : ∀ p ≤ 7, binary64 ((10 : ℚ) ^ p) = 10 ^ p := by decide!

/-- The rounding error of the quotient of an integer by a power of ten up to
`10 ^ 7`: relative error at most `2 ^ -53`. -/
theorem binary64_quotient_error (n : Int) (precision : Nat) (hp : precision ≤ 7) :
    |binary64 ((n : ℚ) / 10 ^ precision) - (n : ℚ) / 10 ^ precision|
      ≤ |(n : ℚ) / 10 ^ precision| / 2 ^ 53 := by
  by_cases hn : n = 0
  · subst hn
    simp [binary64_zero]
  apply binary64_error
  have h1 : (1 : ℚ) ≤ |(n : ℚ)| := by
    have : (1 : ℤ) ≤ |n| := Int.one_le_abs hn
    exact_mod_cast this
  have hpos : (0 : ℚ) < 10 ^ precision := by positivity
  have hle : (10 : ℚ) ^ precision ≤ 10 ^ 7 := pow_le_pow_right₀ (by norm_num) hp
  have hsmall : (2 : ℚ) ^ (-1022 : ℤ) ≤ 1 / 10 ^ 7 := by
    have h24 : (2 : ℚ) ^ (-1022 : ℤ) ≤ (2 : ℚ) ^ (-24 : ℤ) :=
      zpow_le_zpow_right₀ (by norm_num) (by norm_num)
    have h24' : (2 : ℚ) ^ (-24 : ℤ) = 1 / 2 ^ 24 := by
      rw [zpow_neg, one_div]
      norm_num
    rw [h24'] at h24
    refine h24.trans ?_
    norm_num
  rw [abs_div, abs_of_pos hpos]
  calc (2 : ℚ) ^ (-1022 : ℤ) ≤ 1 / 10 ^ 7 := hsmall
    _ ≤ 1 / 10 ^ precision := one_div_le_one_div_of_le hpos hle
    _ ≤ |(n : ℚ)| / 10 ^ precision := div_le_div_of_nonneg_right h1 hpos.le

/-! ## The value codec -/

set_option maxRecDepth 100000 in
theorem msb_of_byte : ∀ b < 256, (b &&& 0x80 ≠ 0 ↔ 128 ≤ b) := by decide

theorem lor_high_bits (x a i : Nat) (hx : x < 2 ^ i) : x ||| 2 ^ i * a = 2 ^ i * a + x := by
  rw [Nat.lor_comm, Nat.mul_add_lt_is_or hx]

theorem reportInteger_one (b0 : Nat) (rest : List Nat) (h0 : b0 < 256) :
    reportInteger (b0 :: rest) 1 = .ok (if b0 < 128 then (b0 : Int) else (b0 : Int) - 256) := by
  have hr : List.range 1 = [0] := rfl
  have hmsb := msb_of_byte b0 h0
  have hor : b0 ||| 0xffffff00 = 0xffffff00 + b0 := lor_high_bits b0 0xffffff 8 h0
  by_cases h : 128 ≤ b0
  · have hne : b0 &&& 128 ≠ 0 := hmsb.2 h
    have hlt : ¬ b0 < 128 := by omega
    simp only [reportInteger, accumulateBytes, hr, List.foldlM_cons, List.foldlM_nil, readByte,
      List.getElem?_cons_zero, bind, Except.bind, pure, Except.pure, Nat.zero_shiftLeft,
      Nat.zero_mod, Nat.zero_add, Nat.mod_eq_of_lt (show b0 < 2 ^ 32 by omega), ne_eq, hne,
      not_false_eq_true, if_true, hor, hlt, if_false, toInt32]
    norm_num
    split <;> omega
  · have hne : ¬ (b0 &&& 128 ≠ 0) := fun hh => h (hmsb.1 hh)
    have hlt : b0 < 128 := by omega
    simp only [reportInteger, accumulateBytes, hr, List.foldlM_cons, List.foldlM_nil, readByte,
      List.getElem?_cons_zero, bind, Except.bind, pure, Except.pure, Nat.zero_shiftLeft,
      Nat.zero_mod, Nat.zero_add, Nat.mod_eq_of_lt (show b0 < 2 ^ 32 by omega), hne,
      if_false, hlt, if_true, toInt32]
    norm_num
    omega

theorem reportInteger_two (b0 b1 : Nat) (rest : List Nat) (h0 : b0 < 256) (h1 : b1 < 256) :
    reportInteger (b0 :: b1 :: rest) 2
      = .ok (if b0 < 128 then ((b0 * 256 + b1 : Nat) : Int)
             else ((b0 * 256 + b1 : Nat) : Int) - 65536) := by
  have hr : List.range 2 = [0, 1] := rfl
  have hmsb := msb_of_byte b0 h0
  have hacc : ((b0 <<< 8) % 2 ^ 32 + b1) % 2 ^ 32 = b0 * 256 + b1 := by
    rw [Nat.shiftLeft_eq]; omega
  have hx : b0 * 256 + b1 < 2 ^ 16 := by omega
  have hor : (b0 * 256 + b1) ||| 0xffff0000 = 0xffff0000 + (b0 * 256 + b1) :=
    lor_high_bits _ 0xffff 16 hx
  by_cases h : 128 ≤ b0
  · have hne : b0 &&& 128 ≠ 0 := hmsb.2 h
    have hlt : ¬ b0 < 128 := by omega
    simp only [reportInteger, accumulateBytes, hr, List.foldlM_cons, List.foldlM_nil, readByte,
      List.getElem?_cons_zero, List.getElem?_cons_succ, bind, Except.bind, pure, Except.pure,
      Nat.zero_shiftLeft, Nat.zero_mod, Nat.zero_add,
      Nat.mod_eq_of_lt (show b0 < 2 ^ 32 by omega), hacc, ne_eq, hne,
      not_false_eq_true, if_true, hor, hlt, if_false, toInt32]
    norm_num
    split <;> omega
  · have hne : ¬ (b0 &&& 128 ≠ 0) := fun hh => h (hmsb.1 hh)
    have hlt : b0 < 128 := by omega
    simp only [reportInteger, accumulateBytes, hr, List.foldlM_cons, List.foldlM_nil, readByte,
      List.getElem?_cons_zero, List.getElem?_cons_succ, bind, Except.bind, pure, Except.pure,
      Nat.zero_shiftLeft, Nat.zero_mod, Nat.zero_add,
      Nat.mod_eq_of_lt (show b0 < 2 ^ 32 by omega), hacc, hne,
      if_false, hlt, if_true, toInt32]
    norm_num
    omega

theorem reportInteger_four (b0 b1 b2 b3 : Nat) (rest : List Nat)
    (h0 : b0 < 256) (h1 : b1 < 256) (h2 : b2 < 256) (h3 : b3 < 256) :
    reportInteger (b0 :: b1 :: b2 :: b3 :: rest) 4
      = .ok (if b0 < 128 then ((((b0 * 256 + b1) * 256 + b2) * 256 + b3 : Nat) : Int)
             else ((((b0 * 256 + b1) * 256 + b2) * 256 + b3 : Nat) : Int) - 4294967296) := by
  have hr : List.range 4 = [0, 1, 2, 3] := rfl
  have hacc1 : ((b0 <<< 8) % 2 ^ 32 + b1) % 2 ^ 32 = b0 * 256 + b1 := by
    rw [Nat.shiftLeft_eq]; omega
  have hacc2 : (((b0 * 256 + b1) <<< 8) % 2 ^ 32 + b2) % 2 ^ 32 = (b0 * 256 + b1) * 256 + b2 := by
    rw [Nat.shiftLeft_eq]; omega
  have hacc3 : ((((b0 * 256 + b1) * 256 + b2) <<< 8) % 2 ^ 32 + b3) % 2 ^ 32
      = ((b0 * 256 + b1) * 256 + b2) * 256 + b3 := by
    rw [Nat.shiftLeft_eq]; omega
  have h41 : ¬ (4 = 1) := by decide
  have h42 : ¬ (4 = 2) := by decide
  simp only [reportInteger, accumulateBytes, hr, List.foldlM_cons, List.foldlM_nil, readByte,
    List.getElem?_cons_zero, List.getElem?_cons_succ, bind, Except.bind, pure, Except.pure,
    Nat.zero_shiftLeft, Nat.zero_mod, Nat.zero_add,
    Nat.mod_eq_of_lt (show b0 < 2 ^ 32 by omega), hacc1, hacc2, hacc3, h41, h42, if_false,
    ite_self, toInt32]
  norm_num
  split <;> split <;> omega

/-- The rest of `GetReportValue` once the integer is known. -/
theorem GetReportValue_of_reportInteger {data : List Nat} {elementSize : Nat} {n : Int}
    (precision : Nat) (h : reportInteger data elementSize = .ok n) :
    GetReportValue data elementSize precision
      = .ok (binary64 ((n : ℚ) / binary64 (10 ^ precision)),
          formatFixed precision (binary64 ((n : ℚ) / binary64 (10 ^ precision)))) := by
  simp [GetReportValue, h, bind, Except.bind, pure, Except.pure]

/-- The rest of `GetReportValue` once the integer is known, for a precision of
at most 7, where the divider is exact. -/
theorem GetReportValue_of_reportInteger_le_seven {data : List Nat} {elementSize : Nat} {n : Int}
    {precision : Nat} (hp : precision ≤ 7) (h : reportInteger data elementSize = .ok n) :
    GetReportValue data elementSize precision
      = .ok (binary64 ((n : ℚ) / 10 ^ precision),
          formatFixed precision (binary64 ((n : ℚ) / 10 ^ precision))) := by
  rw [GetReportValue_of_reportInteger precision h, binary64_pow_ten precision hp]

/-- C6 (as stated) fails: the two-byte field 0x00 0x1E decodes to the integer
30, and at precision 2 the decoded value is not 30 / 10 ^ 2: it is the `double`
nearest to 3/10, `5404319552844595 / 2 ^ 54`, which is below 3/10.  The text
rendered from it is "0.30". -/
theorem GetReportValue_quotient_counterexample :
    reportInteger [0x00, 0x1E] 2 = .ok 30 ∧
    signedBigEndian [0x00, 0x1E] = 30 ∧
    GetReportValue [0x00, 0x1E] 2 2 = .ok (5404319552844595 / 2 ^ 54, "0.30") ∧
    (5404319552844595 / 2 ^ 54 : ℚ) < ((30 : Int) : ℚ) / 10 ^ 2 ∧
    GetReportValue [0x00, 0x1E] 2 2 ≠ .ok (((30 : Int) : ℚ) / 10 ^ 2, "0.30") := by
  refine ⟨by decide, by decide, by decide!, by norm_num, by decide!⟩

/-- C6 (amended): for a field of one or two bytes, followed by anything, and
every precision 0..7, the integer of `GetReportValue` is the two's-complement
signed big-endian value of the field: in [-128, 127] for one byte and [-32768,
32767] for two, negative exactly when the most-significant bit of the first
byte is set; and the decoded value is that integer divided by `10 ^ precision`
and rounded to the nearest `double`: it differs from the quotient by at most
`2 ^ -53` of it, and it is the integer itself at precision 0. -/
theorem GetReportValue_signed_one_or_two
    (field rest : List Nat) (precision : Nat)
    (hlen : field.length = 1 ∨ field.length = 2) (hbytes : ∀ b ∈ field, b < 256)
    (hp : precision ≤ 7) :
    reportInteger (field ++ rest) field.length = .ok (signedBigEndian field) ∧
    (field.length = 1 → -128 ≤ signedBigEndian field ∧ signedBigEndian field ≤ 127) ∧
    (field.length = 2 → -32768 ≤ signedBigEndian field ∧ signedBigEndian field ≤ 32767) ∧
    (signedBigEndian field < 0 ↔ field.headD 0 &&& 0x80 ≠ 0) ∧
    GetReportValue (field ++ rest) field.length precision
      = .ok (binary64 ((signedBigEndian field : ℚ) / 10 ^ precision),
             formatFixed precision (binary64 ((signedBigEndian field : ℚ) / 10 ^ precision))) ∧
    |binary64 ((signedBigEndian field : ℚ) / 10 ^ precision)
        - (signedBigEndian field : ℚ) / 10 ^ precision|
      ≤ |(signedBigEndian field : ℚ) / 10 ^ precision| / 2 ^ 53 ∧
    (precision = 0 →
      binary64 ((signedBigEndian field : ℚ) / 10 ^ precision) = signedBigEndian field) := by
  have hexact : ∀ n : Int, -32768 ≤ n → n ≤ 32767 → precision = 0 →
      binary64 ((n : ℚ) / 10 ^ precision) = n := by
    intro n hlo hhi h0
    subst h0
    rw [pow_zero, div_one]
    apply binary64_intCast
    have h1 : ((-32768 : Int) : ℚ) ≤ (n : ℚ) := Int.cast_le.mpr hlo
    have h2 : (n : ℚ) ≤ ((32767 : Int) : ℚ) := Int.cast_le.mpr hhi
    push_cast at h1 h2
    rw [abs_lt]
    constructor <;> norm_num <;> linarith
  rcases hlen with hlen | hlen
  · obtain ⟨b0, rfl⟩ := List.length_eq_one.mp hlen
    have h0 : b0 < 256 := hbytes b0 (by simp)
    have hmsb := msb_of_byte b0 h0
    have hs : signedBigEndian [b0] = if b0 < 128 then (b0 : Int) else (b0 : Int) - 256 := by
      simp [signedBigEndian, bigEndian]
    have hi : reportInteger ([b0] ++ rest) [b0].length = .ok (signedBigEndian [b0]) := by
      rw [hs]; exact reportInteger_one b0 rest h0
    have hrange : -128 ≤ signedBigEndian [b0] ∧ signedBigEndian [b0] ≤ 127 := by
      rw [hs]; split <;> omega
    refine ⟨hi, fun _ => hrange, ?_, ?_, GetReportValue_of_reportInteger_le_seven hp hi,
      binary64_quotient_error _ precision hp,
      hexact _ (by omega) (by omega)⟩
    · intro h; simp at h
    · rw [hs, List.headD_cons, hmsb]; split <;> omega
  · obtain ⟨b0, b1, rfl⟩ := List.length_eq_two.mp hlen
    have h0 : b0 < 256 := hbytes b0 (by simp)
    have h1 : b1 < 256 := hbytes b1 (by simp)
    have hmsb := msb_of_byte b0 h0
    have hs : signedBigEndian [b0, b1]
        = if b0 < 128 then ((b0 * 256 + b1 : Nat) : Int)
          else ((b0 * 256 + b1 : Nat) : Int) - 65536 := by
      simp only [signedBigEndian, bigEndian, List.foldl_cons, List.foldl_nil, List.length_cons,
        List.length_nil]
      norm_num
      split <;> split <;> omega
    have hi : reportInteger ([b0, b1] ++ rest) [b0, b1].length
        = .ok (signedBigEndian [b0, b1]) := by
      rw [hs]; exact reportInteger_two b0 b1 rest h0 h1
    have hrange : -32768 ≤ signedBigEndian [b0, b1] ∧ signedBigEndian [b0, b1] ≤ 32767 := by
      rw [hs]; split <;> omega
    refine ⟨hi, ?_, fun _ => hrange, ?_, GetReportValue_of_reportInteger_le_seven hp hi,
      binary64_quotient_error _ precision hp,
      hexact _ hrange.1 hrange.2⟩
    · intro h; simp at h
    · rw [hs, List.headD_cons, hmsb]; split <;> omega

/-- C6 (amended), on the two-byte field 0xFF 0x9C at precision 2: the integer is
-100 and the value -1, rendered "-1.00". -/
theorem GetReportValue_signed_one_or_two_witness :
    ([0xFF, 0x9C].length = 1 ∨ [0xFF, 0x9C].length = 2) ∧ (∀ b ∈ [0xFF, 0x9C], b < 256) ∧
    (2 : Nat) ≤ 7 ∧
    signedBigEndian [0xFF, 0x9C] = -100 ∧
    GetReportValue ([0xFF, 0x9C] ++ [0x00, 0x00]) 2 2 = .ok (-1, "-1.00") ∧
    reportInteger ([0xFF, 0x9C] ++ [0x00, 0x00]) [0xFF, 0x9C].length
      = .ok (signedBigEndian [0xFF, 0x9C]) :=
  ⟨by decide, by decide, by decide, by decide, by decide!,
    (GetReportValue_signed_one_or_two [0xFF, 0x9C] [0x00, 0x00] 2 (by decide) (by decide)
      (by decide)).1⟩

/-- C7 (as stated) fails: the four-byte field 0xFF 0xFF 0xFF 0xFF, whose first
byte has its most-significant bit set, is decoded as the integer -1, not as the
non-negative big-endian value 4294967295; the value at precision 0 is rendered
"-1". -/
theorem GetReportValue_four_bytes_counterexample :
    bigEndian [0xFF, 0xFF, 0xFF, 0xFF] = 4294967295 ∧
    reportInteger [0xFF, 0xFF, 0xFF, 0xFF] 4 = .ok (-1) ∧
    reportInteger [0xFF, 0xFF, 0xFF, 0xFF] 4
      ≠ .ok ((bigEndian [0xFF, 0xFF, 0xFF, 0xFF] : Nat) : Int) ∧
    GetReportValue [0xFF, 0xFF, 0xFF, 0xFF] 4 0 = .ok (-1, "-1") := by
  refine ⟨by decide, by decide, by decide, by decide!⟩

/-- C7 (amended): for a field of four bytes, followed by anything, neither
branch of the sign extension applies, and the integer of `GetReportValue` is
the 32-bit pattern of the four bytes read as `int32_t`: the two's-complement
signed big-endian value of the field, in [-2^31, 2^31 - 1], negative exactly
when the most-significant bit of the first byte is set. -/
theorem GetReportValue_four_bytes
    (field rest : List Nat) (precision : Nat)
    (hlen : field.length = 4) (hbytes : ∀ b ∈ field, b < 256) :
    reportInteger (field ++ rest) 4 = .ok (toInt32 (bigEndian field)) ∧
    toInt32 (bigEndian field) = signedBigEndian field ∧
    (-2147483648 ≤ signedBigEndian field ∧ signedBigEndian field ≤ 2147483647) ∧
    (signedBigEndian field < 0 ↔ field.headD 0 &&& 0x80 ≠ 0) ∧
    GetReportValue (field ++ rest) 4 precision
      = .ok (binary64 ((signedBigEndian field : ℚ) / binary64 (10 ^ precision)),
             formatFixed precision
              (binary64 ((signedBigEndian field : ℚ) / binary64 (10 ^ precision)))) := by
  match field, hlen with
  | [b0, b1, b2, b3], _ =>
    have h0 : b0 < 256 := hbytes b0 (by simp)
    have h1 : b1 < 256 := hbytes b1 (by simp)
    have h2 : b2 < 256 := hbytes b2 (by simp)
    have h3 : b3 < 256 := hbytes b3 (by simp)
    have hmsb := msb_of_byte b0 h0
    have hbe : bigEndian [b0, b1, b2, b3] = ((b0 * 256 + b1) * 256 + b2) * 256 + b3 := by
      simp [bigEndian]
    have hs : signedBigEndian [b0, b1, b2, b3]
        = if b0 < 128 then ((((b0 * 256 + b1) * 256 + b2) * 256 + b3 : Nat) : Int)
          else ((((b0 * 256 + b1) * 256 + b2) * 256 + b3 : Nat) : Int) - 4294967296 := by
      simp only [signedBigEndian, hbe, List.length_cons, List.length_nil]
      norm_num
      split <;> split <;> omega
    have ht : toInt32 (bigEndian [b0, b1, b2, b3]) = signedBigEndian [b0, b1, b2, b3] := by
      rw [hs, hbe]
      simp only [toInt32]
      norm_num
      split <;> split <;> omega
    have hi : reportInteger ([b0, b1, b2, b3] ++ rest) 4
        = .ok (signedBigEndian [b0, b1, b2, b3]) := by
      rw [hs]; exact reportInteger_four b0 b1 b2 b3 rest h0 h1 h2 h3
    refine ⟨by rw [ht]; exact hi, ht, ?_, ?_, GetReportValue_of_reportInteger precision hi⟩
    · rw [hs]; split <;> omega
    · rw [hs, List.headD_cons, hmsb]; split <;> omega

/-- C7 (amended), on the field 0x80 0x00 0x00 0x00: the integer is -2^31. -/
theorem GetReportValue_four_bytes_witness :
    [0x80, 0x00, 0x00, 0x00].length = 4 ∧ (∀ b ∈ [0x80, 0x00, 0x00, 0x00], b < 256) ∧
    toInt32 (bigEndian [0x80, 0x00, 0x00, 0x00]) = -2147483648 ∧
    reportInteger ([0x80, 0x00, 0x00, 0x00] ++ []) 4
      = .ok (toInt32 (bigEndian [0x80, 0x00, 0x00, 0x00])) :=
  ⟨by decide, by decide, by decide,
    (GetReportValue_four_bytes [0x80, 0x00, 0x00, 0x00] [] 0 (by decide) (by decide)).1⟩

/-! ## The plausibility filter -/

/-- C8 (as stated) fails, because `ValidateValue` compares rounded quantities.
A version-2 kWh report with value 0.01, previous value 0.00 and delta-time 1 is
accepted, although the `double` 0.01 (`5764607523034235 / 2 ^ 59`) exceeds
`1 * 0.01` as an exact number: the bound is the same `double`.  A version-2 kWh
report with value 0.4, previous value 0.3 and delta-time 10 is rejected,
although 4/10 - 3/10 does not exceed `10 * 0.01`: the rounded difference of the
two `double`s is `2 ^ -55` above the bound, which is the `double` 0.1. -/
theorem ValidateValue_exact_counterexample :
    GetReportValue [0x01] 1 2 = .ok (5764607523034235 / 2 ^ 59, "0.01") ∧
    GetReportValue [0x00] 1 2 = .ok (0, "0.00") ∧
    ValidateValue 0 (5764607523034235 / 2 ^ 59) 0 1 = true ∧
    |(5764607523034235 / 2 ^ 59 : ℚ) - 0| > ((1 : Nat) : ℚ) * (1 / 100) ∧
    HandleReport { version := 2, maxVersion := 5, nodePresent := true, getSupported := true }
        [((1, 0), .decimal "Electric - kWh" "kWh" "0.0" 0)]
        [0x02, 0x21, 0x41, 0x01, 0x00, 0x01, 0x00] 8 1
      = .ok (true, [((1, 0), .decimal "Electric - kWh" "kWh" "0.01" 2)]) ∧
    GetReportValue [0x04] 1 1 = .ok (3602879701896397 / 2 ^ 53, "0.4") ∧
    GetReportValue [0x03] 1 1 = .ok (5404319552844595 / 2 ^ 54, "0.3") ∧
    ValidateValue 0 (3602879701896397 / 2 ^ 53) (5404319552844595 / 2 ^ 54) 10 = false ∧
    ¬ (|((4 : Int) : ℚ) / 10 ^ 1 - ((3 : Int) : ℚ) / 10 ^ 1| > ((10 : Nat) : ℚ) * (1 / 100)) ∧
    binary64 ((3602879701896397 / 2 ^ 53 : ℚ) - 5404319552844595 / 2 ^ 54)
      = 1 / 10 + 1 / 5 * (1 / 2 ^ 55) + 1 / 2 ^ 55 ∧
    binary64 (((10 : Nat) : ℚ) * binary64 (1 / 100)) = 1 / 10 + 1 / 5 * (1 / 2 ^ 55) ∧
    HandleReport { version := 2, maxVersion := 5, nodePresent := true, getSupported := true }
        [((1, 0), .decimal "Electric - kWh" "kWh" "0.0" 0)]
        [0x02, 0x21, 0x21, 0x04, 0x00, 0x0A, 0x03] 8 1
      = .ok (false, [((1, 0), .decimal "Electric - kWh" "kWh" "0.0" 0)]) := by
  have h1 : |(5764607523034235 / 2 ^ 59 : ℚ) - 0| > ((1 : Nat) : ℚ) * (1 / 100) := by
    rw [sub_zero, abs_of_pos (by norm_num)]
    norm_num
  have h2 : ¬ (|((4 : Int) : ℚ) / 10 ^ 1 - ((3 : Int) : ℚ) / 10 ^ 1|
      > ((10 : Nat) : ℚ) * (1 / 100)) := by
    rw [show ((4 : Int) : ℚ) / 10 ^ 1 - ((3 : Int) : ℚ) / 10 ^ 1 = 1 / 10 by norm_num,
      abs_of_pos (by norm_num)]
    norm_num
  refine ⟨by decide!, by decide!, by decide!, h1, by decide!, by decide!, by decide!,
    by decide!, h2, by decide!, by decide!, by decide!⟩

/-- C8 (amended): `ValidateValue` returns false exactly when the index is
`Electric_kWh` (FlatIndex 0) and the value is below -1,000,000, or the previous
value is, or the absolute value of the rounded difference `value - valuePrev`
exceeds the rounded product of `deltaTime` and the `double` 0.01 (rounding to
the nearest `double`); for every other index it returns true.  So -2,000,000 is
rejected; -500,000 with delta-time 3600, where the bound is exactly 36, is
accepted when the change is at most 36 in absolute value; -500,000 with a
change of 1000 and delta-time 1 is rejected. -/
theorem ValidateValue_false_iff (meterIndex : Nat) (value valuePrev : ℚ) (deltaTime : Nat) :
    (ValidateValue meterIndex value valuePrev deltaTime = false ↔
      meterIndex = 0 ∧
        (value < -1000000 ∨ valuePrev < -1000000 ∨
          |binary64 (value - valuePrev)| > binary64 ((deltaTime : ℚ) * binary64 (1 / 100)))) ∧
    (meterIndex ≠ 0 → ValidateValue meterIndex value valuePrev deltaTime = true) ∧
    ValidateValue 0 (-2000000) valuePrev deltaTime = false ∧
    binary64 (((3600 : Nat) : ℚ) * binary64 (1 / 100)) = 36 ∧
    (|(-500000 : ℚ) - valuePrev| ≤ 36 → ValidateValue 0 (-500000) valuePrev 3600 = true) ∧
    (|(-500000 : ℚ) - valuePrev| = 1000 → ValidateValue 0 (-500000) valuePrev 1 = false) := by
  have key : ∀ (i : Nat) (v p : ℚ) (d : Nat),
      ValidateValue i v p d = false ↔
        i = 0 ∧ (v < -1000000 ∨ p < -1000000 ∨
          |binary64 (v - p)| > binary64 ((d : ℚ) * binary64 (1 / 100))) := by
    intro i v p d
    unfold ValidateValue ValueID_Index_Meter.Electric_kWh
    by_cases hi : i = 0
    · by_cases hv : v < -1000000
      · simp [hi, hv]
      · by_cases hp : p < -1000000
        · simp [hi, hv, hp]
        · by_cases hc : |binary64 (v - p)| > binary64 ((d : ℚ) * binary64 (1 / 100))
          · simp only [hi, hv, hp, hc, if_true, if_false, true_and, or_true]
          · simp only [hi, hv, hp, hc, if_true, if_false, true_and, or_self]
            simp
    · simp [hi]
  have h36 : binary64 (((3600 : Nat) : ℚ) * binary64 (1 / 100)) = 36 := by decide!
  have h1000 : binary64 (1000 : ℚ) = 1000 := by decide!
  have hm1000 : binary64 (-1000 : ℚ) = -1000 := by decide!
  have hone : binary64 (((1 : Nat) : ℚ) * binary64 (1 / 100)) < 1000 := by decide!
  refine ⟨key _ _ _ _, ?_, ?_, h36, ?_, ?_⟩
  · intro hne
    cases h : ValidateValue meterIndex value valuePrev deltaTime with
    | true => rfl
    | false => exact absurd ((key _ _ _ _).1 h).1 hne
  · exact (key _ _ _ _).2 ⟨rfl, Or.inl (by norm_num)⟩
  · intro hc
    cases h : ValidateValue 0 (-500000) valuePrev 3600 with
    | true => rfl
    | false =>
      exfalso
      rcases ((key _ _ _ _).1 h).2 with h1 | h1 | h1
      · norm_num at h1
      · have := abs_le.mp hc
        linarith [this.1, this.2]
      · rw [h36] at h1
        have hb := binary64_abs_le ((-500000 : ℚ) - valuePrev) 36 (by norm_num)
          (by push_cast; exact hc)
        push_cast at hb
        linarith
  · intro hc
    refine (key _ _ _ _).2 ⟨rfl, Or.inr (Or.inr ?_)⟩
    have hcases : (-500000 : ℚ) - valuePrev = 1000 ∨ (-500000 : ℚ) - valuePrev = -1000 := by
      rcases abs_eq (by norm_num : (0 : ℚ) ≤ 1000) |>.mp hc with h | h
      · exact Or.inl h
      · exact Or.inr h
    rcases hcases with h | h
    · rw [h, h1000]
      rw [abs_of_pos (by norm_num : (0 : ℚ) < 1000)]
      exact hone
    · rw [h, hm1000]
      rw [abs_of_neg (by norm_num : (-1000 : ℚ) < 0)]
      linarith

/-! ## Rejected reports -/

/-- C11: whenever `HandleReport` returns false, the store it returns is the
store it was given: nothing was created, refreshed or changed.  It returns
false when a decoding stage rejects (version, quantity type, rate type, element
size, length, registry lookup, plausibility filter) and when, in a version
other than 1, the value slot is missing. -/
theorem HandleReport_false_leaves_store
    (ctx : Ctx) (store : Store) (data : List Nat) (length inst : Nat) :
    (∀ store' : Store, HandleReport ctx store data length inst = .ok (false, store') →
      store' = store) ∧
    (DecodeReport ctx data length = .ok none →
      HandleReport ctx store data length inst = .ok (false, store)) ∧
    (∀ r : Reading, DecodeReport ctx data length = .ok (some r) → ctx.version ≠ 1 →
      GetValue store inst r.index = none →
      HandleReport ctx store data length inst = .ok (false, store)) := by
  refine ⟨?_, ?_, ?_⟩
  · intro store' h
    unfold HandleReport at h
    simp only [bind, Except.bind, pure, Except.pure] at h
    cases hd : DecodeReport ctx data length with
    | error e => simp [hd] at h
    | ok o =>
      cases o with
      | none =>
        simp only [hd, Except.ok.injEq, Prod.mk.injEq, true_and] at h
        exact h.symm
      | some r =>
        simp only [hd] at h
        cases hg : GetValue store inst r.index with
        | some sl =>
          simp only [hg] at h
          cases h2 : refreshDecimal store inst r.index r.valueStr r.precision with
          | error e => simp [h2] at h
          | ok s2 =>
            simp only [h2] at h
            cases h3 : refreshExporting ctx s2 inst r.rateType with
            | error e => simp [h3] at h
            | ok s3 => simp [h3] at h
        | none =>
          simp only [hg] at h
          by_cases hv : ctx.version = 1
          · simp only [hv, if_true] at h
            by_cases hn : ctx.nodePresent = true
            · simp only [hn, if_true] at h
              cases h2 : refreshDecimal
                  (CreateValueDecimal store inst r.index r.meter.Label r.meter.Unit)
                  inst r.index r.valueStr r.precision with
              | error e => simp [h2] at h
              | ok s2 =>
                simp only [h2] at h
                cases h3 : refreshExporting ctx s2 inst r.rateType with
                | error e => simp [h3] at h
                | ok s3 => simp [h3] at h
            · simp only [hn] at h
              cases h2 : refreshDecimal store inst r.index r.valueStr r.precision with
              | error e => simp [h2] at h
              | ok s2 =>
                simp only [h2] at h
                cases h3 : refreshExporting ctx s2 inst r.rateType with
                | error e => simp [h3] at h
                | ok s3 => simp [h3] at h
          · simp only [hv, if_false, Except.ok.injEq, Prod.mk.injEq, true_and] at h
            exact h.symm
  · intro hd
    simp [HandleReport, hd, bind, Except.bind, pure, Except.pure]
  · intro r hd hv hg
    simp [HandleReport, hd, hv, hg, bind, Except.bind, pure, Except.pure]

/-- C11, on a version-2 report whose element-size field is 3: rejected, and the
store with its one slot is returned as it was. -/
theorem HandleReport_false_leaves_store_witness :
    HandleReport { version := 2, maxVersion := 5, nodePresent := true, getSupported := true }
        [((1, 0), .decimal "Electric - kWh" "kWh" "12.5" 1)]
        [0x02, 0x21, 0x23, 0x05, 0x00, 0x00] 7 1
      = .ok (false, [((1, 0), .decimal "Electric - kWh" "kWh" "12.5" 1)]) :=
  (HandleReport_false_leaves_store
    { version := 2, maxVersion := 5, nodePresent := true, getSupported := true }
    [((1, 0), .decimal "Electric - kWh" "kWh" "12.5" 1)]
    [0x02, 0x21, 0x23, 0x05, 0x00, 0x00] 7 1).2.1 (by decide!)

/-! ## The registry -/

theorem MeterTypes_keys : List.map Prod.fst MeterTypes = List.range 80 := by decide

theorem MeterTypes_lookup_none {index : Nat} (h : 80 ≤ index) :
    List.lookup index MeterTypes = none := by
  rw [List.lookup_eq_none_iff]
  intro p hp
  have hk : p.1 ∈ List.map Prod.fst MeterTypes := List.mem_map_of_mem _ hp
  rw [MeterTypes_keys, List.mem_range] at hk
  simp only [bne_iff_ne, ne_eq]
  omega

set_option maxRecDepth 100000 in
theorem MeterTypes_lookup_some : ∀ index < 80, (List.lookup index MeterTypes).isSome = true := by
  decide

/-- C12: for every quantity type 1..5 and every scale 0..15,
`GetMeterTypeDescription` succeeds with index `(type - 1) * 16 + scale` and the
entry of the table at that index, placeholders included (Electric, scale 7 is
"Electric (Unknown)" with an empty unit); for every type and scale (as bytes)
whose index `(type - 1) * 16 + scale` is not in 0..79 it fails.  The keys of the
table are taken to be 0..79. -/
theorem GetMeterTypeDescription_registry (meterType scale : Nat)
    (ht : meterType < 256) (hs : scale < 256) :
    ((1 ≤ meterType ∧ meterType ≤ 5 ∧ scale ≤ 15) →
      ∃ meter : s_MeterTypes,
        GetMeterTypeDescription meterType scale = some ((meterType - 1) * 16 + scale, meter) ∧
        ((meterType - 1) * 16 + scale, meter) ∈ MeterTypes) ∧
    (¬ (0 ≤ ((meterType : Int) - 1) * 16 + scale ∧ ((meterType : Int) - 1) * 16 + scale ≤ 79) →
      GetMeterTypeDescription meterType scale = none) ∧
    GetMeterTypeDescription 1 7 = some (7, { Label := "Electric (Unknown)", Unit := "" }) := by
  refine ⟨?_, ?_, by decide⟩
  · rintro ⟨h1, h5, h15⟩
    have hidx : (((((meterType : Int) - 1) * 16) + scale) % 65536).toNat
        = (meterType - 1) * 16 + scale := by
      omega
    have hlt : (meterType - 1) * 16 + scale < 80 := by omega
    have hsome := MeterTypes_lookup_some _ hlt
    cases hl : List.lookup ((meterType - 1) * 16 + scale) MeterTypes with
    | none => simp [hl] at hsome
    | some meter =>
      refine ⟨meter, ?_, ?_⟩
      · simp [GetMeterTypeDescription, MeterTypes.count, hidx, hl]
      · obtain ⟨l1, l2, heq, -⟩ := List.lookup_eq_some_iff.mp hl
        rw [heq]
        simp
  · intro hn
    have hge : 80 ≤ (((((meterType : Int) - 1) * 16) + scale) % 65536).toNat := by
      omega
    have hl := MeterTypes_lookup_none hge
    simp [GetMeterTypeDescription, MeterTypes.count, hl]

/-- C12, at Cooling (5) and scale 15: index 79. -/
theorem GetMeterTypeDescription_registry_witness :
    (5 < 256) ∧ (15 < 256) ∧ (1 ≤ 5 ∧ 5 ≤ 5 ∧ 15 ≤ 15) ∧
    ∃ meter : s_MeterTypes,
      GetMeterTypeDescription 5 15 = some ((5 - 1) * 16 + 15, meter) ∧
      ((5 - 1) * 16 + 15, meter) ∈ MeterTypes :=
  ⟨by decide, by decide, by decide,
    (GetMeterTypeDescription_registry 5 15 (by decide) (by decide)).1 (by decide)⟩

/-! ## The capability report -/

/-- The slot the loop of `HandleSupportedReport` creates for quantity type `t` at
bit position `i`, when there is one. -/
theorem supportedSlot_eq : ∀ t < 6, ∀ i < 10,
    supportedSlot t i = .ok
      (if t = 0 then none
       else (List.lookup ((t - 1) * 16 + i) MeterTypes).map
        (fun m => NodeCall.createDecimal ((t - 1) * 16 + i) m.Label m.Unit)) := by
  decide

/-- The loop over the bit positions, once every pass is known not to fault. -/
theorem supportedSlots_foldlM (t scale : Nat) (g : Nat → Option NodeCall) :
    ∀ (l : List Nat) (acc : List NodeCall), (∀ i ∈ l, supportedSlot t i = .ok (g i)) →
      l.foldlM
        (fun calls i =>
          if scale &&& (1 <<< i) ≠ 0 then do
            match ← supportedSlot t i with
            | none => pure calls
            | some c => pure (calls ++ [c])
          else (pure calls : Except Fault (List NodeCall)))
        acc
      = .ok (acc ++ l.filterMap (fun i => if scale &&& (1 <<< i) ≠ 0 then g i else none)) := by
  intro l
  induction l with
  | nil => intro acc _; simp [pure, Except.pure]
  | cons i l ih =>
    intro acc h
    have hi := h i (List.mem_cons_self _ _)
    have hl : ∀ j ∈ l, supportedSlot t j = .ok (g j) :=
      fun j hj => h j (List.mem_cons_of_mem _ hj)
    rw [List.foldlM_cons]
    by_cases hb : scale &&& (1 <<< i) ≠ 0
    · cases hg : g i with
      | none =>
        simp only [hb, if_true, hi, hg, bind, Except.bind, pure, Except.pure, ne_eq,
          not_false_eq_true, List.filterMap_cons]
        simpa using ih acc hl
      | some c =>
        simp only [hb, if_true, hi, hg, bind, Except.bind, pure, Except.pure, ne_eq,
          not_false_eq_true, List.filterMap_cons]
        simpa using ih (acc ++ [c]) hl
    · simp only [hb, if_false, bind, Except.bind, pure, Except.pure, List.filterMap_cons]
      simpa using ih acc hl

/-- The `CreateValueDecimal` calls of `HandleSupportedReport` for a quantity
type that passed the range check. -/
theorem supportedSlots_eq (t scale : Nat) (ht : t < 6) :
    supportedSlots t scale = .ok ((List.range 10).filterMap (fun i =>
      if scale &&& (1 <<< i) ≠ 0 then
        (if t = 0 then none
         else (List.lookup ((t - 1) * 16 + i) MeterTypes).map
          (fun m => NodeCall.createDecimal ((t - 1) * 16 + i) m.Label m.Unit))
      else none)) := by
  have h := supportedSlots_foldlM t scale
    (fun i => if t = 0 then none
      else (List.lookup ((t - 1) * 16 + i) MeterTypes).map
        (fun m => NodeCall.createDecimal ((t - 1) * 16 + i) m.Label m.Unit))
    (List.range 10) []
    (fun i hi => supportedSlot_eq t ht i (List.mem_range.mp hi))
  simpa [supportedSlots, scalesize] using h

theorem readByte_error {data : List Nat} {i : Nat} {e : Fault}
    (h : readByte data i = .error e) : e = .outOfRange i := by
  unfold readByte at h
  split at h
  · simp at h
  · simp only [Except.error.injEq] at h
    exact h.symm

/-- One pass of the loop over the extension bytes returns when `_data[3+1]` is
in the payload, whatever the shift count. -/
theorem extensionStep_ok {data : List Nat} {ext : Nat} (wideShift : Nat → Nat → Nat)
    (hr : readByte data (3 + 1) = .ok ext) (scale i : Nat) :
    ∃ scale', extensionStep wideShift data scale i = .ok scale' := by
  unfold extensionStep
  simp only [hr, bind, Except.bind, pure, Except.pure]
  split <;> exact ⟨_, rfl⟩

theorem extensionStep_error {wideShift : Nat → Nat → Nat} {data : List Nat} {scale i : Nat}
    {e : Fault} (h : extensionStep wideShift data scale i = .error e) :
    ∃ k, e = .outOfRange k := by
  cases hr : readByte data (3 + 1) with
  | error e' =>
    simp only [extensionStep, hr, bind, Except.bind, Except.error.injEq] at h
    exact ⟨_, h ▸ readByte_error hr⟩
  | ok ext =>
    obtain ⟨s, hs⟩ := extensionStep_ok wideShift hr scale i
    rw [hs] at h
    simp at h

/-- The loop over the extension bytes faults only on a read outside the
payload. -/
theorem extensionLoop_error (wideShift : Nat → Nat → Nat) (data : List Nat) (e : Fault) :
    ∀ (l : List Nat) (scale : Nat),
      l.foldlM (extensionStep wideShift data) scale = .error e →
      ∃ k, e = .outOfRange k := by
  intro l
  induction l with
  | nil => intro scale h; simp [pure, Except.pure] at h
  | cons i l ih =>
    intro scale h
    rw [List.foldlM_cons] at h
    cases hs : extensionStep wideShift data scale i with
    | error e' =>
      simp only [hs, bind, Except.bind, Except.error.injEq] at h
      exact h ▸ extensionStep_error hs
    | ok scale' =>
      simp only [hs, bind, Except.bind] at h
      exact ih _ h

theorem SupportedScale_error {version : Nat} {data : List Nat} {wideShift : Nat → Nat → Nat}
    {e : Fault} (h : SupportedScale version data wideShift = .error e) :
    ∃ k, e = .outOfRange k := by
  unfold SupportedScale at h
  simp only [bind, Except.bind, pure, Except.pure] at h
  cases h2 : readByte data 2 with
  | error e2 =>
    have he2 := readByte_error h2
    by_cases hv2 : version = 2
    · simp [hv2, h2] at h
      exact ⟨2, by rw [← h, he2]⟩
    · by_cases hv3 : version = 3
      · simp [hv3, h2] at h
        exact ⟨2, by rw [← h, he2]⟩
      · by_cases hv4 : version ≥ 4
        · simp [hv2, hv3, hv4, h2] at h
          exact ⟨2, by rw [← h, he2]⟩
        · simp [hv2, hv3, hv4] at h
  | ok b2 =>
    by_cases hv2 : version = 2
    · simp [hv2, h2] at h
    · by_cases hv3 : version = 3
      · simp [hv3, h2] at h
      · by_cases hv4 : version ≥ 4
        · simp only [hv2, hv3, hv4, h2, if_true, if_false] at h
          by_cases hb : b2 &&& 0x80 ≠ 0
          · simp only [hb, if_true, ne_eq, not_false_eq_true] at h
            cases h3 : readByte data 3 with
            | error e3 =>
              simp only [h3, Except.error.injEq] at h
              exact ⟨3, by rw [← h, readByte_error h3]⟩
            | ok n =>
              simp only [h3] at h
              exact extensionLoop_error wideShift data e _ _ h
          · simp [hb] at h
        · simp [hv2, hv3, hv4] at h

/-- `SupportedReportCalls` in terms of its stages. -/
theorem SupportedReportCalls_eq (ctx : Ctx) (data : List Nat) (b1 : Nat)
    (h1 : data[1]? = some b1) :
    SupportedReportCalls ctx data =
      if b1 &&& 0x1f > 5 then .ok none
      else
        match SupportedScale ctx.version data ctx.wideShift with
        | .error e => .error e
        | .ok scale =>
          if ctx.nodePresent then
            match supportedSlots (b1 &&& 0x1f) scale with
            | .error e => .error e
            | .ok decimals =>
              .ok (some (decimals
                ++ [NodeCall.createBool ValueID_Index_Meter.Exporting "Exporting"]
                ++ (if b1 &&& 0x80 ≠ 0
                    then [NodeCall.createButton ValueID_Index_Meter.Reset "Reset"] else [])))
          else .ok none := by
  have hr := readByte_of_getElem? h1
  unfold SupportedReportCalls
  simp only [hr, bind, Except.bind, pure, Except.pure, MeterType_Cooling]
  by_cases ht : b1 &&& 0x1f > 5
  · simp [ht]
  · simp only [ht, if_false]
    cases hs : SupportedScale ctx.version data ctx.wideShift with
    | error e => rfl
    | ok scale =>
      simp only []
      by_cases hn : ctx.nodePresent = true
      · simp only [hn, if_true]
        cases hd : supportedSlots (b1 &&& 0x1f) scale with
        | error e => rfl
        | ok decimals => simp
      · simp [hn]

/-- The calls of an accepted capability report, with the loop resolved. -/
theorem SupportedReportCalls_ok {ctx : Ctx} {data : List Nat} {b1 : Nat}
    {calls : List NodeCall} (h1 : data[1]? = some b1)
    (h : SupportedReportCalls ctx data = .ok (some calls)) :
    b1 &&& 0x1f ≤ 5 ∧ ctx.nodePresent = true ∧
    ∃ scale, SupportedScale ctx.version data ctx.wideShift = .ok scale ∧
      calls = (List.range 10).filterMap (fun i =>
          if scale &&& (1 <<< i) ≠ 0 then
            (if b1 &&& 0x1f = 0 then none
             else (List.lookup (((b1 &&& 0x1f) - 1) * 16 + i) MeterTypes).map
              (fun m => NodeCall.createDecimal (((b1 &&& 0x1f) - 1) * 16 + i) m.Label m.Unit))
          else none)
        ++ [NodeCall.createBool ValueID_Index_Meter.Exporting "Exporting"]
        ++ (if b1 &&& 0x80 ≠ 0
            then [NodeCall.createButton ValueID_Index_Meter.Reset "Reset"] else []) := by
  rw [SupportedReportCalls_eq ctx data b1 h1] at h
  by_cases ht : b1 &&& 0x1f > 5
  · simp [ht] at h
  · simp only [ht, if_false] at h
    cases hs : SupportedScale ctx.version data ctx.wideShift with
    | error e => simp [hs] at h
    | ok scale =>
      simp only [hs] at h
      by_cases hn : ctx.nodePresent = true
      · simp only [hn, if_true, supportedSlots_eq _ scale (show b1 &&& 0x1f < 6 by omega),
          Except.ok.injEq, Option.some.injEq] at h
        exact ⟨by omega, hn, scale, rfl, h.symm⟩
      · simp [hn] at h

theorem HandleSupportedReport_of_calls {ctx : Ctx} {data : List Nat} {calls : List NodeCall}
    (store : Store) (length inst : Nat) (h : SupportedReportCalls ctx data = .ok (some calls)) :
    HandleSupportedReport ctx store data length inst
      = .ok (true, calls.foldl (applyCall inst) store) := by
  simp only [HandleSupportedReport, h, bind, Except.bind, pure, Except.pure]

/-- C13: in every version and for every capability payload, no call
`MeterTypes.at (type)` of `HandleSupportedReport` is made with an absent key;
every decimal slot it creates has an index that is a key of the registry and
the label and unit of that entry; and for quantity-type ordinal 0 every computed
index is skipped, so that no decimal slot is created.  The calls are what
`HandleSupportedReport` applies to the store. -/
theorem SupportedReportCalls_in_registry (ctx : Ctx) (data : List Nat) :
    (∀ key : Nat, SupportedReportCalls ctx data ≠ .error (.absentKey key)) ∧
    (∀ (calls : List NodeCall) (index : Nat) (label units : String),
      SupportedReportCalls ctx data = .ok (some calls) →
      NodeCall.createDecimal index label units ∈ calls →
        List.lookup index MeterTypes = some { Label := label, Unit := units }) ∧
    (∀ (calls : List NodeCall) (b1 : Nat), data[1]? = some b1 → b1 &&& 0x1f = 0 →
      SupportedReportCalls ctx data = .ok (some calls) →
        calls.filterMap NodeCall.decimalIndex = []) ∧
    (∀ (calls : List NodeCall) (store : Store) (length inst : Nat),
      SupportedReportCalls ctx data = .ok (some calls) →
        HandleSupportedReport ctx store data length inst
          = .ok (true, calls.foldl (applyCall inst) store)) := by
  have hlast : ∀ (calls : List NodeCall) (store : Store) (length inst : Nat),
      SupportedReportCalls ctx data = .ok (some calls) →
        HandleSupportedReport ctx store data length inst
          = .ok (true, calls.foldl (applyCall inst) store) :=
    fun calls store length inst h => HandleSupportedReport_of_calls store length inst h
  cases h1 : data[1]? with
  | none =>
    have hr : readByte data 1 = .error (.outOfRange 1) := by simp [readByte, h1]
    have he : SupportedReportCalls ctx data = .error (.outOfRange 1) := by
      simp [SupportedReportCalls, hr, bind, Except.bind]
    refine ⟨?_, ?_, ?_, hlast⟩
    · intro key; rw [he]; simp
    · intro calls index label units h; rw [he] at h; simp at h
    · intro calls b1 hb; simp at hb
  | some b1 =>
    refine ⟨?_, ?_, ?_, hlast⟩
    · intro key hk
      rw [SupportedReportCalls_eq ctx data b1 h1] at hk
      by_cases ht : b1 &&& 0x1f > 5
      · simp [ht] at hk
      · simp only [ht, if_false] at hk
        cases hs : SupportedScale ctx.version data ctx.wideShift with
        | error e =>
          simp only [hs, Except.error.injEq] at hk
          obtain ⟨k, he⟩ := SupportedScale_error hs
          rw [he] at hk
          simp at hk
        | ok scale =>
          simp only [hs] at hk
          by_cases hn : ctx.nodePresent = true
          · simp [hn, supportedSlots_eq _ scale (show b1 &&& 0x1f < 6 by omega)] at hk
          · simp [hn] at hk
    · intro calls index label units h hmem
      obtain ⟨-, -, scale, -, hc⟩ := SupportedReportCalls_ok h1 h
      rw [hc] at hmem
      simp only [List.mem_append, List.mem_filterMap, List.mem_range, List.mem_singleton] at hmem
      rcases hmem with (⟨i, -, hi⟩ | hb) | hr
      · split at hi
        · split at hi
          · simp at hi
          · cases hl : List.lookup (((b1 &&& 0x1f) - 1) * 16 + i) MeterTypes with
            | none => simp [hl] at hi
            | some m =>
              simp only [hl, Option.map_some', Option.some.injEq, NodeCall.createDecimal.injEq]
                at hi
              obtain ⟨rfl, rfl, rfl⟩ := hi
              exact hl
        · simp at hi
      · simp at hb
      · split at hr <;> simp at hr
    · intro calls b hb h0 h
      simp only [Option.some.injEq] at hb
      subst hb
      obtain ⟨-, -, scale, -, hc⟩ := SupportedReportCalls_ok h1 h
      rw [hc, h0]
      have hnil : (List.range 10).filterMap (fun i =>
          if scale &&& (1 <<< i) ≠ 0 then
            (if (0 : Nat) = 0 then none
             else (List.lookup ((0 - 1) * 16 + i) MeterTypes).map
              (fun m => NodeCall.createDecimal ((0 - 1) * 16 + i) m.Label m.Unit))
          else none) = [] := by
        rw [List.filterMap_eq_nil_iff]
        intro i _
        simp
      rw [hnil]
      split <;> simp [NodeCall.decimalIndex]

/-! ## The capability report in versions 2 and 3 -/

set_option maxRecDepth 1000000 in
theorem bitmap_bits_v2 : ∀ b < 256, ∀ i < 10,
    ((b &&& 0x0F) &&& (1 <<< i) ≠ 0 ↔ (i < 4 ∧ b / 2 ^ i % 2 = 1)) := by
  decide

set_option maxRecDepth 1000000 in
theorem bitmap_bits_v3 : ∀ b < 256, ∀ i < 10,
    ((b &&& 0xFF) &&& (1 <<< i) ≠ 0 ↔ (i < 8 ∧ b / 2 ^ i % 2 = 1)) := by
  decide

theorem filterMap_ite_eq_filter {α : Type} (P : Nat → Prop) [DecidablePred P] (Q : Nat → Bool)
    (g : Nat → Option α) :
    ∀ l : List Nat, (∀ i ∈ l, (P i ↔ Q i = true)) →
      l.filterMap (fun i => if P i then g i else none) = (l.filter Q).filterMap g := by
  intro l
  induction l with
  | nil => intro _; rfl
  | cons i l ih =>
    intro h
    have hi := h i (List.mem_cons_self _ _)
    have hl := ih (fun j hj => h j (List.mem_cons_of_mem _ hj))
    by_cases hq : Q i = true
    · have hp : P i := hi.2 hq
      simp only [List.filterMap_cons, hp, if_true, List.filter_cons, hq]
      cases g i <;> simp [hl]
    · have hp : ¬ P i := fun hp => hq (hi.1 hp)
      simp only [List.filterMap_cons, hp, if_false, List.filter_cons, hq]
      simpa using hl

theorem range_ten_filter_lt (n : Nat) (hn : n ≤ 10) (R : Nat → Prop) [DecidablePred R] :
    (List.range 10).filter (fun i => decide (i < n ∧ R i))
      = (List.range n).filter (fun i => decide (R i)) := by
  have hsplit : List.range 10 = List.range n ++ List.range' n (10 - n) := by
    have h := List.range'_append_1 0 n (10 - n)
    rw [Nat.zero_add] at h
    rw [List.range_eq_range', List.range_eq_range', h]
    congr 1
    omega
  rw [hsplit, List.filter_append]
  have h1 : (List.range n).filter (fun i => decide (i < n ∧ R i))
      = (List.range n).filter (fun i => decide (R i)) := by
    apply List.filter_congr
    intro i hi
    have := List.mem_range.mp hi
    simp [this]
  have h2 : (List.range' n (10 - n)).filter (fun i => decide (i < n ∧ R i)) = [] := by
    rw [List.filter_eq_nil_iff]
    intro i hi
    have := (List.mem_range'_1.mp hi).1
    simp
    omega
  rw [h1, h2, List.append_nil]

theorem SupportedScale_v2_v3 {version : Nat} {data : List Nat} {b2 : Nat}
    (wideShift : Nat → Nat → Nat) (hv : version = 2 ∨ version = 3) (h2 : data[2]? = some b2) :
    SupportedScale version data wideShift
      = .ok (if version = 2 then b2 &&& 0x0F else b2 &&& 0xFF) := by
  have hr := readByte_of_getElem? h2
  rcases hv with hv | hv <;> subst hv <;>
    simp [SupportedScale, hr, bind, Except.bind, pure, Except.pure]

/-- C14: in versions 2 and 3, with the node present, for every quantity-type
ordinal `t` in 1..5 and every byte 2, `HandleSupportedReport` creates decimal
slots at exactly the FlatIndexes `(t - 1) * 16 + i` for the bits `i` of byte 2
that are set, `i` in 0..3 in version 2 and 0..7 in version 3 (in increasing
order, each with the label and unit of the registry), then the boolean exporting
slot, then the reset trigger if and only if bit 7 of byte 1 is set. -/
theorem SupportedReportCalls_versions_2_3
    (ctx : Ctx) (data : List Nat) (b1 b2 : Nat)
    (hv : ctx.version = 2 ∨ ctx.version = 3) (hn : ctx.nodePresent = true)
    (h1 : data[1]? = some b1) (h2 : data[2]? = some b2)
    (hb1 : b1 < 256) (hb2 : b2 < 256) (ht : 1 ≤ b1 % 32 ∧ b1 % 32 ≤ 5) :
    ∃ decimals : List NodeCall,
      SupportedReportCalls ctx data = .ok (some (decimals
        ++ [NodeCall.createBool ValueID_Index_Meter.Exporting "Exporting"]
        ++ (if 128 ≤ b1 then [NodeCall.createButton ValueID_Index_Meter.Reset "Reset"]
            else []))) ∧
      decimals = ((List.range (if ctx.version = 2 then 4 else 8)).filter
          (fun i => decide (b2 / 2 ^ i % 2 = 1))).filterMap
          (fun i => (List.lookup ((b1 % 32 - 1) * 16 + i) MeterTypes).map
            (fun m => NodeCall.createDecimal ((b1 % 32 - 1) * 16 + i) m.Label m.Unit)) ∧
      decimals.filterMap NodeCall.decimalIndex
        = ((List.range (if ctx.version = 2 then 4 else 8)).filter
            (fun i => decide (b2 / 2 ^ i % 2 = 1))).map (fun i => (b1 % 32 - 1) * 16 + i) := by
  have hmask : b1 &&& 0x1f = b1 % 32 := Nat.and_pow_two_sub_one_eq_mod b1 5
  have hmsb : (b1 &&& 0x80 ≠ 0) ↔ 128 ≤ b1 := msb_of_byte b1 hb1
  have hscale := SupportedScale_v2_v3 ctx.wideShift hv h2
  have ht0 : ¬ (b1 % 32 = 0) := by omega
  have ht5 : ¬ (b1 % 32 > 5) := by omega
  have hcalls := SupportedReportCalls_eq ctx data b1 h1
  rw [hmask] at hcalls
  simp only [ht5, if_false, hscale, hn, if_true,
    supportedSlots_eq _ _ (show b1 % 32 < 6 by omega), ht0] at hcalls
  -- the bits of the bitmap are the bits of byte 2
  have hsel : (List.range 10).filterMap (fun i =>
        if (if ctx.version = 2 then b2 &&& 0x0F else b2 &&& 0xFF) &&& (1 <<< i) ≠ 0 then
          (List.lookup ((b1 % 32 - 1) * 16 + i) MeterTypes).map
            (fun m => NodeCall.createDecimal ((b1 % 32 - 1) * 16 + i) m.Label m.Unit)
        else none)
      = ((List.range (if ctx.version = 2 then 4 else 8)).filter
          (fun i => decide (b2 / 2 ^ i % 2 = 1))).filterMap
          (fun i => (List.lookup ((b1 % 32 - 1) * 16 + i) MeterTypes).map
            (fun m => NodeCall.createDecimal ((b1 % 32 - 1) * 16 + i) m.Label m.Unit)) := by
    rcases hv with hv | hv
    · simp only [hv, if_true]
      rw [filterMap_ite_eq_filter _ (fun i => decide (i < 4 ∧ b2 / 2 ^ i % 2 = 1)) _ _
        (fun i hi => by
          rw [bitmap_bits_v2 b2 hb2 i (List.mem_range.mp hi)]
          simp)]
      rw [range_ten_filter_lt 4 (by decide)]
    · have h32 : ¬ ((3 : Nat) = 2) := by decide
      simp only [hv, h32, if_false]
      rw [filterMap_ite_eq_filter _ (fun i => decide (i < 8 ∧ b2 / 2 ^ i % 2 = 1)) _ _
        (fun i hi => by
          rw [bitmap_bits_v3 b2 hb2 i (List.mem_range.mp hi)]
          simp)]
      rw [range_ten_filter_lt 8 (by decide)]
  rw [hsel] at hcalls
  refine ⟨_, ?_, rfl, ?_⟩
  · rw [hcalls]
    by_cases h128 : 128 ≤ b1
    · simp [h128, hmsb.2 h128]
    · have : ¬ (b1 &&& 0x80 ≠ 0) := fun h => h128 (hmsb.1 h)
      simp only [ne_eq, Decidable.not_not] at this
      simp [h128, this]
  · rw [List.filterMap_filterMap, ← List.filterMap_eq_map]
    apply List.filterMap_congr
    intro i hi
    have hi' : i < 8 := by
      have := (List.mem_filter.mp hi).1
      rw [List.mem_range] at this
      split at this <;> omega
    have hsome := MeterTypes_lookup_some ((b1 % 32 - 1) * 16 + i) (by omega)
    cases hl : List.lookup ((b1 % 32 - 1) * 16 + i) MeterTypes with
    | none => simp [hl] at hsome
    | some m => simp [hl, NodeCall.decimalIndex]

/-- C14, on the version-3 payload with byte 1 = 0x81 and byte 2 = 0x05: decimal
slots 0 and 2, the exporting slot and the reset trigger. -/
theorem SupportedReportCalls_versions_2_3_witness :
    SupportedReportCalls { version := 3, maxVersion := 5, nodePresent := true, getSupported := true }
        [0x04, 0x81, 0x05]
      = .ok (some [.createDecimal 0 "Electric - kWh" "kWh", .createDecimal 2 "Electric - W" "W",
          .createBool ValueID_Index_Meter.Exporting "Exporting",
          .createButton ValueID_Index_Meter.Reset "Reset"]) ∧
    HandleSupportedReport
        { version := 3, maxVersion := 5, nodePresent := true, getSupported := true }
        [] [0x04, 0x81, 0x05] 3 1
      = .ok (true, [((1, 0), .decimal "Electric - kWh" "kWh" "0.0" 0),
          ((1, 2), .decimal "Electric - W" "W" "0.0" 0),
          ((1, ValueID_Index_Meter.Exporting), .bool "Exporting" false),
          ((1, ValueID_Index_Meter.Reset), .button "Reset")]) := by
  obtain ⟨decimals, hcalls, hdec, -⟩ := SupportedReportCalls_versions_2_3
    { version := 3, maxVersion := 5, nodePresent := true, getSupported := true }
    [0x04, 0x81, 0x05] 0x81 0x05 (Or.inr rfl) rfl (by decide) (by decide) (by decide)
    (by decide) (by decide)
  have hd : decimals
      = [.createDecimal 0 "Electric - kWh" "kWh", .createDecimal 2 "Electric - W" "W"] := by
    rw [hdec]; decide
  subst hd
  refine ⟨hcalls, ?_⟩
  simp only [HandleSupportedReport, hcalls, bind, Except.bind, pure, Except.pure]
  decide

/-! ## Acceptance of a capability report -/

theorem extensionLoop_ok (wideShift : Nat → Nat → Nat) (data : List Nat) (ext : Nat)
    (hr : readByte data (3 + 1) = .ok ext) :
    ∀ (l : List Nat) (scale : Nat),
      ∃ scale', l.foldlM (extensionStep wideShift data) scale = .ok scale' := by
  intro l
  induction l with
  | nil => intro scale; exact ⟨scale, by simp [pure, Except.pure]⟩
  | cons i l ih =>
    intro scale
    obtain ⟨s1, hs1⟩ := extensionStep_ok wideShift hr scale i
    obtain ⟨s', hs'⟩ := ih s1
    refine ⟨s', ?_⟩
    rw [List.foldlM_cons]
    simp only [hs1, bind, Except.bind]
    exact hs'

/-- The scale bitmap decodes when the bytes it is read from are in the payload:
byte 2 from version 2 on; from version 4 on, when bit 7 of byte 2 is set, byte 3
and, unless the extension count is 0, byte 4.  The extension count is not
bounded. -/
theorem SupportedScale_ok (version : Nat) (data : List Nat) (wideShift : Nat → Nat → Nat)
    (hread : 2 ≤ version → ∃ b2, data[2]? = some b2 ∧
      (4 ≤ version → b2 &&& 0x80 ≠ 0 →
        ∃ n, data[3]? = some n ∧ (n % 256 ≠ 0 → ∃ ext, data[4]? = some ext))) :
    ∃ scale, SupportedScale version data wideShift = .ok scale := by
  by_cases hv2 : 2 ≤ version
  · obtain ⟨b2, h2, hext⟩ := hread hv2
    have hr2 := readByte_of_getElem? h2
    by_cases hv4 : 4 ≤ version
    · have hn2 : ¬ version = 2 := by omega
      have hn3 : ¬ version = 3 := by omega
      by_cases hb : b2 &&& 0x80 ≠ 0
      · obtain ⟨n, h3, h4⟩ := hext hv4 hb
        have hr3 := readByte_of_getElem? h3
        have hloop : ∃ s', (List.range' 1 (n % 256)).foldlM (extensionStep wideShift data)
            (b2 &&& 0x7F) = .ok s' := by
          by_cases hz : n % 256 = 0
          · rw [hz]
            exact ⟨b2 &&& 0x7F, by simp [pure, Except.pure]⟩
          · obtain ⟨ext, h4⟩ := h4 hz
            have hr4 : readByte data (3 + 1) = .ok ext := readByte_of_getElem? h4
            exact extensionLoop_ok wideShift data ext hr4 _ _
        obtain ⟨s', hs'⟩ := hloop
        refine ⟨s', ?_⟩
        simp only [SupportedScale, hn2, hn3, hr2, hr3, hb, ge_iff_le, hv4, if_true, if_false,
          bind, Except.bind, pure, Except.pure, ne_eq, not_false_eq_true]
        exact hs'
      · exact ⟨b2 &&& 0x7F, by
          simp only [SupportedScale, hn2, hn3, hr2, hb, ge_iff_le, hv4, if_true, if_false,
            bind, Except.bind, pure, Except.pure]⟩
    · have hv : version = 2 ∨ version = 3 := by omega
      exact ⟨_, SupportedScale_v2_v3 wideShift hv h2⟩
  · have hn2 : ¬ version = 2 := by omega
    have hn3 : ¬ version = 3 := by omega
    have hn4 : ¬ version ≥ 4 := by omega
    exact ⟨0, by simp [SupportedScale, hn2, hn3, hn4, bind, Except.bind, pure, Except.pure]⟩

/-- C15: with the node present and byte 1 in the payload, in every version and
for every payload, `HandleSupportedReport` returns false, with the store as it
was, when the quantity-type ordinal `byte1 & 0x1F` is greater than 5.  For every
ordinal 0..5 it is never false: the call returns true, unless it reads outside
the payload; and it does return true as soon as the bytes it reads for the scale
bitmap are in the payload (byte 2 from version 2 on; from version 4 on, when bit
7 of byte 2 is set, byte 3 and, unless the extension count is 0, byte 4),
whatever the extension count and whatever a shift by 32 bits or more yields.
Whenever it returns, it returns false exactly when the ordinal is greater than
5. -/
theorem HandleSupportedReport_rejects_iff
    (ctx : Ctx) (store : Store) (data : List Nat) (length inst b1 : Nat)
    (hn : ctx.nodePresent = true) (h1 : data[1]? = some b1) :
    (5 < b1 &&& 0x1F →
      HandleSupportedReport ctx store data length inst = .ok (false, store)) ∧
    (b1 &&& 0x1F ≤ 5 →
      (∃ store' : Store, HandleSupportedReport ctx store data length inst = .ok (true, store')) ∨
      (∃ k : Nat, HandleSupportedReport ctx store data length inst = .error (.outOfRange k))) ∧
    (b1 &&& 0x1F ≤ 5 →
      (2 ≤ ctx.version → ∃ b2, data[2]? = some b2 ∧
        (4 ≤ ctx.version → b2 &&& 0x80 ≠ 0 →
          ∃ n, data[3]? = some n ∧ (n % 256 ≠ 0 → ∃ ext, data[4]? = some ext))) →
      ∃ store' : Store, HandleSupportedReport ctx store data length inst = .ok (true, store')) ∧
    (∀ (ok : Bool) (store' : Store),
      HandleSupportedReport ctx store data length inst = .ok (ok, store') →
        (ok = false ↔ 5 < b1 &&& 0x1F)) := by
  have hcalls := SupportedReportCalls_eq ctx data b1 h1
  have hfalse : 5 < b1 &&& 0x1F →
      HandleSupportedReport ctx store data length inst = .ok (false, store) := by
    intro ht
    have ht' : b1 &&& 0x1f > 5 := ht
    simp only [ht', if_true] at hcalls
    simp [HandleSupportedReport, hcalls, bind, Except.bind, pure, Except.pure]
  have hcases : b1 &&& 0x1F ≤ 5 →
      (∃ store' : Store, HandleSupportedReport ctx store data length inst = .ok (true, store')) ∨
      (∃ k : Nat, HandleSupportedReport ctx store data length inst = .error (.outOfRange k)) := by
    intro ht
    have ht' : ¬ (b1 &&& 0x1f > 5) := by omega
    simp only [ht', if_false] at hcalls
    cases hs : SupportedScale ctx.version data ctx.wideShift with
    | error e =>
      obtain ⟨k, hk⟩ := SupportedScale_error hs
      subst hk
      simp only [hs] at hcalls
      exact Or.inr ⟨k, by simp [HandleSupportedReport, hcalls, bind, Except.bind]⟩
    | ok scale =>
      simp only [hs, hn, if_true,
        supportedSlots_eq _ scale (show b1 &&& 0x1f < 6 by omega)] at hcalls
      exact Or.inl ⟨_, HandleSupportedReport_of_calls store length inst hcalls⟩
  refine ⟨hfalse, hcases, ?_, ?_⟩
  · intro ht hread
    have ht' : ¬ (b1 &&& 0x1f > 5) := by omega
    obtain ⟨scale, hs⟩ := SupportedScale_ok ctx.version data ctx.wideShift hread
    simp only [ht', if_false, hs, hn, if_true,
      supportedSlots_eq _ scale (show b1 &&& 0x1f < 6 by omega)] at hcalls
    exact ⟨_, HandleSupportedReport_of_calls store length inst hcalls⟩
  · intro ok store' h
    by_cases ht : 5 < b1 &&& 0x1F
    · rw [hfalse ht] at h
      simp only [Except.ok.injEq, Prod.mk.injEq] at h
      simp [← h.1, ht]
    · rcases hcases (by omega) with ⟨s', hs'⟩ | ⟨k, hk⟩
      · rw [hs'] at h
        simp only [Except.ok.injEq, Prod.mk.injEq] at h
        simp [← h.1, ht]
      · rw [hk] at h
        simp at h

/-- C15, on version-4 payloads: ordinal 5 is accepted with an extension count of
1, of 0 (the payload ending at byte 3) and of 200; ordinal 6 is rejected. -/
theorem HandleSupportedReport_rejects_iff_witness :
    (∃ store' : Store,
      HandleSupportedReport
        { version := 4, maxVersion := 5, nodePresent := true, getSupported := true }
        [] [0x04, 0x05, 0x81, 0x01, 0x03] 5 1 = .ok (true, store')) ∧
    (∃ store' : Store,
      HandleSupportedReport
        { version := 4, maxVersion := 5, nodePresent := true, getSupported := true }
        [] [0x04, 0x05, 0x81, 0x00] 4 1 = .ok (true, store')) ∧
    (∃ store' : Store,
      HandleSupportedReport
        { version := 4, maxVersion := 5, nodePresent := true, getSupported := true }
        [] [0x04, 0x05, 0x81, 0xC8, 0x03] 5 1 = .ok (true, store')) ∧
    HandleSupportedReport
        { version := 4, maxVersion := 5, nodePresent := true, getSupported := true }
        [] [0x04, 0x06, 0x81, 0x01, 0x03] 5 1 = .ok (false, []) :=
  ⟨(HandleSupportedReport_rejects_iff
      { version := 4, maxVersion := 5, nodePresent := true, getSupported := true }
      [] [0x04, 0x05, 0x81, 0x01, 0x03] 5 1 0x05 rfl (by decide)).2.2.1 (by decide)
      (fun _ => ⟨0x81, by decide, fun _ _ => ⟨0x01, by decide, fun _ => ⟨0x03, by decide⟩⟩⟩),
   (HandleSupportedReport_rejects_iff
      { version := 4, maxVersion := 5, nodePresent := true, getSupported := true }
      [] [0x04, 0x05, 0x81, 0x00] 4 1 0x05 rfl (by decide)).2.2.1 (by decide)
      (fun _ => ⟨0x81, by decide, fun _ _ => ⟨0x00, by decide, fun h => absurd h (by decide)⟩⟩),
   (HandleSupportedReport_rejects_iff
      { version := 4, maxVersion := 5, nodePresent := true, getSupported := true }
      [] [0x04, 0x05, 0x81, 0xC8, 0x03] 5 1 0x05 rfl (by decide)).2.2.1 (by decide)
      (fun _ => ⟨0x81, by decide, fun _ _ => ⟨0xC8, by decide, fun _ => ⟨0x03, by decide⟩⟩⟩),
   (HandleSupportedReport_rejects_iff
      { version := 4, maxVersion := 5, nodePresent := true, getSupported := true }
      [] [0x04, 0x06, 0x81, 0x01, 0x03] 5 1 0x06 rfl (by decide)).1 (by decide)⟩

/-! ## Get-report requests -/

theorem scale_encoding_bits : ∀ k < 16,
    ((k &&& 0x03) <<< 3) % 2 ^ 8 = k % 4 * 8 ∧ ((k &&& 0x07) <<< 3) % 2 ^ 8 = k % 8 * 8 := by
  decide

/-- The bytes of one get-report message, version by version. -/
theorem getReportMsg_eq (version : Nat) (env : MsgEnv) (i : Nat) (hv : 1 ≤ version) :
    getReportMsg version env i =
      env.nodeId ::
        (if version = 1 then [2, env.commandClassId, MeterCmd_Get]
         else if version = 2 then [3, env.commandClassId, MeterCmd_Get, i % 16 % 4 * 8]
         else if version = 3 then [3, env.commandClassId, MeterCmd_Get, i % 16 % 8 * 8]
         else if i % 16 ≤ 7 then [3, env.commandClassId, MeterCmd_Get, i % 16 * 8]
         else [4, env.commandClassId, MeterCmd_Get, 0x38, i % 16 - 8])
        ++ [env.transmitOptions] := by
  have hk : i % 16 < 16 := Nat.mod_lt _ (by decide)
  obtain ⟨h4, h8⟩ := scale_encoding_bits (i % 16) hk
  have hmod : i % 16 % 2 ^ 8 = i % 16 := Nat.mod_eq_of_lt (by omega)
  unfold getReportMsg
  simp only [hmod, h4, h8, ValueID_Index_Meter.Electric_Unknown_1]
  by_cases h1 : version = 1
  · subst h1; simp
  · by_cases h2 : version = 2
    · subst h2; simp
    · by_cases h3 : version = 3
      · subst h3; simp
      · have hle : ¬ version ≤ 3 := by omega
        have hge : version ≥ 4 := by omega
        by_cases h7 : i % 16 ≤ 7
        · have h7' : ¬ (i % 16 > 7) := by omega
          have h88 : i % 16 % 8 = i % 16 := Nat.mod_eq_of_lt (by omega)
          simp [h1, h2, h3, hle, hge, h7, h7', h88]
        · have h7' : i % 16 > 7 := by omega
          have h256 : (i % 16 - 8) % 2 ^ 8 = i % 16 - 8 := Nat.mod_eq_of_lt (by omega)
          simp only [h1, h2, h3, hle, hge, h7, h7', h256, if_true, if_false]
          simp

/-- The loop of `RequestValue` over a list of indexes. -/
theorem RequestValue_foldl (version : Nat) (env : MsgEnv) (store : Store) (inst : Nat) :
    ∀ (l : List Nat) (acc : Bool × List (List Nat)),
      l.foldl (requestValueStep version env store inst) acc
      = (acc.1 || l.any (fun i => (GetValue store inst i).isSome),
         acc.2 ++ (l.filter (fun i => (GetValue store inst i).isSome)).map
          (getReportMsg version env)) := by
  intro l
  induction l with
  | nil => intro acc; simp
  | cons i l ih =>
    intro acc
    rw [List.foldl_cons, ih]
    cases hg : GetValue store inst i with
    | none => simp [requestValueStep, hg]
    | some sl => simp [requestValueStep, hg]

/-- C16: with proactive get supported and a version from 1 on, `RequestValue`
emits one get-report message for each FlatIndex 0..79 that has a value slot, in
increasing order, and none for an index without a slot.  After the node id the
message holds: in version 1, `[2, CC id, Get]`; in version 2, `[3, CC id, Get,
((i mod 16) mod 4) * 8]`; in version 3, `[3, CC id, Get, ((i mod 16) mod 8) *
8]`; from version 4 on, `[3, CC id, Get, scale * 8]` when `scale = i mod 16` is
at most 7 and `[4, CC id, Get, 0x38, scale - 8]` otherwise; then the transmit
options.  The length byte is the number of command bytes after it. -/
theorem RequestValue_get_messages
    (ctx : Ctx) (env : MsgEnv) (store : Store) (inst : Nat)
    (hs : ctx.getSupported = true) (hv : 1 ≤ ctx.version) :
    RequestValue ctx env store inst =
      ((List.range 80).any (fun i => (GetValue store inst i).isSome),
       ((List.range 80).filter (fun i => (GetValue store inst i).isSome)).map (fun i =>
          env.nodeId ::
            (if ctx.version = 1 then [2, env.commandClassId, MeterCmd_Get]
             else if ctx.version = 2 then [3, env.commandClassId, MeterCmd_Get, i % 16 % 4 * 8]
             else if ctx.version = 3 then [3, env.commandClassId, MeterCmd_Get, i % 16 % 8 * 8]
             else if i % 16 ≤ 7 then [3, env.commandClassId, MeterCmd_Get, i % 16 * 8]
             else [4, env.commandClassId, MeterCmd_Get, 0x38, i % 16 - 8])
            ++ [env.transmitOptions])) ∧
    (∀ i : Nat, ∃ (len : Nat) (command : List Nat),
      (if ctx.version = 1 then [2, env.commandClassId, MeterCmd_Get]
       else if ctx.version = 2 then [3, env.commandClassId, MeterCmd_Get, i % 16 % 4 * 8]
       else if ctx.version = 3 then [3, env.commandClassId, MeterCmd_Get, i % 16 % 8 * 8]
       else if i % 16 ≤ 7 then [3, env.commandClassId, MeterCmd_Get, i % 16 * 8]
       else [4, env.commandClassId, MeterCmd_Get, 0x38, i % 16 - 8]) = len :: command ∧
      command.length = len) := by
  constructor
  · have hsz : MeterTypes.size = 80 := by decide
    unfold RequestValue
    rw [hsz, RequestValue_foldl]
    simp only [hs, Bool.true_eq_false, if_false, Bool.false_or, List.nil_append, Prod.mk.injEq,
      true_and]
    apply List.map_congr_left
    intro i _
    exact getReportMsg_eq ctx.version env i hv
  · intro i
    by_cases h1 : ctx.version = 1
    · exact ⟨2, [env.commandClassId, MeterCmd_Get], by simp [h1], rfl⟩
    · by_cases h2 : ctx.version = 2
      · exact ⟨3, [env.commandClassId, MeterCmd_Get, i % 16 % 4 * 8], by simp [h2], rfl⟩
      · by_cases h3 : ctx.version = 3
        · exact ⟨3, [env.commandClassId, MeterCmd_Get, i % 16 % 8 * 8], by simp [h3], rfl⟩
        · by_cases h7 : i % 16 ≤ 7
          · exact ⟨3, [env.commandClassId, MeterCmd_Get, i % 16 * 8],
              by simp [h1, h2, h3, h7], rfl⟩
          · exact ⟨4, [env.commandClassId, MeterCmd_Get, 0x38, i % 16 - 8],
              by simp [h1, h2, h3, h7], rfl⟩

/-- C16, in version 4 with slots at indexes 2 and 11: two messages, the second
with the scale-2 marker. -/
theorem RequestValue_get_messages_witness :
    RequestValue { version := 4, maxVersion := 5, nodePresent := true, getSupported := true }
        { nodeId := 9, commandClassId := 0x32, transmitOptions := 0x25 }
        [((1, 11), .decimal "Electric (Unknown)" "" "0.0" 0),
         ((1, 2), .decimal "Electric - W" "W" "0.0" 0)] 1
      = (true, [[9, 3, 0x32, 0x01, 0x10, 0x25], [9, 4, 0x32, 0x01, 0x38, 3, 0x25]]) := by
  rw [(RequestValue_get_messages
    { version := 4, maxVersion := 5, nodePresent := true, getSupported := true }
    { nodeId := 9, commandClassId := 0x32, transmitOptions := 0x25 }
    [((1, 11), .decimal "Electric (Unknown)" "" "0.0" 0),
     ((1, 2), .decimal "Electric - W" "W" "0.0" 0)] 1 rfl (by decide)).1]
  decide

/-! ## Rate type, element size, delta-time -/

set_option maxRecDepth 100000 in
theorem rate_bits_of_byte : ∀ b < 256, (b &&& 0x60) >>> 5 = b / 32 % 4 := by decide

theorem rate_bits (b : Nat) : ((b &&& c_rateTypeMask) >>> c_rateTypeShift) % 2 ^ 8 = b / 32 % 4 := by
  have h := rate_bits_of_byte (b % 256) (Nat.mod_lt _ (by decide))
  rw [c_rateTypeMask, c_rateTypeShift, land_byte b 0x60 (by decide), h]
  omega

/-- C17: in version 1 `GetRateType` succeeds with rate type 0 whatever the
payload is (byte 1 is not read); in versions 2 and 3 it decodes bits 5-6 of byte
1 and succeeds if and only if the decoded value is below 4; from version 4 on
it decodes the same bits and always succeeds. -/
theorem GetRateType_by_version (version : Nat) (data : List Nat) (b1 : Nat)
    (h1 : data[1]? = some b1) :
    (∀ payload : List Nat, GetRateType 1 payload = .ok (true, 0)) ∧
    ((version = 2 ∨ version = 3) →
      ∃ ok : Bool, GetRateType version data = .ok (ok, b1 / 32 % 4) ∧
        (ok = true ↔ b1 / 32 % 4 < 4)) ∧
    (4 ≤ version → GetRateType version data = .ok (true, b1 / 32 % 4)) := by
  have hr := readByte_of_getElem? h1
  have hb := rate_bits b1
  have hlt : b1 / 32 % 4 < 4 := Nat.mod_lt _ (by decide)
  refine ⟨fun payload => by simp [GetRateType], ?_, ?_⟩
  · intro hv
    have hv1 : ¬ version = 1 := by omega
    refine ⟨true, ?_, by simp [hlt]⟩
    simp only [GetRateType, hv1, hv, if_true, if_false, hr, bind, Except.bind, pure, Except.pure,
      hb, hlt]
  · intro hv
    have hv1 : ¬ version = 1 := by omega
    have hv23 : ¬ (version = 2 ∨ version = 3) := by omega
    simp only [GetRateType, hv1, hv23, if_false, hr, bind, Except.bind, pure, Except.pure, hb]

/-- C17, at version 2 and byte 1 = 0x61: rate type 3, accepted. -/
theorem GetRateType_by_version_witness :
    [0x02, 0x61, 0x21][1]? = some 0x61 ∧
    ∃ ok : Bool, GetRateType 2 [0x02, 0x61, 0x21] = .ok (ok, 0x61 / 32 % 4) ∧
      (ok = true ↔ 0x61 / 32 % 4 < 4) :=
  ⟨by decide,
    (GetRateType_by_version 2 [0x02, 0x61, 0x21] 0x61 (by decide)).2.1 (Or.inl rfl)⟩

theorem HandleReport_of_decode_none {ctx : Ctx} {data : List Nat} {length : Nat}
    (store : Store) (inst : Nat) (h : DecodeReport ctx data length = .ok none) :
    HandleReport ctx store data length inst = .ok (false, store) := by
  simp [HandleReport, h, bind, Except.bind, pure, Except.pure]

/-- C18: for every byte 2, `GetValueElementSize` returns `byte2 & 0x07` and
succeeds if and only if that value is 1, 2 or 4; with the values 0, 3, 5, 6 and
7 `HandleReport` rejects the report and leaves the store as it was. -/
theorem GetValueElementSize_valid_iff (data : List Nat) (b2 : Nat)
    (h2 : data[2]? = some b2) :
    (∃ ok : Bool, GetValueElementSize data = .ok (ok, b2 % 8) ∧
      (ok = true ↔ (b2 % 8 = 1 ∨ b2 % 8 = 2 ∨ b2 % 8 = 4))) ∧
    b2 &&& 0x07 = b2 % 8 ∧
    ((b2 % 8 = 0 ∨ b2 % 8 = 3 ∨ b2 % 8 = 5 ∨ b2 % 8 = 6 ∨ b2 % 8 = 7) →
      ∀ (ctx : Ctx) (store : Store) (length inst : Nat),
        HandleReport ctx store data length inst = .ok (false, store)) := by
  have hr := readByte_of_getElem? h2
  have hmask : b2 &&& c_sizeMask = b2 % 8 := Nat.and_pow_two_sub_one_eq_mod b2 3
  have hsize : GetValueElementSize data
      = .ok (decide (b2 % 8 = 1 ∨ b2 % 8 = 2 ∨ b2 % 8 = 4), b2 % 8) := by
    simp only [GetValueElementSize, hr, bind, Except.bind, pure, Except.pure, hmask]
    by_cases h : b2 % 8 = 1 ∨ b2 % 8 = 2 ∨ b2 % 8 = 4
    · simp [h]
    · simp [h]
  refine ⟨⟨_, hsize, by simp⟩, Nat.and_pow_two_sub_one_eq_mod b2 3, ?_⟩
  intro hbad ctx store length inst
  apply HandleReport_of_decode_none
  have hnot : ¬ (b2 % 8 = 1 ∨ b2 % 8 = 2 ∨ b2 % 8 = 4) := by omega
  have hsize' : GetValueElementSize data = .ok (false, b2 % 8) := by
    rw [hsize]; simp [hnot]
  -- byte 1 is in the payload because byte 2 is
  have hlen : 2 < data.length := by
    rcases Nat.lt_or_ge 2 data.length with h | h
    · exact h
    · rw [List.getElem?_eq_none h] at h2
      simp at h2
  obtain ⟨b1, hb1⟩ : ∃ b1, data[1]? = some b1 :=
    ⟨data[1], List.getElem?_eq_getElem (by omega)⟩
  have hr1 := readByte_of_getElem? hb1
  unfold DecodeReport
  simp only [bind, Except.bind, pure, Except.pure]
  by_cases hver : ctx.version < 1 ∨ ctx.version > ctx.maxVersion
  · rw [if_pos hver]
  · rw [if_neg hver]
    cases hmt : GetMeterType ctx.version data with
    | error e =>
      simp [GetMeterType, hr1, bind, Except.bind, pure, Except.pure] at hmt
      split at hmt <;> (try split at hmt) <;> (try split at hmt) <;> simp at hmt
    | ok v1 =>
      obtain ⟨ok1, mt⟩ := v1
      cases ok1 with
      | false => simp
      | true =>
        cases hrt : GetRateType ctx.version data with
        | error e =>
          simp [GetRateType, hr1, bind, Except.bind, pure, Except.pure] at hrt
          split at hrt <;> (try split at hrt) <;> (try split at hrt) <;> simp at hrt
        | ok v2 =>
          obtain ⟨ok2, rt⟩ := v2
          cases ok2 with
          | false => simp
          | true => simp [hsize']

/-- C18, at byte 2 = 0x23 (element size 3): a decode failure. -/
theorem GetValueElementSize_valid_iff_witness :
    [0x02, 0x21, 0x23, 0x05][2]? = some 0x23 ∧
    HandleReport { version := 1, maxVersion := 5, nodePresent := true, getSupported := true }
        [] [0x02, 0x21, 0x23, 0x05] 5 1 = .ok (false, []) :=
  ⟨by decide,
    (GetValueElementSize_valid_iff [0x02, 0x21, 0x23, 0x05] 0x23 (by decide)).2.2
      (by decide) _ _ _ _⟩

/-- C19: in version 1 `GetDeltaTime` returns 0 whatever the payload is (no byte
is read); in every version from 2 on it returns `256 * hi + lo`, where `hi` and
`lo` are the bytes at indexes `3 + elementSize` and `4 + elementSize`, the two
bytes after the primary value field; the result is in 0..65535. -/
theorem GetDeltaTime_by_version (version : Nat) (data : List Nat) (elementSize hi lo : Nat)
    (hhi : data[3 + elementSize]? = some hi) (hlo : data[4 + elementSize]? = some lo)
    (hbhi : hi < 256) (hblo : lo < 256) :
    (∀ (payload : List Nat) (size : Nat), GetDeltaTime 1 payload size = .ok 0) ∧
    (2 ≤ version → GetDeltaTime version data elementSize = .ok (256 * hi + lo)) ∧
    256 * hi + lo ≤ 65535 := by
  have hrhi := readByte_of_getElem? hhi
  have hrlo := readByte_of_getElem? hlo
  refine ⟨fun payload size => by simp [GetDeltaTime], ?_, by omega⟩
  intro hv
  have hv1 : ¬ version = 1 := by omega
  have hval : ((hi <<< 8) % 2 ^ 16 + lo) % 2 ^ 16 = 256 * hi + lo := by
    rw [Nat.shiftLeft_eq]; omega
  simp only [GetDeltaTime, hv1, if_false, hrhi, hrlo, bind, Except.bind, pure, Except.pure, hval]

/-- C19, at version 2 with element size 1 and delta-time bytes 0x0E 0x10:
3600. -/
theorem GetDeltaTime_by_version_witness :
    [0x02, 0x21, 0x21, 0x05, 0x0E, 0x10][3 + 1]? = some 0x0E ∧
    [0x02, 0x21, 0x21, 0x05, 0x0E, 0x10][4 + 1]? = some 0x10 ∧
    GetDeltaTime 2 [0x02, 0x21, 0x21, 0x05, 0x0E, 0x10] 1 = .ok 3600 :=
  ⟨by decide, by decide,
    (GetDeltaTime_by_version 2 [0x02, 0x21, 0x21, 0x05, 0x0E, 0x10] 1 0x0E 0x10
      (by decide) (by decide) (by decide) (by decide)).2.1 (by decide)⟩

/-! ## Rendering -/

theorem digitsValue_foldl (cs : List Char) :
    ∀ acc : Nat, cs.foldl (fun acc c => 10 * acc + (c.toNat - '0'.toNat)) acc
      = acc * 10 ^ cs.length + digitsValue cs := by
  induction cs with
  | nil => intro acc; simp [digitsValue]
  | cons c cs ih =>
    intro acc
    simp only [List.foldl_cons, List.length_cons, digitsValue]
    rw [ih, ih (10 * 0 + (c.toNat - '0'.toNat))]
    ring

theorem digitsValue_cons (c : Char) (cs : List Char) :
    digitsValue (c :: cs) = (c.toNat - '0'.toNat) * 10 ^ cs.length + digitsValue cs := by
  have h := digitsValue_foldl cs (10 * 0 + (c.toNat - '0'.toNat))
  simp only [digitsValue, List.foldl_cons] at h ⊢
  rw [h]
  ring

theorem digitsValue_append (l1 l2 : List Char) :
    digitsValue (l1 ++ l2) = digitsValue l1 * 10 ^ l2.length + digitsValue l2 := by
  unfold digitsValue
  rw [List.foldl_append, digitsValue_foldl l2]
  rfl

theorem digitChar_value : ∀ d < 10,
    (Nat.digitChar d).toNat - '0'.toNat = d ∧ (Nat.digitChar d).isDigit = true := by
  decide

theorem toDigitsCore_value : ∀ (fuel n : Nat) (ds : List Char), n < fuel →
    digitsValue (Nat.toDigitsCore 10 fuel n ds) = n * 10 ^ ds.length + digitsValue ds := by
  intro fuel
  induction fuel with
  | zero => intro n ds h; omega
  | succ fuel ih =>
    intro n ds h
    have hd := (digitChar_value (n % 10) (Nat.mod_lt _ (by decide))).1
    simp only [Nat.toDigitsCore]
    by_cases h0 : n / 10 = 0
    · simp only [h0, if_true]
      rw [digitsValue_cons, hd]
      have : n % 10 = n := by omega
      rw [this]
    · simp only [h0, if_false]
      rw [ih (n / 10) _ (by omega), digitsValue_cons, hd, List.length_cons, pow_succ]
      have hn : n = 10 * (n / 10) + n % 10 := (Nat.div_add_mod n 10).symm
      generalize n / 10 = q at hn ⊢
      generalize n % 10 = r at hn ⊢
      subst hn
      ring

theorem toDigits_value (n : Nat) : digitsValue (Nat.toDigits 10 n) = n := by
  have h := toDigitsCore_value (n + 1) n [] (by omega)
  simpa [Nat.toDigits, digitsValue] using h

theorem toDigitsCore_isDigit : ∀ (fuel n : Nat) (ds : List Char),
    (∀ c ∈ ds, c.isDigit = true) →
    ∀ c ∈ Nat.toDigitsCore 10 fuel n ds, c.isDigit = true := by
  intro fuel
  induction fuel with
  | zero => intro n ds h; simpa [Nat.toDigitsCore] using h
  | succ fuel ih =>
    intro n ds h
    have hd := (digitChar_value (n % 10) (Nat.mod_lt _ (by decide))).2
    have hcons : ∀ c ∈ Nat.digitChar (n % 10) :: ds, c.isDigit = true := by
      intro c hc
      rcases List.mem_cons.mp hc with rfl | hc
      · exact hd
      · exact h c hc
    simp only [Nat.toDigitsCore]
    by_cases h0 : n / 10 = 0
    · simp only [h0, if_true]
      exact hcons
    · simp only [h0, if_false]
      exact ih _ _ hcons

theorem toDigits_isDigit (n : Nat) : ∀ c ∈ Nat.toDigits 10 n, c.isDigit = true :=
  toDigitsCore_isDigit (n + 1) n [] (by simp)

theorem roundHalfEven_near (y : ℚ) (n : Int) (h : |y - n| < 1 / 2) : roundHalfEven y = n := by
  have h1 := (abs_lt.mp h).1
  have h2 := (abs_lt.mp h).2
  unfold roundHalfEven
  by_cases hge : (n : ℚ) ≤ y
  · have hf : ⌊y⌋ = n := by
      rw [Int.floor_eq_iff]
      constructor
      · exact hge
      · linarith
    simp only [hf]
    have hd : y - (n : ℚ) < 1 / 2 := by linarith
    simp only [hd, if_true]
  · have hlt : y < (n : ℚ) := lt_of_not_ge hge
    have hf : ⌊y⌋ = n - 1 := by
      rw [Int.floor_eq_iff]
      push_cast
      constructor <;> linarith
    simp only [hf]
    push_cast
    have hd1 : ¬ (y - ((n : ℚ) - 1) < 1 / 2) := by linarith
    have hd2 : 1 / 2 < y - ((n : ℚ) - 1) := by linarith
    simp only [hd1, hd2, if_false, if_true]
    ring

/-- The text `formatFixed` renders for a value within half a unit of the last
place of `n / 10 ^ precision` and of the same sign. -/
theorem formatFixed_near (precision : Nat) (y : ℚ) (n : Int)
    (h : |y * 10 ^ precision - n| < 1 / 2) (hsign : y < 0 ↔ n < 0) :
    formatFixed precision y
      = (if n < 0 then "-" else "")
        ++ String.mk (Nat.toDigits 10 (n.natAbs / 10 ^ precision))
        ++ (if precision = 0 then ""
            else "." ++ padDigits precision (n.natAbs % 10 ^ precision)) := by
  unfold formatFixed
  simp only [roundHalfEven_near _ n h]
  by_cases hn : n < 0
  · have hy : y < 0 := hsign.2 hn
    simp only [hn, hy, if_true]
  · have hy : ¬ y < 0 := fun hy => hn (hsign.1 hy)
    simp only [hn, hy, if_false]

theorem padDigits_length (width n : Nat) (hw : 0 < width) (hn : n < 10 ^ width) :
    (List.replicate (width - (Nat.toDigits 10 n).length) '0' ++ Nat.toDigits 10 n).length
      = width := by
  have hlen : (Nat.toDigits 10 n).length ≤ width :=
    Nat.toDigitsCore_length 10 (by decide) (n + 1) n width hn hw
  rw [List.length_append, List.length_replicate]
  omega

theorem digitsValue_replicate_zero (k : Nat) : digitsValue (List.replicate k '0') = 0 := by
  induction k with
  | zero => rfl
  | succ k ih =>
    rw [List.replicate_succ, digitsValue_cons, ih]
    simp

/-- The integer decoded from a field of 1, 2 or 4 bytes, and its range. -/
theorem reportInteger_signed (field rest : List Nat)
    (hlen : field.length = 1 ∨ field.length = 2 ∨ field.length = 4)
    (hbytes : ∀ b ∈ field, b < 256) :
    reportInteger (field ++ rest) field.length = .ok (signedBigEndian field) ∧
    -2147483648 ≤ signedBigEndian field ∧ signedBigEndian field ≤ 2147483647 := by
  rcases hlen with hlen | hlen | hlen
  · obtain ⟨b0, rfl⟩ := List.length_eq_one.mp hlen
    have h0 : b0 < 256 := hbytes b0 (by simp)
    have hs : signedBigEndian [b0] = if b0 < 128 then (b0 : Int) else (b0 : Int) - 256 := by
      simp [signedBigEndian, bigEndian]
    refine ⟨by rw [hs]; exact reportInteger_one b0 rest h0, ?_, ?_⟩ <;>
      (rw [hs]; split <;> omega)
  · obtain ⟨b0, b1, rfl⟩ := List.length_eq_two.mp hlen
    have h0 : b0 < 256 := hbytes b0 (by simp)
    have h1 : b1 < 256 := hbytes b1 (by simp)
    have hs : signedBigEndian [b0, b1]
        = if b0 < 128 then ((b0 * 256 + b1 : Nat) : Int)
          else ((b0 * 256 + b1 : Nat) : Int) - 65536 := by
      simp only [signedBigEndian, bigEndian, List.foldl_cons, List.foldl_nil, List.length_cons,
        List.length_nil]
      norm_num
      split <;> split <;> omega
    refine ⟨by rw [hs]; exact reportInteger_two b0 b1 rest h0 h1, ?_, ?_⟩ <;>
      (rw [hs]; split <;> omega)
  · match field, hlen with
    | [b0, b1, b2, b3], _ =>
      have h0 : b0 < 256 := hbytes b0 (by simp)
      have h1 : b1 < 256 := hbytes b1 (by simp)
      have h2 : b2 < 256 := hbytes b2 (by simp)
      have h3 : b3 < 256 := hbytes b3 (by simp)
      have hs : signedBigEndian [b0, b1, b2, b3]
          = if b0 < 128 then ((((b0 * 256 + b1) * 256 + b2) * 256 + b3 : Nat) : Int)
            else ((((b0 * 256 + b1) * 256 + b2) * 256 + b3 : Nat) : Int) - 4294967296 := by
        simp only [signedBigEndian, bigEndian, List.foldl_cons, List.foldl_nil,
          List.length_cons, List.length_nil]
        norm_num
        split <;> split <;> omega
      refine ⟨by rw [hs]; exact reportInteger_four b0 b1 b2 b3 rest h0 h1 h2 h3, ?_, ?_⟩ <;>
        (rw [hs]; split <;> omega)

/-- The text rendered for a value that differs from `n / 10 ^ precision` by at
most the rounding error of a `double` (relative error `2 ^ -53`), for an `n`
in the range of `int32_t`. -/
theorem formatFixed_stable (precision : Nat) (n : Int) (y : ℚ)
    (hn : -2147483648 ≤ n ∧ n ≤ 2147483647)
    (hy : |y - (n : ℚ) / 10 ^ precision| ≤ |(n : ℚ) / 10 ^ precision| / 2 ^ 53) :
    formatFixed precision y
      = (if n < 0 then "-" else "")
        ++ String.mk (Nat.toDigits 10 (n.natAbs / 10 ^ precision))
        ++ (if precision = 0 then ""
            else "." ++ padDigits precision (n.natAbs % 10 ^ precision)) := by
  have hpos : (0 : ℚ) < 10 ^ precision := by positivity
  have hnq : |(n : ℚ)| ≤ 2147483648 := by
    rw [abs_le]
    constructor
    · have : ((-2147483648 : Int) : ℚ) ≤ (n : ℚ) := Int.cast_le.mpr hn.1
      push_cast at this
      linarith
    · have : (n : ℚ) ≤ ((2147483647 : Int) : ℚ) := Int.cast_le.mpr hn.2
      push_cast at this
      linarith
  have hv : (n : ℚ) / 10 ^ precision * 10 ^ precision = n := by field_simp
  have habs : |(n : ℚ) / 10 ^ precision| * 10 ^ precision = |(n : ℚ)| := by
    rw [abs_div, abs_of_pos hpos]
    field_simp
  apply formatFixed_near
  · have heq : y * 10 ^ precision - (n : ℚ)
        = (y - (n : ℚ) / 10 ^ precision) * 10 ^ precision := by
      rw [sub_mul, hv]
    rw [heq, abs_mul, abs_of_pos hpos]
    have h1 : |y - (n : ℚ) / 10 ^ precision| * 10 ^ precision
        ≤ |(n : ℚ) / 10 ^ precision| / 2 ^ 53 * 10 ^ precision :=
      mul_le_mul_of_nonneg_right hy hpos.le
    have h2 : |(n : ℚ) / 10 ^ precision| / 2 ^ 53 * 10 ^ precision = |(n : ℚ)| / 2 ^ 53 := by
      rw [div_mul_eq_mul_div, habs]
    rw [h2] at h1
    have h3 : |(n : ℚ)| / 2 ^ 53 < 1 / 2 := by
      rw [div_lt_iff₀ (by positivity)]
      norm_num
      linarith
    linarith
  · have hb := abs_le.mp hy
    constructor
    · intro hy0
      by_contra hn0
      have hn0' : (0 : ℚ) ≤ (n : ℚ) := Int.cast_nonneg.mpr (not_lt.mp hn0)
      have hv0 : 0 ≤ (n : ℚ) / 10 ^ precision := div_nonneg hn0' hpos.le
      rw [abs_of_nonneg hv0] at hb
      have hle : (n : ℚ) / 10 ^ precision / 2 ^ 53 ≤ (n : ℚ) / 10 ^ precision :=
        div_le_self hv0 (by norm_num)
      linarith [hb.1]
    · intro hn0
      have hn0' : (n : ℚ) < 0 := Int.cast_lt_zero.mpr hn0
      have hv0 : (n : ℚ) / 10 ^ precision < 0 := div_neg_of_neg_of_pos hn0' hpos
      rw [abs_of_neg hv0] at hb
      have hlt : -((n : ℚ) / 10 ^ precision) / 2 ^ 53 < -((n : ℚ) / 10 ^ precision) :=
        div_lt_self (by linarith) (by norm_num)
      linarith [hb.2]

/-- C20: for a field of 1, 2 or 4 bytes, followed by anything, the text rendered
by `GetReportValue` at a precision 0..7 is the exact decimal representation of
the decoded integer divided by `10 ^ precision`: a minus sign when the integer
is negative, the digits of the integer part, and, unless the precision is 0, a
point and exactly `precision` digits, the digits denoting the absolute value of
the integer.  The decoded value is the `double` nearest to the quotient;
rendering it again at the same precision gives the same text, as does, at every
precision, rendering any value that differs from the quotient by at most the
rounding error of a `double`. -/
theorem GetReportValue_rendering (field rest : List Nat) (precision : Nat)
    (hlen : field.length = 1 ∨ field.length = 2 ∨ field.length = 4)
    (hbytes : ∀ b ∈ field, b < 256) :
    ∃ intPart fracPart : List Char,
      (precision ≤ 7 →
        GetReportValue (field ++ rest) field.length precision
          = .ok (binary64 ((signedBigEndian field : ℚ) / 10 ^ precision),
              (if signedBigEndian field < 0 then "-" else "") ++ String.mk intPart
                ++ (if precision = 0 then "" else "." ++ String.mk fracPart))) ∧
      fracPart.length = precision ∧
      (∀ c ∈ intPart ++ fracPart, c.isDigit = true) ∧
      digitsValue intPart * 10 ^ precision + digitsValue fracPart
        = (signedBigEndian field).natAbs ∧
      (precision ≤ 7 →
        formatFixed precision (binary64 ((signedBigEndian field : ℚ) / 10 ^ precision))
          = (if signedBigEndian field < 0 then "-" else "") ++ String.mk intPart
            ++ (if precision = 0 then "" else "." ++ String.mk fracPart)) ∧
      (∀ y : ℚ,
        |y - (signedBigEndian field : ℚ) / 10 ^ precision|
            ≤ |(signedBigEndian field : ℚ) / 10 ^ precision| / 2 ^ 53 →
          formatFixed precision y
            = (if signedBigEndian field < 0 then "-" else "") ++ String.mk intPart
              ++ (if precision = 0 then "" else "." ++ String.mk fracPart)) := by
  obtain ⟨hint, hrange⟩ := reportInteger_signed field rest hlen hbytes
  generalize signedBigEndian field = n at hint hrange ⊢
  have hstable := fun y hy => formatFixed_stable precision n y hrange hy
  have hdouble := fun hp7 => hstable _ (binary64_quotient_error n precision hp7)
  have hval : precision ≤ 7 →
      GetReportValue (field ++ rest) field.length precision
        = .ok (binary64 ((n : ℚ) / 10 ^ precision),
            (if n < 0 then "-" else "")
              ++ String.mk (Nat.toDigits 10 (n.natAbs / 10 ^ precision))
              ++ (if precision = 0 then ""
                  else "." ++ padDigits precision (n.natAbs % 10 ^ precision))) := by
    intro hp7
    rw [GetReportValue_of_reportInteger_le_seven hp7 hint, hdouble hp7]
  have hpad : padDigits precision (n.natAbs % 10 ^ precision)
      = String.mk (List.replicate
          (precision - (Nat.toDigits 10 (n.natAbs % 10 ^ precision)).length) '0'
          ++ Nat.toDigits 10 (n.natAbs % 10 ^ precision)) := rfl
  by_cases hp : precision = 0
  · subst hp
    refine ⟨Nat.toDigits 10 (n.natAbs / 10 ^ 0), [], ?_, rfl, ?_, ?_, ?_, ?_⟩
    · intro hp7
      rw [hval hp7]
      simp
    · intro c hc
      rw [List.append_nil] at hc
      exact toDigits_isDigit _ c hc
    · rw [toDigits_value]
      simp [digitsValue]
    · intro hp7
      rw [hdouble hp7]
      simp
    · intro y hy
      rw [hstable y hy]
      simp
  · have hp0 : 0 < precision := Nat.pos_of_ne_zero hp
    have hmod : n.natAbs % 10 ^ precision < 10 ^ precision := Nat.mod_lt _ (by positivity)
    refine ⟨Nat.toDigits 10 (n.natAbs / 10 ^ precision),
      List.replicate (precision - (Nat.toDigits 10 (n.natAbs % 10 ^ precision)).length) '0'
        ++ Nat.toDigits 10 (n.natAbs % 10 ^ precision), ?_, ?_, ?_, ?_, ?_, ?_⟩
    · intro hp7
      rw [hval hp7, hpad]
    · exact padDigits_length precision _ hp0 hmod
    · intro c hc
      rcases List.mem_append.mp hc with hc | hc
      · exact toDigits_isDigit _ c hc
      · rcases List.mem_append.mp hc with hc | hc
        · rw [(List.mem_replicate.mp hc).2]
          decide
        · exact toDigits_isDigit _ c hc
    · rw [digitsValue_append, digitsValue_replicate_zero, toDigits_value, toDigits_value]
      rw [Nat.zero_mul, Nat.zero_add]
      exact Nat.div_add_mod' _ _
    · intro hp7
      rw [hdouble hp7, hpad]
    · intro y hy
      rw [hstable y hy, hpad]

/-- C20, on the two-byte field 0xFF 0x9C at precision 3: the value is the
`double` nearest to -1/10, `-(3602879701896397 / 2 ^ 55)`, and the text is
"-0.100". -/
theorem GetReportValue_rendering_witness :
    ([0xFF, 0x9C].length = 1 ∨ [0xFF, 0x9C].length = 2 ∨ [0xFF, 0x9C].length = 4) ∧
    (∀ b ∈ [0xFF, 0x9C], b < 256) ∧
    GetReportValue ([0xFF, 0x9C] ++ [0x00, 0x00]) 2 3
      = .ok (-(3602879701896397 / 2 ^ 55), "-0.100") ∧
    ∃ intPart fracPart : List Char,
      GetReportValue ([0xFF, 0x9C] ++ [0x00, 0x00]) [0xFF, 0x9C].length 3
        = .ok (binary64 ((signedBigEndian [0xFF, 0x9C] : ℚ) / 10 ^ 3),
            (if signedBigEndian [0xFF, 0x9C] < 0 then "-" else "") ++ String.mk intPart
              ++ (if 3 = 0 then "" else "." ++ String.mk fracPart)) ∧
      fracPart.length = 3 :=
  ⟨by decide, by decide, by decide!,
    let ⟨intPart, fracPart, h1, h2, _⟩ :=
      GetReportValue_rendering [0xFF, 0x9C] [0x00, 0x00] 3 (by decide) (by decide)
    ⟨intPart, fracPart, h1 (by decide), h2⟩⟩

/-! ## The extension bytes of a capability report -/

/-- The loop over the extension bytes, for counts that keep the shift below 32
bits: every pass ORs in the same byte, `_data[3+1]`. -/
theorem extensionLoop_eq (wideShift : Nat → Nat → Nat) (data : List Nat) (ext : Nat)
    (hr : readByte data (3 + 1) = .ok ext) (hext : ext < 256) :
    ∀ (l : List Nat) (scale : Nat), (∀ k ∈ l, 8 * k < 32) →
      l.foldlM (extensionStep wideShift data) scale
        = .ok (l.foldl (fun s k => s ||| ext <<< (8 * k)) scale) := by
  intro l
  induction l with
  | nil => intro scale _; simp [pure, Except.pure]
  | cons k l ih =>
    intro scale h
    have hk := h k (List.mem_cons_self _ _)
    have hk' : ¬ (8 * k ≥ 32) := by omega
    have hmod : (ext <<< (8 * k)) % 2 ^ 32 = ext <<< (8 * k) := by
      apply Nat.mod_eq_of_lt
      rw [Nat.shiftLeft_eq]
      calc ext * 2 ^ (8 * k) < 256 * 2 ^ (8 * k) :=
            Nat.mul_lt_mul_of_pos_right hext (by positivity)
        _ ≤ 256 * 2 ^ 24 := Nat.mul_le_mul_left _ (Nat.pow_le_pow_right (by decide) (by omega))
        _ = 2 ^ 32 := by norm_num
    rw [List.foldlM_cons, List.foldl_cons]
    simp only [extensionStep, hr, hk', if_false, bind, Except.bind, pure, Except.pure, hmod]
    exact ih _ (fun j hj => h j (List.mem_cons_of_mem _ hj))

/-- C21: in version 4, on the capability payload with byte 2 = 0x80, extension
count 2 and extension bytes 0x01 0x02, the claimed bitmap is `(0x80 & 0x7F) |
0x01 << 8 | 0x02 << 16 = 0x020100`, and `HandleSupportedReport` composes
0x010100: every pass of its loop reads `_data[3+1]`, so the first extension
byte is ORed in at each position and the others are not read.  In general, for
an extension count `n` of at most 3, the bitmap is `byte2 & 0x7F` ORed with
`_data[4] << 8*k` for `k` in 1..n (which is the claimed bitmap for `n` at most
1); with bit 7 of byte 2 clear it is `byte2 & 0x7F`; with a count of 4 the
fourth pass shifts by 32 bits, which C++ leaves undefined: the bitmap is
0x01010100 ORed with whatever that shift yields.  None of this depends on the
value of an undefined shift otherwise. -/
theorem SupportedScale_extension_bytes :
    (∀ wideShift : Nat → Nat → Nat,
      SupportedScale 4 [0x04, 0x01, 0x80, 0x02, 0x01, 0x02] wideShift = .ok 0x010100) ∧
    ((0x80 &&& 0x7F) ||| (0x01 <<< (8 * 1)) ||| (0x02 <<< (8 * 2)) = 0x020100) ∧
    (∀ (version : Nat) (data : List Nat) (wideShift : Nat → Nat → Nat) (b2 n ext : Nat),
      4 ≤ version → data[2]? = some b2 → b2 &&& 0x80 ≠ 0 → data[3]? = some n → n ≤ 3 →
      data[4]? = some ext → ext < 256 →
        SupportedScale version data wideShift
          = .ok ((List.range' 1 n).foldl (fun s k => s ||| ext <<< (8 * k)) (b2 &&& 0x7F))) ∧
    (∀ (version : Nat) (data : List Nat) (wideShift : Nat → Nat → Nat) (b2 : Nat),
      4 ≤ version → data[2]? = some b2 → b2 &&& 0x80 = 0 →
        SupportedScale version data wideShift = .ok (b2 &&& 0x7F)) ∧
    (∀ wideShift : Nat → Nat → Nat,
      SupportedScale 4 [0x04, 0x01, 0x80, 0x04, 0x01, 0x02, 0x03, 0x04] wideShift
        = .ok (0x01010100 ||| wideShift 0x01 32 % 2 ^ 32)) := by
  refine ⟨fun _ => rfl, by decide, ?_, ?_, fun _ => rfl⟩
  · intro version data wideShift b2 n ext hv h2 hb h3 hn h4 hext
    have hr2 := readByte_of_getElem? h2
    have hr3 := readByte_of_getElem? h3
    have hr4 : readByte data (3 + 1) = .ok ext := readByte_of_getElem? h4
    have hn2 : ¬ version = 2 := by omega
    have hn3 : ¬ version = 3 := by omega
    have hmod : n % 256 = n := Nat.mod_eq_of_lt (by omega)
    have hloop := extensionLoop_eq wideShift data ext hr4 hext (List.range' 1 n) (b2 &&& 0x7F)
      (fun k hk => by
        have := List.mem_range'_1.mp hk
        omega)
    simp only [SupportedScale, hn2, hn3, hr2, hr3, hb, ge_iff_le, hv, if_true, if_false,
      bind, Except.bind, pure, Except.pure, ne_eq, not_false_eq_true]
    norm_num only [hmod] at hloop ⊢
    exact hloop
  · intro version data wideShift b2 hv h2 hb
    have hr2 := readByte_of_getElem? h2
    have hn2 : ¬ version = 2 := by omega
    have hn3 : ¬ version = 3 := by omega
    simp [SupportedScale, hn2, hn3, hr2, hb, hv, bind, Except.bind, pure, Except.pure]

/-! ## Bit positions above 9 -/

/-- C22: in version 4, on the accepted capability payload with quantity type 1,
byte 2 = 0x80, extension count 1 and extension byte 0x04, bit 10 of the composed
bitmap is set and FlatIndex `(1 - 1) * 16 + 10` is in the registry, but
`HandleSupportedReport` creates no decimal slot (only the exporting slot): the
loop over the bit positions stops at `(scalesize*8)+1 = 9`, `scalesize` staying
1 because the extension count is added to `size` instead.  In every version a
decimal slot is created only at bit positions 0..9. -/
theorem SupportedReportCalls_skips_high_bits :
    (∀ wideShift : Nat → Nat → Nat,
      SupportedScale 4 [0x04, 0x01, 0x80, 0x01, 0x04] wideShift = .ok 0x0400) ∧
    (0x0400 &&& (1 <<< 10) ≠ 0) ∧
    List.lookup ((1 - 1) * 16 + 10) MeterTypes
      = some { Label := "Electric (Unknown)", Unit := "" } ∧
    SupportedReportCalls
        { version := 4, maxVersion := 5, nodePresent := true, getSupported := true }
        [0x04, 0x01, 0x80, 0x01, 0x04]
      = .ok (some [.createBool ValueID_Index_Meter.Exporting "Exporting"]) ∧
    HandleSupportedReport
        { version := 4, maxVersion := 5, nodePresent := true, getSupported := true }
        [] [0x04, 0x01, 0x80, 0x01, 0x04] 6 1
      = .ok (true, [((1, ValueID_Index_Meter.Exporting), .bool "Exporting" false)]) ∧
    (∀ (ctx : Ctx) (data : List Nat) (calls : List NodeCall) (index : Nat)
        (label units : String),
      SupportedReportCalls ctx data = .ok (some calls) →
      NodeCall.createDecimal index label units ∈ calls → index % 16 ≤ 9) := by
  refine ⟨fun _ => rfl, by decide, by decide, by decide, by decide, ?_⟩
  intro ctx data calls index label units h hmem
  cases h1 : data[1]? with
  | none =>
    have hr : readByte data 1 = .error (.outOfRange 1) := by simp [readByte, h1]
    simp [SupportedReportCalls, hr, bind, Except.bind] at h
  | some b1 =>
    obtain ⟨ht, -, scale, -, hc⟩ := SupportedReportCalls_ok h1 h
    rw [hc] at hmem
    simp only [List.mem_append, List.mem_filterMap, List.mem_range, List.mem_singleton] at hmem
    rcases hmem with (⟨i, hi10, hi⟩ | hb) | hr
    · split at hi
      · split at hi
        · simp at hi
        · rename_i h0
          cases hl : List.lookup (((b1 &&& 0x1f) - 1) * 16 + i) MeterTypes with
          | none => simp [hl] at hi
          | some m =>
            simp only [hl, Option.map_some', Option.some.injEq, NodeCall.createDecimal.injEq]
              at hi
            obtain ⟨rfl, -, -⟩ := hi
            omega
      · simp at hi
    · simp at hb
    · split at hr <;> simp at hr

/-! ## The quantity type of a stored reading -/

theorem GetMeterType_ok_range {version : Nat} {data : List Nat} {meterType : Nat}
    (h : GetMeterType version data = .ok (true, meterType)) :
    1 ≤ meterType ∧ meterType ≤ 5 := by
  simp only [GetMeterType, bind, Except.bind, pure, Except.pure, c_meterTypeMask,
    MeterType_Electric, MeterType_Water, MeterType_Cooling, ge_iff_le] at h
  cases hrd : readByte data 1 with
  | error e => simp [hrd] at h
  | ok x =>
    simp only [hrd] at h
    split at h
    · split at h
      · split at h
        · simp at h; omega
        · simp at h
      · split at h
        · simp at h; omega
        · simp at h
    · simp at h

theorem GetScale_le_seven {version : Nat} {data : List Nat} {length : Nat} {sc : Scales}
    (hv : 1 ≤ version ∧ version ≤ 3) (h : GetScale version data length = .ok sc) :
    sc.scale ≤ 7 := by
  have hv4 : ¬ version ≥ 4 := by omega
  have hv1 : version ≥ 1 := hv.1
  cases h2 : readByte data 2 with
  | error e => simp [GetScale, hv1, h2, bind, Except.bind] at h
  | ok b2 =>
    have hlo : b2 / 8 % 4 < 4 := Nat.mod_lt _ (by decide)
    have hlo8 : b2 / 8 % 4 % 256 = b2 / 8 % 4 := Nat.mod_eq_of_lt (by omega)
    by_cases hv3 : version ≥ 3
    · cases h1 : readByte data 1 with
      | error e =>
        simp [GetScale, hv1, hv3, h2, h1, bind, Except.bind, pure, Except.pure] at h
      | ok b1 =>
        have hhi : b1 / 128 % 2 < 2 := Nat.mod_lt _ (by decide)
        have hc := composed_scale_lt _ hlo _ hhi
        have hc8 : (b2 / 8 % 4 ||| (b1 / 128 % 2) * 4) % 256
            = b2 / 8 % 4 ||| (b1 / 128 % 2) * 4 := Nat.mod_eq_of_lt (by omega)
        simp [GetScale, hv1, hv3, hv4, h2, h1, bind, Except.bind, pure, Except.pure, scale_bits,
          high_scale_bit, hlo8, hc8] at h
        rw [← h]
        simp only
        omega
    · simp [GetScale, hv1, hv3, hv4, h2, bind, Except.bind, pure, Except.pure, scale_bits,
        hlo8] at h
      rw [← h]
      simp only
      omega

theorem GetScale_scale_lt {version : Nat} {data : List Nat} {length : Nat} {sc : Scales}
    (h : GetScale version data length = .ok sc) : sc.scale < 256 := by
  unfold GetScale at h
  simp only [bind, Except.bind, pure, Except.pure] at h
  have hm : ∀ x : Nat, x % 256 < 256 := fun x => Nat.mod_lt _ (by decide)
  repeat' split at h
  all_goals first
    | (simp at h; done)
    | (simp only [Except.ok.injEq] at h
       rw [← h]
       first | exact hm _ | decide)

/-- C24: in version 5, the report with byte 1 = 0x81 (quantity type 1,
Electric), composed primary scale 7 and scale-2 byte 8 is accepted with resolved
scale 16 and FlatIndex 16, the index of "Gas - m3": `16 / 16 + 1` is 2, not 1,
and the reading is stored in the gas slot.  In version 4 the same happens when
the last previous-value byte is 8.  For every accepted report the index is
`(meterType - 1) * 16 + scale`, which belongs to the reported quantity type
exactly when the resolved scale is at most 15; that is so in versions 1 to 3,
where the scale is at most 7. -/
theorem HandleReport_index_of_other_type :
    DecodeReport { version := 5, maxVersion := 5, nodePresent := true, getSupported := true }
        [0x02, 0x81, 0x19, 0x05, 0x00, 0x00, 0x08] 8
      = .ok (some
        { meterType := 1, rateType := 0, elementSize := 1,
          scales := { scale := 16, scale1 := 7, scale2 := 16 },
          precision := 0, deltaTime := 0, valueDbl := 5, valueStr := "5",
          valuePrevDbl := 5, valuePrevStr := "5", index := 16,
          meter := { Label := "Gas - m3", Unit := "m3" } }) ∧
    (16 / 16 + 1 ≠ 1) ∧
    HandleReport { version := 5, maxVersion := 5, nodePresent := true, getSupported := true }
        [((1, 0), .decimal "Electric - kWh" "kWh" "0.0" 0),
         ((1, 16), .decimal "Gas - m3" "m3" "0.0" 0)]
        [0x02, 0x81, 0x19, 0x05, 0x00, 0x00, 0x08] 8 1
      = .ok (true,
        [((1, 0), .decimal "Electric - kWh" "kWh" "0.0" 0),
         ((1, 16), .decimal "Gas - m3" "m3" "5" 0)]) ∧
    HandleReport { version := 4, maxVersion := 5, nodePresent := true, getSupported := true }
        [((1, 0), .decimal "Electric - kWh" "kWh" "0.0" 0),
         ((1, 16), .decimal "Gas - m3" "m3" "0.0" 0)]
        [0x02, 0x81, 0x19, 0x05, 0x00, 0x01, 0x08] 8 1
      = .ok (true,
        [((1, 0), .decimal "Electric - kWh" "kWh" "0.0" 0),
         ((1, 16), .decimal "Gas - m3" "m3" "5" 0)]) ∧
    (∀ (ctx : Ctx) (data : List Nat) (length : Nat) (r : Reading),
      DecodeReport ctx data length = .ok (some r) →
        r.index = (r.meterType - 1) * 16 + r.scales.scale ∧
        (r.index / 16 + 1 = r.meterType ↔ r.scales.scale ≤ 15) ∧
        (ctx.version ≤ 3 → r.index / 16 + 1 = r.meterType)) := by
  refine ⟨by decide!, by decide, by decide!, by decide!, ?_⟩
  intro ctx data length r h
  obtain ⟨hver, hmt, -, -, hsc, -, -, -, -, -, hdesc, -⟩ := DecodeReport_some h
  have ht := GetMeterType_ok_range hmt
  have hidx := (GetMeterTypeDescription_index hdesc ht.1).1
  have hlook := (GetMeterTypeDescription_index hdesc ht.1).2
  have hlt : r.index < 80 := by
    by_contra hge
    rw [MeterTypes_lookup_none (by omega)] at hlook
    simp at hlook
  have hs256 := GetScale_scale_lt hsc
  have heq : r.index = (r.meterType - 1) * 16 + r.scales.scale := by omega
  refine ⟨heq, by omega, ?_⟩
  intro hv3
  have := GetScale_le_seven ⟨hver.1, hv3⟩ hsc
  omega

/-! ## The previous reading -/

/-- `DecodeReport` from the point where the primary value has been decoded. -/
theorem DecodeReport_of_stages {ctx : Ctx} {data : List Nat} {length : Nat}
    {mt rt es pr dt : Nat} {sc : Scales} {v : ℚ} {s : String}
    (hver : 1 ≤ ctx.version ∧ ctx.version ≤ ctx.maxVersion)
    (hmt : GetMeterType ctx.version data = .ok (true, mt))
    (hrt : GetRateType ctx.version data = .ok (true, rt))
    (hes : GetValueElementSize data = .ok (true, es))
    (hsc : GetScale ctx.version data length = .ok sc)
    (hpr : GetPrecision data = .ok pr)
    (hdt : GetDeltaTime ctx.version data es = .ok dt)
    (hlen : ValidateLengthOfMessage ctx.version es sc.scale1 dt length = true)
    (hval : GetReportValue (data.drop 3) es pr = .ok (v, s)) :
    DecodeReport ctx data length =
      (match (if dt > 0 then GetReportValue (data.drop (3 + 2 + es)) es pr
              else .ok (v, s)) with
       | .error e => .error e
       | .ok prev =>
         match GetMeterTypeDescription mt sc.scale with
         | none => .ok none
         | some (index, meter) =>
           if ValidateValue index v prev.1 dt = false then .ok none
           else .ok (some
             { meterType := mt, rateType := rt, elementSize := es, scales := sc,
               precision := pr, deltaTime := dt, valueDbl := v, valueStr := s,
               valuePrevDbl := prev.1, valuePrevStr := prev.2,
               index := index, meter := meter })) := by
  have hnv : ¬ (ctx.version < 1 ∨ ctx.version > ctx.maxVersion) := by omega
  unfold DecodeReport
  simp only [bind, Except.bind, pure, Except.pure]
  rw [if_neg hnv]
  simp only [hmt, hrt, hes, hsc, hpr, hdt, hlen, hval, Bool.true_eq_false, if_false]
  by_cases hpos : dt > 0
  · simp only [hpos, if_true]
    cases GetReportValue (List.drop (3 + 2 + es) data) es pr with
    | error e => rfl
    | ok prev => rfl
  · simp only [hpos, if_false]

/-- C23: for a report that has passed the stages of `HandleReport` up to the
decoding of the primary value, with a FlatIndex in the registry: when the
delta-time is nonzero, the previous reading is decoded by `GetReportValue` from
the bytes at offset `3 + elementSize + 2`, with the element size and precision
of the primary value (a fault of that read is a fault of the call), and is what
the plausibility filter receives; when the delta-time is zero, which it is in
version 1, nothing more is read and the filter receives the primary value as
previous value, so that at the index of kWh the report is accepted exactly when
its value is not below -1,000,000. -/
theorem DecodeReport_previous_value
    (ctx : Ctx) (data : List Nat) (length mt rt es pr dt : Nat) (sc : Scales)
    (v : ℚ) (s : String) (index : Nat) (meter : s_MeterTypes)
    (hver : 1 ≤ ctx.version ∧ ctx.version ≤ ctx.maxVersion)
    (hmt : GetMeterType ctx.version data = .ok (true, mt))
    (hrt : GetRateType ctx.version data = .ok (true, rt))
    (hes : GetValueElementSize data = .ok (true, es))
    (hsc : GetScale ctx.version data length = .ok sc)
    (hpr : GetPrecision data = .ok pr)
    (hdt : GetDeltaTime ctx.version data es = .ok dt)
    (hlen : ValidateLengthOfMessage ctx.version es sc.scale1 dt length = true)
    (hval : GetReportValue (data.drop 3) es pr = .ok (v, s))
    (hdesc : GetMeterTypeDescription mt sc.scale = some (index, meter)) :
    (dt > 0 →
      (∀ e : Fault, GetReportValue (data.drop (3 + es + 2)) es pr = .error e →
        DecodeReport ctx data length = .error e) ∧
      (∀ (pv : ℚ) (ps : String),
        GetReportValue (data.drop (3 + es + 2)) es pr = .ok (pv, ps) →
        DecodeReport ctx data length =
          .ok (if ValidateValue index v pv dt = true then some
                { meterType := mt, rateType := rt, elementSize := es, scales := sc,
                  precision := pr, deltaTime := dt, valueDbl := v, valueStr := s,
                  valuePrevDbl := pv, valuePrevStr := ps, index := index, meter := meter }
               else none))) ∧
    (dt = 0 →
      DecodeReport ctx data length =
        .ok (if ValidateValue index v v 0 = true then some
              { meterType := mt, rateType := rt, elementSize := es, scales := sc,
                precision := pr, deltaTime := 0, valueDbl := v, valueStr := s,
                valuePrevDbl := v, valuePrevStr := s, index := index, meter := meter }
             else none)) ∧
    (ctx.version = 1 → dt = 0) ∧
    (dt = 0 → index = ValueID_Index_Meter.Electric_kWh →
      (ValidateValue index v v 0 = true ↔ ¬ v < -1000000)) := by
  have hstages := DecodeReport_of_stages hver hmt hrt hes hsc hpr hdt hlen hval
  have hoff : 3 + es + 2 = 3 + 2 + es := by omega
  refine ⟨?_, ?_, ?_, ?_⟩
  · intro hpos
    constructor
    · intro e he
      rw [hoff] at he
      rw [hstages]
      simp only [hpos, if_true, he]
    · intro pv ps hp
      rw [hoff] at hp
      rw [hstages]
      simp only [hpos, if_true, hp, hdesc]
      cases ValidateValue index v pv dt <;> simp
  · intro h0
    subst h0
    rw [hstages]
    simp only [gt_iff_lt, Nat.lt_irrefl, if_false, hdesc]
    cases ValidateValue index v v 0 <;> simp
  · intro hv1
    simp only [GetDeltaTime, hv1, if_true, Except.ok.injEq] at hdt
    exact hdt.symm
  · intro _ hidx
    subst hidx
    unfold ValidateValue
    by_cases hneg : v < -1000000
    · simp [hneg]
    · simp [hneg, binary64_zero]

/-- C23, on a version-2 report with element size 1, value 0.5, delta-time 10 and
previous value 0.4: the previous reading is the byte at offset 6, and the report
is accepted. -/
theorem DecodeReport_previous_value_witness :
    GetDeltaTime 2 [0x02, 0x21, 0x21, 0x05, 0x00, 0x0A, 0x04] 1 = .ok 10 ∧
    GetReportValue (List.drop (3 + 1 + 2) [0x02, 0x21, 0x21, 0x05, 0x00, 0x0A, 0x04]) 1 1
      = .ok (3602879701896397 / 2 ^ 53, "0.4") ∧
    DecodeReport { version := 2, maxVersion := 5, nodePresent := true, getSupported := true }
        [0x02, 0x21, 0x21, 0x05, 0x00, 0x0A, 0x04] 8
      = .ok (if ValidateValue 0 (1 / 2) (3602879701896397 / 2 ^ 53) 10 = true then some
            { meterType := 1, rateType := 1, elementSize := 1,
              scales := { scale := 0, scale1 := 0, scale2 := 0 },
              precision := 1, deltaTime := 10, valueDbl := 1 / 2, valueStr := "0.5",
              valuePrevDbl := 3602879701896397 / 2 ^ 53, valuePrevStr := "0.4", index := 0,
              meter := { Label := "Electric - kWh", Unit := "kWh" } }
           else none) :=
  ⟨by decide, by decide!,
    ((DecodeReport_previous_value
      { version := 2, maxVersion := 5, nodePresent := true, getSupported := true }
      [0x02, 0x21, 0x21, 0x05, 0x00, 0x0A, 0x04] 8 1 1 1 1 10
      { scale := 0, scale1 := 0, scale2 := 0 } (1 / 2) "0.5" 0
      { Label := "Electric - kWh", Unit := "kWh" }
      (by decide) (by decide) (by decide) (by decide) (by decide) (by decide) (by decide)
      (by decide) (by decide!) (by decide)).1 (by decide)).2 (3602879701896397 / 2 ^ 53) "0.4"
      (by decide!)⟩

/-! ## Where the scale-2 byte is read -/

/-- The scale `GetScale` resolves from the byte at `_length - 2`. -/
theorem GetScale_of_scale2_byte {version : Nat} {data : List Nat} {length b1 b2 b : Nat}
    (hv : 4 ≤ version) (hlen : 2 ≤ length ∧ length < 2 ^ 32)
    (h1 : data[1]? = some b1) (h2 : data[2]? = some b2)
    (h7 : (b2 / 8 % 4 ||| (b1 / 128 % 2) * 4) = 7)
    (hb : data[length - 2]? = some b) :
    GetScale version data length
      = .ok { scale := (b + 8) % 256, scale1 := 7, scale2 := (b + 8) % 256 } := by
  have hr1 := readByte_of_getElem? h1
  have hr2 := readByte_of_getElem? h2
  have hidx : (length + 4294967294) % 4294967296 = length - 2 := by
    have := hlen.2
    norm_num at this
    omega
  have hrb : readByte data ((length + 4294967294) % 4294967296) = .ok b := by
    rw [hidx]; exact readByte_of_getElem? hb
  have hlo8 : b2 / 8 % 4 % 256 = b2 / 8 % 4 := by omega
  have hv1 : 1 ≤ version := by omega
  have hv3 : 3 ≤ version := by omega
  simp [GetScale, hr1, hr2, bind, Except.bind, pure, Except.pure, scale_bits,
    high_scale_bit, hv1, hv3, hv, hlo8, h7, hrb]

/-- C25: for a report with composed primary scale 7 and element size 1, 2 or 4
that passes `ValidateLengthOfMessage`: in version 4 with delta-time 0, the index
`_length - 2` that `GetScale` reads is `4 + elementSize`, the low byte of the
delta-time field, which is 0, so that the resolved scale is 8; in version 4
with a nonzero delta-time it is the index of the last byte of the previous-value
field; from version 5 on it is `3 + elementSize + 2`, plus `elementSize` when
the delta-time is nonzero: the first index after the value, delta-time and
previous-value fields. -/
theorem GetScale_version4_reads_field_byte
    (data : List Nat) (length es b1 b2 hi lo : Nat)
    (hes : es = 1 ∨ es = 2 ∨ es = 4)
    (h1 : data[1]? = some b1) (h2 : data[2]? = some b2)
    (h7 : (b2 / 8 % 4 ||| (b1 / 128 % 2) * 4) = 7)
    (hhi : data[3 + es]? = some hi) (hlo : data[4 + es]? = some lo)
    (hblo : lo < 256) :
    (GetDeltaTime 4 data es = .ok 0 → ValidateLengthOfMessage 4 es 7 0 length = true →
      length - 2 = 4 + es ∧ lo = 0 ∧
      GetScale 4 data length = .ok { scale := 8, scale1 := 7, scale2 := 8 }) ∧
    (∀ dt : Nat, 0 < dt → ValidateLengthOfMessage 4 es 7 dt length = true →
      length - 2 = (3 + es + 2) + (es - 1) ∧
      ∀ b : Nat, data[(3 + es + 2) + (es - 1)]? = some b →
        GetScale 4 data length
          = .ok { scale := (b + 8) % 256, scale1 := 7, scale2 := (b + 8) % 256 }) ∧
    (∀ version dt : Nat, 5 ≤ version → ValidateLengthOfMessage version es 7 dt length = true →
      length - 2 = 3 + es + 2 + (if dt > 0 then es else 0)) := by
  have hes4 : es ≤ 4 := by omega
  refine ⟨?_, ?_, ?_⟩
  · intro hdt hlen
    have hlen' : length = 6 + es := by
      simp [ValidateLengthOfMessage, expectedLength] at hlen
      omega
    have hlo0 : lo = 0 := by
      have hrhi := readByte_of_getElem? hhi
      have hrlo := readByte_of_getElem? hlo
      simp only [GetDeltaTime, hrhi, hrlo, bind, Except.bind, pure, Except.pure,
        Nat.shiftLeft_eq, Except.ok.injEq] at hdt
      norm_num at hdt
      omega
    refine ⟨by omega, hlo0, ?_⟩
    have hb : data[length - 2]? = some 0 := by
      have : length - 2 = 4 + es := by omega
      rw [this, hlo, hlo0]
    have := GetScale_of_scale2_byte (show (4 : Nat) ≤ 4 by decide)
      ⟨by omega, by rw [hlen']; norm_num; omega⟩ h1 h2 h7 hb
    simpa using this
  · intro dt hpos hlen
    have hlen' : length = 6 + es + es := by
      simp [ValidateLengthOfMessage, expectedLength, hpos] at hlen
      omega
    refine ⟨by omega, ?_⟩
    intro b hb
    have hb' : data[length - 2]? = some b := by
      have : length - 2 = (3 + es + 2) + (es - 1) := by omega
      rw [this, hb]
    exact GetScale_of_scale2_byte (show (4 : Nat) ≤ 4 by decide)
      ⟨by omega, by rw [hlen']; norm_num; omega⟩ h1 h2 h7 hb'
  · intro version dt hv hlen
    have hv1 : 1 ≤ version := by omega
    have hv2 : 2 ≤ version := by omega
    by_cases hpos : 0 < dt
    · simp [ValidateLengthOfMessage, expectedLength, hv1, hv2, hv, hpos] at hlen
      simp only [gt_iff_lt, hpos, if_true]
      omega
    · simp [ValidateLengthOfMessage, expectedLength, hv1, hv2, hv, hpos] at hlen
      simp only [gt_iff_lt, hpos, if_false]
      omega

/-- C25, on the version-4 report with element size 2, value 0x00 0x64 and
delta-time 0, of length 8: the byte read is at index 6 and the scale is 8. -/
theorem GetScale_version4_reads_field_byte_witness :
    GetDeltaTime 4 [0x02, 0x81, 0x5A, 0x00, 0x64, 0x00, 0x00] 2 = .ok 0 ∧
    ValidateLengthOfMessage 4 2 7 0 8 = true ∧
    8 - 2 = 4 + 2 ∧ (0 : Nat) = 0 ∧
    GetScale 4 [0x02, 0x81, 0x5A, 0x00, 0x64, 0x00, 0x00] 8
      = .ok { scale := 8, scale1 := 7, scale2 := 8 } :=
  ⟨by decide, by decide,
    (GetScale_version4_reads_field_byte [0x02, 0x81, 0x5A, 0x00, 0x64, 0x00, 0x00] 8 2
      0x81 0x5A 0x00 0x00 (by decide) (by decide) (by decide) (by decide) (by decide)
      (by decide) (by decide)).1 (by decide) (by decide)⟩

end Meter
